import Mathlib

set_option autoImplicit false

/-!
# GCIF writer pipeline: a shallow embedding

The definitions below follow `src/encoder/ImageRGBAWriter.cpp` and
`src/encoder/ImagePaletteWriter.cpp` function by function.

* Buffers reached through raw pointers are flat memories `Mem` indexed by the
  offset from the buffer's base pointer; pointer variables are offsets.
* `u16` counters are natural numbers reduced modulo `65536` after each update,
  `u8` values are reduced modulo `256`.
* A `for` loop over a `u16` counter that is advanced by the tile size can wrap
  around; such loops carry a fuel of `65537` steps, one more than the number of
  values of the counter, and yield `none` when the fuel is used up.
* Collaborators whose code is not part of the sources at hand (the spatial and
  colour filter tables, the entropy estimator, the chaos context, the
  monochrome coder, the palette optimizer, the bit writer) are parameters.
-/

namespace GCIF

/-- Flat byte memory seen from a base pointer: `m off` is the cell at `base + off`. -/
abbrev Mem := Nat → Nat

/-- Store `v` at offset `i`. -/
def Mem.set (m : Mem) (i v : Nat) : Mem := fun j => if j = i then v else m j

/-- Fuel that exhausts every `u16` counter loop: a loop whose only loop-carried
control variable is a `u16` either stops within `65536` steps or never. -/
def u16Fuel : Nat := 65537

/-- Constants of `ImageRGBAWriter.hpp` and `Filters.hpp`; the headers are not
among the sources, so the constants are parameters of the embedding. -/
structure Consts where
  MASK_TILE : Nat
  TODO_TILE : Nat
  MAX_PASSES : Nat
  MAX_FILTERS : Nat
  SF_FIXED : Nat
  SF_COUNT : Nat
  CF_COUNT : Nat

/-- Modelled from the spec: the constants the specification fixes
(`MAX_FILTERS = 32`, seventeen colour filters, at least four fixed spatial
filters, at least two passes); `MASK_TILE`, `TODO_TILE` and `SF_COUNT` are only
declared in the missing header and are given the sample values `255`, `0`
and `32`. -/
def sampleConsts : Consts :=
  { MASK_TILE := 255, TODO_TILE := 0, MAX_PASSES := 2, MAX_FILTERS := 32,
    SF_FIXED := 4, SF_COUNT := 32, CF_COUNT := 17 }

/-- The two tile arrays `_sf_tiles`, `_cf_tiles` together with the number of
entries the running pointers `sf`, `cf` have advanced from the array base. -/
structure TileArrays where
  sf : Mem
  cf : Mem
  pos : Nat

namespace ImageRGBAWriter

/-- `ImageRGBAWriter::IsMasked(u16 x, u16 y)` (lines 627-629): the conjunction of
the transparency mask and the LZ coverage predicate, both taking `u16`
coordinates. -/
def IsMasked (masked visited : Nat → Nat → Bool) (x y : Nat) : Bool :=
  masked (x % 65536) (y % 65536) && visited (x % 65536) (y % 65536)

/-- Inner loop of `maskTiles`, `while (cx-- > 0 && px < size_x)` (lines 73-81).
Its body tests `IsMasked(px, py)` and does not advance `px`. The result is
`true` when the loop is left through `goto next_tile`. -/
def maskTiles_cols (isMasked : Nat → Nat → Bool) (size_x px py : Nat) : Nat → Bool
  | 0 => false
  | cx + 1 =>
    if px < size_x then
      if !isMasked px py then true
      else maskTiles_cols isMasked size_x px py cx
    else false

/-- Row loop of `maskTiles`, `while (cy-- > 0 && py < size_y)` (lines 71-83);
`true` when an unmasked element was met. -/
def maskTiles_rows (isMasked : Nat → Nat → Bool) (size_x size_y tile_size_x x : Nat) :
    Nat → Nat → Bool
  | 0, _ => false
  | cy + 1, py =>
    if py < size_y then
      if maskTiles_cols isMasked size_x x py tile_size_x then true
      else maskTiles_rows isMasked size_x size_y tile_size_x x cy ((py + 1) % 65536)
    else false

/-- Value `maskTiles` stores for the tile whose corner is `(x, y)`. -/
def maskTiles_entry (c : Consts) (isMasked : Nat → Nat → Bool)
    (size_x size_y tile_size_x tile_size_y x y : Nat) : Nat :=
  if maskTiles_rows isMasked size_x size_y tile_size_x x tile_size_y y then c.TODO_TILE
  else c.MASK_TILE

/-- Loop `for (u16 x = 0; x < size_x; x += tile_size_x)` of `maskTiles`
(line 67): each tile stores one entry through `*cf++`, `*sf++`. -/
def maskTiles_xLoop (c : Consts) (isMasked : Nat → Nat → Bool)
    (size_x size_y tile_size_x tile_size_y y : Nat) : Nat → Nat → TileArrays → Option TileArrays
  | 0, _, _ => none
  | fuel + 1, x, t =>
    if x < size_x then
      let v := maskTiles_entry c isMasked size_x size_y tile_size_x tile_size_y x y
      maskTiles_xLoop c isMasked size_x size_y tile_size_x tile_size_y y fuel
        ((x + tile_size_x) % 65536)
        { sf := t.sf.set t.pos v, cf := t.cf.set t.pos v, pos := t.pos + 1 }
    else some t

/-- Loop `for (u16 y = 0; y < size_y; y += tile_size_y)` of `maskTiles` (line 66). -/
def maskTiles_yLoop (c : Consts) (isMasked : Nat → Nat → Bool)
    (size_x size_y tile_size_x tile_size_y : Nat) : Nat → Nat → TileArrays → Option TileArrays
  | 0, _, _ => none
  | fuel + 1, y, t =>
    if y < size_y then
      match maskTiles_xLoop c isMasked size_x size_y tile_size_x tile_size_y y u16Fuel 0 t with
      | none => none
      | some t1 =>
        maskTiles_yLoop c isMasked size_x size_y tile_size_x tile_size_y fuel
          ((y + tile_size_y) % 65536) t1
    else some t

/-- `ImageRGBAWriter::maskTiles` (lines 59-91). `sf0`, `cf0` are the contents of
the freshly resized tile arrays; `none` means the tile loops do not stop. -/
def maskTiles (c : Consts) (isMasked : Nat → Nat → Bool)
    (size_x size_y tile_size_x tile_size_y : Nat) (sf0 cf0 : Mem) : Option TileArrays :=
  maskTiles_yLoop c isMasked (size_x % 65536) (size_y % 65536)
    (tile_size_x % 65536) (tile_size_y % 65536) u16Fuel 0 { sf := sf0, cf := cf0, pos := 0 }

/-- A colour or residual triple of bytes. -/
abbrev RGB := Nat × Nat × Nat

/-- The `safe` member of a spatial filter, `safe(data, FPT, x, y, size_x)`: it
sees the pixel buffer, the byte offset of `data` in it, the coordinates and the
row length it is called with, and yields the predicted `(r, g, b)`. -/
abbrev SafeFilter := Mem → Nat → Nat → Nat → Nat → RGB

/-- The filter tables of `Filters.hpp` and the score of `RGBAChaos`, which are
not among the sources: `safe f` is `RGBA_FILTERS[f].safe`, `rgb2yuv cf` is
`RGB2YUV_FILTERS[cf]`, `residualScore` is `RGBAChaos::ResidualScore`. -/
structure FilterBank where
  safe : Nat → SafeFilter
  rgb2yuv : Nat → RGB → RGB
  residualScore : Nat → Int

/-- Subtraction of two `u8` values, stored into a `u8`. -/
def sub8 (a b : Nat) : Nat := (a + 256 - b % 256) % 256

/-- The residual `data[0..2] - pred[0..2]` of the pixel at byte offset `data`. -/
def residualRGB (rgba : Mem) (data : Nat) (pred : RGB) : RGB :=
  (sub8 (rgba data) pred.1, sub8 (rgba (data + 1)) pred.2.1, sub8 (rgba (data + 2)) pred.2.2)

/-- Inner element loop shared by `designFilters` (lines 122-144), `designTiles`
(lines 259-278 and 296-329) and `computeResiduals` (lines 437-457):
`while (cx-- > 0 && px < size_x) { if (!IsMasked(px, py)) visit; data += dstep; }`.
No statement of the body advances `px`. The result lists, in order, the
`(data, px, py)` the body is run with under `!IsMasked(px, py)`. -/
def tileCols (isMasked : Nat → Nat → Bool) (size_x px py dstep : Nat) :
    Nat → Nat → List (Nat × Nat × Nat)
  | 0, _ => []
  | cx + 1, data =>
    if px < size_x then
      (if !isMasked px py then [(data, px, py)] else []) ++
        tileCols isMasked size_x px py dstep cx (data + dstep)
    else []

/-- Row loop shared by the same functions:
`while (cy-- > 0 && py < size_y) { data = row; px = x; cx = tile_size_x; ...; ++py; row += rstep; }`. -/
def tileRows (isMasked : Nat → Nat → Bool) (size_x size_y tile_size_x x dstep rstep : Nat) :
    Nat → Nat → Nat → List (Nat × Nat × Nat)
  | 0, _, _ => []
  | cy + 1, py, row =>
    if py < size_y then
      tileCols isMasked size_x x py dstep tile_size_x row ++
        tileRows isMasked size_x size_y tile_size_x x dstep rstep cy ((py + 1) % 65536)
          (row + rstep)
    else []

/-- Geometry of the image and its tiles as `init` stores it. -/
structure Geometry where
  size_x : Nat
  size_y : Nat
  tile_size_x : Nat
  tile_size_y : Nat
  tiles_x : Nat
  tiles_y : Nat

/-- Body of the element loop of `computeResiduals` (lines 440-454) for the
element at byte offset `data`: the three residual bytes are stored at the same
offset of the residual buffer (`data + residual_delta`). -/
def computeResiduals_store (sf : SafeFilter) (cf : RGB → RGB) (rgba : Mem) (size_x : Nat)
    (res : Mem) (e : Nat × Nat × Nat) : Mem :=
  let yuv := cf (residualRGB rgba e.1 (sf rgba e.1 e.2.1 e.2.2 size_x))
  ((res.set e.1 yuv.1).set (e.1 + 1) yuv.2.1).set (e.1 + 2) yuv.2.2

/-- One tile of `computeResiduals` (lines 423-460). -/
def computeResiduals_tile (c : Consts) (isMasked : Nat → Nat → Bool) (sfTable : Nat → SafeFilter)
    (fb : FilterBank) (rgba : Mem) (size_x size_y tile_size_x tile_size_y : Nat) (t : TileArrays)
    (x y topleft : Nat) (res : Mem) : Mem :=
  let sfi := t.sf t.pos
  if sfi = c.MASK_TILE then res
  else
    let cfi := t.cf t.pos
    (tileRows isMasked size_x size_y tile_size_x x 4 (size_x * 4) tile_size_y y topleft).foldl
      (computeResiduals_store (sfTable sfi) (fb.rgb2yuv cfi) rgba size_x) res

/-- Loop `for (u16 x = 0; x < size_x; x += tile_size_x, ++sf, ++cf, topleft += tile_size_x*4)`
of `computeResiduals` (line 422). The state is the tile pointer, `topleft` and
the residual buffer. -/
def computeResiduals_xLoop (c : Consts) (isMasked : Nat → Nat → Bool)
    (sfTable : Nat → SafeFilter) (fb : FilterBank) (rgba : Mem)
    (size_x size_y tile_size_x tile_size_y y : Nat) :
    Nat → Nat → TileArrays → Nat → Mem → Option (TileArrays × Nat × Mem)
  | 0, _, _, _, _ => none
  | fuel + 1, x, t, topleft, res =>
    if x < size_x then
      computeResiduals_xLoop c isMasked sfTable fb rgba size_x size_y tile_size_x tile_size_y y
        fuel ((x + tile_size_x) % 65536) { t with pos := t.pos + 1 } (topleft + tile_size_x * 4)
        (computeResiduals_tile c isMasked sfTable fb rgba size_x size_y tile_size_x tile_size_y
          t x y topleft res)
    else some (t, topleft, res)

/-- Loop `for (u16 y = 0; y < size_y; y += tile_size_y)` of `computeResiduals`
(line 421); `topleft` is carried over from one tile row to the next. -/
def computeResiduals_yLoop (c : Consts) (isMasked : Nat → Nat → Bool)
    (sfTable : Nat → SafeFilter) (fb : FilterBank) (rgba : Mem)
    (size_x size_y tile_size_x tile_size_y : Nat) :
    Nat → Nat → TileArrays → Nat → Mem → Option (TileArrays × Nat × Mem)
  | 0, _, _, _, _ => none
  | fuel + 1, y, t, topleft, res =>
    if y < size_y then
      match computeResiduals_xLoop c isMasked sfTable fb rgba size_x size_y tile_size_x
          tile_size_y y u16Fuel 0 t topleft res with
      | none => none
      | some (t1, topleft1, res1) =>
        computeResiduals_yLoop c isMasked sfTable fb rgba size_x size_y tile_size_x tile_size_y
          fuel ((y + tile_size_y) % 65536) t1 topleft1 res1
    else some (t, topleft, res)

/-- `ImageRGBAWriter::computeResiduals` (lines 406-463). `sfTable` is the member
array `_sf`, `t` the tile arrays, `res0` the content of the residual buffer
right after `resize`. The result is the residual buffer. -/
def computeResiduals (c : Consts) (isMasked : Nat → Nat → Bool) (sfTable : Nat → SafeFilter)
    (fb : FilterBank) (rgba : Mem) (g : Geometry) (t : TileArrays) (res0 : Mem) : Option Mem :=
  (computeResiduals_yLoop c isMasked sfTable fb rgba (g.size_x % 65536) (g.size_y % 65536)
    (g.tile_size_x % 65536) (g.tile_size_y % 65536) u16Fuel 0 { t with pos := 0 } 0 res0).map
    (fun r => r.2.2)

/-- Values taken by the counter of `for (int v = 0; v < n; v += step)` for a
positive `step` (the tile size is `1 << 2`): `0, step, 2*step, ...` below `n`. -/
def intSteps (n step : Nat) : List Nat :=
  (List.range ((n + step - 1) / step)).map (fun k => k * step)

/-- One entry of the array `FilterScorer::getTop` returns. -/
structure Score where
  index : Nat
  score : Int
  deriving DecidableEq, Repr

/-- Modelled from the spec: the `FilterScorer` of section 4.3, whose code is not
among the sources. It keeps one accumulated score per index; the list position
is the index. -/
abbrev FilterScorer := List Int

/-- Modelled from the spec: `init(N)` followed by `reset()`, an array of `N`
zero scores. -/
def FilterScorer.zero (n : Nat) : FilterScorer := List.replicate n 0

/-- Modelled from the spec: `add(i, s)` accumulates `s` on index `i`. -/
def FilterScorer.add : FilterScorer → Nat → Int → FilterScorer
  | [], _, _ => []
  | a :: l, 0, v => (a + v) :: l
  | a :: l, i + 1, v => a :: FilterScorer.add l i v

/-- Modelled from the spec: `getTop(k, descending)`, the `k` highest-scored
entries, highest first, ties kept in index order (a stable sort). -/
def FilterScorer.getTop (s : FilterScorer) (k : Nat) : List Score :=
  (((List.range s.length).zip s).map (fun p => Score.mk p.1 p.2)).insertionSort
    (fun a b => b.score ≤ a.score) |>.take k

/-- Entry `top[j]` of a `getTop` result. -/
def topAt (top : List Score) (j : Nat) : Score := top.getD j ⟨0, 0⟩

/-- Scores of one tile in `designFilters` (lines 114-147): every visited
element adds, for each filter `f`, the score of its residual against
`RGBA_FILTERS[f].safe(data, FPT, x, y, size_x)`, called with the tile corner
`(x, y)`. -/
def designFilters_scores (c : Consts) (isMasked : Nat → Nat → Bool) (fb : FilterBank)
    (rgba : Mem) (size_x size_y tile_size_x tile_size_y x y topleft : Nat) : FilterScorer :=
  (tileRows isMasked size_x size_y tile_size_x x 4 (size_x * 4) tile_size_y y topleft).foldl
    (fun scores e =>
      (List.range c.SF_COUNT).foldl
        (fun sc f =>
          let rr := residualRGB rgba e.1 (fb.safe f rgba e.1 x y size_x)
          sc.add f (fb.residualScore rr.1 + fb.residualScore rr.2.1 + fb.residualScore rr.2.2))
        scores)
    (FilterScorer.zero c.SF_COUNT)

/-- Awards of one tile (lines 149-153): 5, 3, 1, 1 for its four best filters. -/
def designFilters_award (awards : FilterScorer) (top : List Score) : FilterScorer :=
  (((awards.add (topAt top 0).index 5).add (topAt top 1).index 3).add
    (topAt top 2).index 1).add (topAt top 3).index 1

/-- Tile loop of `designFilters` over one tile row (line 109): the state is the
tile pointer, `topleft` and the awards; a `MASK_TILE` tile is skipped. -/
def designFilters_row (c : Consts) (isMasked : Nat → Nat → Bool) (fb : FilterBank) (rgba : Mem)
    (g : Geometry) (sf : Mem) (y : Nat) (st : Nat × Nat × FilterScorer) :
    Nat × Nat × FilterScorer :=
  (intSteps g.size_x g.tile_size_x).foldl
    (fun st x =>
      let awards :=
        if sf st.1 = c.MASK_TILE then st.2.2
        else designFilters_award st.2.2
          ((designFilters_scores c isMasked fb rgba (g.size_x % 65536) (g.size_y % 65536)
            (g.tile_size_x % 65536) (g.tile_size_y % 65536) x y st.2.1).getTop 4)
      (st.1 + 1, st.2.1 + g.tile_size_x * 4, awards))
    st

/-- Awards aggregated by `designFilters` over all tiles (lines 105-155). -/
def designFilters_awards (c : Consts) (isMasked : Nat → Nat → Bool) (fb : FilterBank)
    (rgba : Mem) (g : Geometry) (sf : Mem) : FilterScorer :=
  ((intSteps g.size_y g.tile_size_y).foldl
    (fun st y => designFilters_row c isMasked fb rgba g sf y st)
    (0, 0, FilterScorer.zero c.SF_COUNT)).2.2

/-- Outcome of `designFilters`: the array `_sf_indices`, `_sf_count` and the
value of the local `coverage` when the selection loop is left. -/
structure FilterSelection where
  sf_indices : Mem
  sf_count : Nat
  coverage : Int

/-- Copy of the fixed functions (lines 158-161): `_sf_indices[jj] = jj`. -/
def designFilters_fixed (c : Consts) (idx0 : Mem) : Mem :=
  (List.range c.SF_FIXED).foldl (fun m jj => m.set jj jj) idx0

/-- Selection loop `while (count--)` of `designFilters` (lines 173-193); `top`
is the rest of the array returned by `getTop`. -/
def designFilters_select (c : Consts) (thresh : Int) :
    Nat → List Score → FilterSelection → FilterSelection
  | 0, _, s => s
  | count + 1, top, s =>
    let e := topAt top 0
    let coverage := s.coverage + Int.tdiv e.score 5
    let s1 : FilterSelection :=
      if c.SF_FIXED ≤ e.index then
        { sf_indices := s.sf_indices.set s.sf_count e.index, sf_count := s.sf_count + 1,
          coverage := coverage }
      else { s with coverage := coverage }
    if thresh ≤ coverage then s1
    else designFilters_select c thresh count top.tail s1

/-- `ImageRGBAWriter::designFilters` (lines 93-196). `sf` is `_sf_tiles` as
`maskTiles` left it, `idx0` the previous content of `_sf_indices`. -/
def designFilters (c : Consts) (isMasked : Nat → Nat → Bool) (fb : FilterBank) (rgba : Mem)
    (g : Geometry) (sf : Mem) (idx0 : Mem) : FilterSelection :=
  designFilters_select c ((g.tiles_x * g.tiles_y : Nat) : Int) (c.MAX_FILTERS - c.SF_FIXED)
    ((designFilters_awards c isMasked fb rgba g sf).getTop (c.MAX_FILTERS - c.SF_FIXED))
    { sf_indices := designFilters_fixed c idx0, sf_count := c.SF_FIXED, coverage := 0 }

/-- The member array `_sf` after `designFilters`: `_sf[k] = RGBA_FILTERS[_sf_indices[k]]`
for every `k` below `_sf_count`. -/
def sfTable (fb : FilterBank) (sel : FilterSelection) : Nat → SafeFilter :=
  fun k => fb.safe (sel.sf_indices k)

/-- The operations of `EntropyEstimator` the writer calls; the class is not
among the sources, so its state type and operations are parameters. -/
structure EntropyEstimatorOps (E : Type) where
  init : E
  add : E → List Nat → E
  addSingle : E → Nat → E
  subtract : E → List Nat → E
  entropy : E → List Nat → Int
  entropyOverall : E → Int

/-- The variables of `designTiles` that live across tiles: `passes`,
`revisitCount`, the tile arrays with the running pointers `sf`, `cf`, and the
three estimators `ee[0..2]`. -/
structure DesignState (E : Type) where
  passes : Nat
  revisitCount : Int
  tiles : TileArrays
  ee0 : E
  ee1 : E
  ee2 : E

/-- How a loop body is left: it falls through to the next iteration, or the
enclosing function returns. -/
inductive Flow (σ : Type) where
  | next (s : σ)
  | done (s : σ)

/-- The YUV codes of the visited elements `elems` under spatial filter `sf` and
colour filter `cf` (lines 262-274 and 305-319). -/
def designTiles_codes (sf : SafeFilter) (cf : RGB → RGB) (rgba : Mem) (size_x : Nat)
    (elems : List (Nat × Nat × Nat)) : List RGB :=
  elems.map (fun e => cf (residualRGB rgba e.1 (sf rgba e.1 e.2.1 e.2.2 size_x)))

/-- The candidate pairs in the order of the loops at lines 341-342. -/
def designTiles_candidates (sf_count cf_count : Nat) : List (Nat × Nat) :=
  (List.range sf_count).flatMap (fun sfi => (List.range cf_count).map (fun cfi => (sfi, cfi)))

/-- Entropy evaluation of `designTiles` (lines 335-357): the triple
`(lowest_entropy, best_sf, best_cf)` after all candidates were compared. -/
def designTiles_best {E : Type} (c : Consts) (ops : EntropyEstimatorOps E)
    (sfT : Nat → SafeFilter) (fb : FilterBank) (rgba : Mem) (sf_count size_x : Nat)
    (s : DesignState E) (elems : List (Nat × Nat × Nat)) : Int × Nat × Nat :=
  (designTiles_candidates sf_count c.CF_COUNT).foldl
    (fun best cand =>
      let codes := designTiles_codes (sfT cand.1) (fb.rgb2yuv cand.2) rgba size_x elems
      let entropy := ops.entropy s.ee0 (codes.map (fun v => v.1)) +
        ops.entropy s.ee1 (codes.map (fun v => v.2.1)) +
        ops.entropy s.ee2 (codes.map (fun v => v.2.2))
      if entropy < best.1 then (entropy, cand.1, cand.2) else best)
    (0x7fffffff, 0, 0)

/-- The revisit block of `designTiles` (lines 244-286), entered when
`passes > 0`. -/
def designTiles_revisit {E : Type} (isMasked : Nat → Nat → Bool) (ops : EntropyEstimatorOps E)
    (sfT : Nat → SafeFilter) (fb : FilterBank) (rgba : Mem)
    (size_x size_y tile_size_x tile_size_y x y topleft osf ocf : Nat) (s : DesignState E) :
    Flow (DesignState E) :=
  if 0 < s.passes then
    if s.revisitCount - 1 < 0 then Flow.done { s with revisitCount := s.revisitCount - 1 }
    else
      let codes := designTiles_codes (sfT osf) (fb.rgb2yuv ocf) rgba size_x
        (tileRows isMasked size_x size_y tile_size_x x 4 (size_x * 4) tile_size_y y topleft)
      Flow.next { s with
        revisitCount := s.revisitCount - 1
        ee0 := ops.subtract s.ee0 (codes.map (fun v => v.1))
        ee1 := ops.subtract s.ee1 (codes.map (fun v => v.2.1))
        ee2 := ops.subtract s.ee2 (codes.map (fun v => v.2.2)) }
  else Flow.next s

/-- Body of the tile loop of `designTiles` (lines 234-360). The candidate codes
are gathered with `++data` and `row += size_x` (lines 328, 331); the chosen
pair is stored through `*sf`, `*cf`. -/
def designTiles_tile {E : Type} (c : Consts) (isMasked : Nat → Nat → Bool)
    (ops : EntropyEstimatorOps E) (sfT : Nat → SafeFilter) (fb : FilterBank) (rgba : Mem)
    (sf_count size_x size_y tile_size_x tile_size_y x y topleft : Nat) (s : DesignState E) :
    Flow (DesignState E) :=
  let osf := s.tiles.sf s.tiles.pos
  if osf = c.MASK_TILE then Flow.next s
  else
    let ocf := s.tiles.cf s.tiles.pos
    match designTiles_revisit isMasked ops sfT fb rgba size_x size_y tile_size_x tile_size_y
        x y topleft osf ocf s with
    | Flow.done s1 => Flow.done s1
    | Flow.next s1 =>
      let best := designTiles_best c ops sfT fb rgba sf_count size_x s1
        (tileRows isMasked size_x size_y tile_size_x x 1 size_x tile_size_y y topleft)
      Flow.next { s1 with
        tiles := { sf := s1.tiles.sf.set s1.tiles.pos best.2.1
                   cf := s1.tiles.cf.set s1.tiles.pos best.2.2
                   pos := s1.tiles.pos } }

/-- Loop `for (u16 x = 0; x < size_x; x += tile_size_x, ++sf, ++cf, topleft += tile_size_x * 4, ++tx)`
of `designTiles` (line 233). -/
def designTiles_xLoop {E : Type} (c : Consts) (isMasked : Nat → Nat → Bool)
    (ops : EntropyEstimatorOps E) (sfT : Nat → SafeFilter) (fb : FilterBank) (rgba : Mem)
    (sf_count size_x size_y tile_size_x tile_size_y y : Nat) :
    Nat → Nat → Nat → DesignState E → Option (Flow (Nat × DesignState E))
  | 0, _, _, _ => none
  | fuel + 1, x, topleft, s =>
    if x < size_x then
      match designTiles_tile c isMasked ops sfT fb rgba sf_count size_x size_y tile_size_x
          tile_size_y x y topleft s with
      | Flow.done s1 => some (Flow.done (topleft, s1))
      | Flow.next s1 =>
        designTiles_xLoop c isMasked ops sfT fb rgba sf_count size_x size_y tile_size_x
          tile_size_y y fuel ((x + tile_size_x) % 65536) (topleft + tile_size_x * 4)
          { s1 with tiles := { s1.tiles with pos := s1.tiles.pos + 1 } }
    else some (Flow.next (topleft, s))

/-- Loop `for (u16 y = 0; y < size_y; y += tile_size_y, ++ty)` of `designTiles`
(line 231). -/
def designTiles_yLoop {E : Type} (c : Consts) (isMasked : Nat → Nat → Bool)
    (ops : EntropyEstimatorOps E) (sfT : Nat → SafeFilter) (fb : FilterBank) (rgba : Mem)
    (sf_count size_x size_y tile_size_x tile_size_y : Nat) :
    Nat → Nat → Nat → DesignState E → Option (Flow (Nat × DesignState E))
  | 0, _, _, _ => none
  | fuel + 1, y, topleft, s =>
    if y < size_y then
      match designTiles_xLoop c isMasked ops sfT fb rgba sf_count size_x size_y tile_size_x
          tile_size_y y u16Fuel 0 topleft s with
      | none => none
      | some (Flow.done r) => some (Flow.done r)
      | some (Flow.next r) =>
        designTiles_yLoop c isMasked ops sfT fb rgba sf_count size_x size_y tile_size_x
          tile_size_y fuel ((y + tile_size_y) % 65536) r.1 r.2
    else some (Flow.next (topleft, s))

/-- Loop `while (passes < MAX_PASSES)` of `designTiles` (lines 227-365). One
unit of `fuel` pays for one sweep. Each sweep starts with `topleft = _rgba`;
the pointers `sf`, `cf` and the counter `passes` are those the previous sweep
left, since the loop body ends at line 365 without touching them. -/
def designTiles_while {E : Type} (c : Consts) (isMasked : Nat → Nat → Bool)
    (ops : EntropyEstimatorOps E) (sfT : Nat → SafeFilter) (fb : FilterBank) (rgba : Mem)
    (sf_count size_x size_y tile_size_x tile_size_y : Nat) :
    Nat → DesignState E → Option (DesignState E)
  | 0, _ => none
  | fuel + 1, s =>
    if s.passes < c.MAX_PASSES then
      match designTiles_yLoop c isMasked ops sfT fb rgba sf_count size_x size_y tile_size_x
          tile_size_y u16Fuel 0 0 s with
      | none => none
      | some (Flow.done r) => some r.2
      | some (Flow.next r) =>
        designTiles_while c isMasked ops sfT fb rgba sf_count size_x size_y tile_size_x
          tile_size_y fuel r.2
    else some s

/-- State of `designTiles` when the `while` loop is entered (lines 205-226). -/
def designTiles_start {E : Type} (ops : EntropyEstimatorOps E) (revisitCount : Int)
    (t : TileArrays) : DesignState E :=
  { passes := 0, revisitCount := revisitCount, tiles := { t with pos := 0 },
    ee0 := ops.init, ee1 := ops.init, ee2 := ops.init }

/-- `ImageRGBAWriter::designTiles` (lines 198-366), run for at most `fuel`
sweeps: `some s` when the function returns within that many sweeps with the
tile arrays of `s`, `none` when it is still running. -/
def designTiles {E : Type} (c : Consts) (isMasked : Nat → Nat → Bool)
    (ops : EntropyEstimatorOps E) (sfT : Nat → SafeFilter) (fb : FilterBank) (rgba : Mem)
    (g : Geometry) (sf_count : Nat) (revisitCount : Int) (t : TileArrays) (fuel : Nat) :
    Option (DesignState E) :=
  designTiles_while c isMasked ops sfT fb rgba sf_count (g.size_x % 65536) (g.size_y % 65536)
    (g.tile_size_x % 65536) (g.tile_size_y % 65536) fuel (designTiles_start ops revisitCount t)

/-- The operations of `RGBAChaos` the writer calls on `_chaos`; the class is
not among the sources, so its state type and operations are parameters. -/
structure ChaosOps (C : Type) where
  init : Nat → Nat → C
  start : C → C
  startRow : C → C
  zero : C → C
  store : C → Nat → Nat → Nat → Nat → C
  getChaosY : C → Nat
  getChaosU : C → Nat
  getChaosV : C → Nat
  getBinCount : C → Nat

/-- The entropy encoders of the RGBA writer: `_y_encoder[bin]`, `_u_encoder[bin]`,
`_v_encoder[bin]`. -/
inductive Encoder where
  | Y (bin : Nat)
  | U (bin : Nat)
  | V (bin : Nat)
  deriving DecidableEq, Repr

/-- The monochrome coders the RGBA writer names: `_sf_encoder`, `_cf_encoder`,
`_a_encoder` (initialised by `compressAlpha`, used by `writePixels`) and
`_af_encoder` (named by `writeTables` only, line 703). -/
inductive Mono where
  | SF
  | CF
  | A
  | AF
  deriving DecidableEq, Repr

/-- A call the RGBA writer makes on a collaborator that is not among the
sources: the entropy encoder contract (`add`, `finalize`, `writeTables`,
`write`), the monochrome coder contract and the bit writer. Only the calls that
are handed the `ImageWriter` can put bits into the stream. -/
inductive Call where
  | writeBits (v n : Nat)
  | encAdd (e : Encoder) (sym : Nat)
  | encFinalize (e : Encoder)
  | encWriteTables (e : Encoder)
  | encWrite (e : Encoder) (sym : Nat)
  | monoWriteTables (m : Mono)
  | monoWriteRowHeader (m : Mono) (y : Nat)
  | monoWrite (m : Mono) (x y : Nat)
  deriving DecidableEq, Repr

/-- Loop state of `writePixels`: the chaos context, the pointer `residuals` as
an offset into the residual buffer, and the calls made so far. -/
structure PixelState (C : Type) where
  chaos : C
  residuals : Nat
  calls : List Call

/-- Body of the pixel loop of `writePixels` (lines 768-789). -/
def writePixels_pixel {C : Type} (ch : ChaosOps C) (isMasked : Nat → Nat → Bool) (res : Mem)
    (y : Nat) (st : PixelState C) (x : Nat) : PixelState C :=
  if isMasked x y then
    { chaos := ch.zero st.chaos, residuals := st.residuals + 4, calls := st.calls }
  else
    let chaos_y := ch.getChaosY st.chaos
    let chaos_u := ch.getChaosU st.chaos
    let chaos_v := ch.getChaosV st.chaos
    { chaos := ch.store st.chaos (res st.residuals) (res (st.residuals + 1))
        (res (st.residuals + 2)) 0
      residuals := st.residuals + 4
      calls := st.calls ++
        [Call.encAdd (Encoder.Y chaos_y) (res st.residuals),
         Call.encAdd (Encoder.U chaos_u) (res (st.residuals + 1)),
         Call.encAdd (Encoder.V chaos_v) (res (st.residuals + 2)),
         Call.monoWrite Mono.A x y] }

/-- Body of the scanline loop of `writePixels` (lines 755-790); `tile_mask` is
`_tile_size_y - 1` as a `u16`. -/
def writePixels_row {C : Type} (ch : ChaosOps C) (isMasked : Nat → Nat → Bool) (res : Mem)
    (size_x tile_mask : Nat) (st : PixelState C) (y : Nat) : PixelState C :=
  let st1 : PixelState C := { st with chaos := ch.startRow st.chaos }
  let st2 : PixelState C :=
    if y &&& tile_mask = 0 then
      { st1 with calls := st1.calls ++
          [Call.monoWriteRowHeader Mono.SF y, Call.monoWriteRowHeader Mono.CF y,
           Call.monoWriteRowHeader Mono.A y] }
    else st1
  (List.range size_x).foldl (writePixels_pixel ch isMasked res y) st2

/-- `ImageRGBAWriter::writePixels` (lines 742-803): the calls it makes, in
order. The image sizes are at most `65535` (data model), so the `u16` counters
`y` and `x`, advanced by one, take each value below the size once. The scratch
array `_seen_filter` is written and never read, and is left out. -/
def writePixels {C : Type} (ch : ChaosOps C) (isMasked : Nat → Nat → Bool) (res : Mem)
    (g : Geometry) (chaos : C) : List Call :=
  ((List.range g.size_y).foldl
    (writePixels_row ch isMasked res g.size_x ((g.tile_size_y + 65535) % 65536))
    { chaos := ch.start chaos, residuals := 0, calls := [] }).calls

/-- Return codes of the writer (`GCIF_WE_*` of the public header, which is not
among the sources). -/
inductive WriteError where
  | GCIF_WE_OK
  | GCIF_WE_BAD_DIMS
  | GCIF_WE_BAD_PARAMS
  deriving DecidableEq, Repr

/-- The knobs `ImageRGBAWriter` reads from `GCIFKnobs`. -/
structure GCIFKnobs where
  cm_disableEntropy : Bool
  cm_filterSelectFuzz : Int
  cm_revisitCount : Int

/-- The pipeline steps `init` calls (lines 660-668). -/
inductive Step where
  | maskTiles
  | designFilters
  | designTiles
  | computeResiduals
  | compressAlpha
  | designChaos
  | compressSF
  | compressCF
  | initializeEncoders
  deriving DecidableEq, Repr

/-- What `init` leaves behind when it returns: the return code, the pipeline
steps it has run, in order, and the tile arrays, filter selection and residual
buffer they produced. -/
structure InitResult where
  code : WriteError
  steps : List Step
  tiles : Option TileArrays
  selection : Option FilterSelection
  residuals : Option Mem

/-- The geometry `init` derives from the image size (lines 645-654): tiles of
`1 << 2` pixels, `(size + tile_size - 1) >> 2` tiles per axis. -/
def initGeometry (size_x size_y : Nat) : Geometry :=
  { size_x := size_x, size_y := size_y, tile_size_x := 1 <<< 2, tile_size_y := 1 <<< 2,
    tiles_x := (size_x + (1 <<< 2) - 1) >>> 2, tiles_y := (size_y + (1 <<< 2) - 1) >>> 2 }

/-- `ImageRGBAWriter::init` (lines 631-671). `masked` and `visited` are the
predicates of the mask and LZ writers, `sf0`, `cf0`, `idx0`, `res0` the contents
of the buffers before they are written, `fuel` the number of sweeps granted to
`designTiles`; `none` means that `init` has not returned. The steps from
`compressAlpha` on act on collaborators that are not among the sources and do
not influence the return code; they appear in `steps` only. -/
def init {E : Type} (c : Consts) (masked visited : Nat → Nat → Bool)
    (ops : EntropyEstimatorOps E) (fb : FilterBank) (rgba sf0 cf0 idx0 res0 : Mem)
    (size_x size_y : Int) (knobs : GCIFKnobs) (fuel : Nat) : Option InitResult :=
  if size_x < 0 ∨ size_y < 0 then
    some { code := WriteError.GCIF_WE_BAD_DIMS, steps := [], tiles := none,
           selection := none, residuals := none }
  else if (!knobs.cm_disableEntropy && decide (knobs.cm_filterSelectFuzz ≤ 0)) = true then
    some { code := WriteError.GCIF_WE_BAD_PARAMS, steps := [], tiles := none,
           selection := none, residuals := none }
  else
    let g := initGeometry size_x.toNat size_y.toNat
    match maskTiles c (IsMasked masked visited) g.size_x g.size_y g.tile_size_x g.tile_size_y
        sf0 cf0 with
    | none => none
    | some t0 =>
      let sel := designFilters c (IsMasked masked visited) fb rgba g t0.sf idx0
      match designTiles c (IsMasked masked visited) ops (sfTable fb sel) fb rgba g sel.sf_count
          knobs.cm_revisitCount t0 fuel with
      | none => none
      | some d =>
        match computeResiduals c (IsMasked masked visited) (sfTable fb sel) fb rgba g d.tiles
            res0 with
        | none => none
        | some res =>
          some { code := WriteError.GCIF_WE_OK
                 steps := [Step.maskTiles, Step.designFilters, Step.designTiles,
                   Step.computeResiduals, Step.compressAlpha, Step.designChaos,
                   Step.compressSF, Step.compressCF, Step.initializeEncoders]
                 tiles := some d.tiles, selection := some sel, residuals := some res }

/-- Coverage the selection loop has accumulated after examining the first `m`
entries of `top`: the sum of `score / 5` (integer division) over them. -/
def examinedCoverage (top : List Score) (m : Nat) : Int :=
  ((List.range m).map (fun j => Int.tdiv (topAt top j).score 5)).sum

/-- Number of designed filters (index at least `SF_FIXED`) among the first `m`
entries of `top`. -/
def examinedDesigned (c : Consts) (top : List Score) (m : Nat) : Nat :=
  ((List.range m).filter (fun j => decide (c.SF_FIXED ≤ (topAt top j).index))).length

/-- A filter bank whose filters predict zero and leave residuals unchanged; it
serves as a concrete bank where no filter is ever evaluated. -/
def zeroBank : FilterBank :=
  { safe := fun _ _ _ _ _ _ => (0, 0, 0), rgb2yuv := fun _ r => r, residualScore := fun _ => 0 }

/-- The score one pixel contributes for filter `f`:
`ResidualScore(r) + ResidualScore(g) + ResidualScore(b)` of the pixel at byte
offset `data` minus the prediction `RGBA_FILTERS[f].safe(data, FPT, x, y, size_x)`. -/
def pixelScore (fb : FilterBank) (f : Nat) (rgba : Mem) (data x y size_x : Nat) : Int :=
  fb.residualScore (residualRGB rgba data (fb.safe f rgba data x y size_x)).1 +
  fb.residualScore (residualRGB rgba data (fb.safe f rgba data x y size_x)).2.1 +
  fb.residualScore (residualRGB rgba data (fb.safe f rgba data x y size_x)).2.2

/-- The sample constants with a single spatial filter, to keep score arrays
short. -/
def oneFilterConsts : Consts := { sampleConsts with SF_COUNT := 1 }

/-- Modelled from the spec: `MAX_CHAOS_LEVELS`, declared in the header that is
not among the sources; the specification gives `MAX_CHAOS_LEVELS = 16`. -/
def MAX_CHAOS_LEVELS : Nat := 16

/-- Addition of an `int` to a `u32`, stored into the `u32`. -/
def u32add (e : Nat) (v : Int) : Nat := (((e : Int) + v) % 4294967296).toNat

/-- Loop state of the simulation in `designChaos`: the chaos context, the
array `ee` of estimators and the pointer `residuals` as an offset. -/
structure ChaosSim (C E : Type) where
  chaos : C
  ee : Nat → E
  residuals : Nat

/-- Store `v` in entry `i` of an array of estimators. -/
def setEE {E : Type} (ee : Nat → E) (i : Nat) (v : E) : Nat → E :=
  fun j => if j = i then v else ee j

/-- Body of the column loop of `designChaos` (lines 491-509). -/
def designChaos_pixel {C E : Type} (ch : ChaosOps C) (ops : EntropyEstimatorOps E)
    (isMasked : Nat → Nat → Bool) (res : Mem) (y : Nat) (st : ChaosSim C E) (x : Nat) :
    ChaosSim C E :=
  if isMasked x y then
    { chaos := ch.zero st.chaos, ee := st.ee, residuals := st.residuals + 4 }
  else
    let chaos_y := ch.getChaosY st.chaos
    let chaos_u := ch.getChaosU st.chaos
    let chaos_v := ch.getChaosV st.chaos
    let ee1 := setEE st.ee chaos_y (ops.addSingle (st.ee chaos_y) (res st.residuals))
    let ee2 := setEE ee1 chaos_u (ops.addSingle (ee1 chaos_u) (res (st.residuals + 1)))
    let ee3 := setEE ee2 chaos_v (ops.addSingle (ee2 chaos_v) (res (st.residuals + 2)))
    { chaos := ch.store st.chaos (res st.residuals) (res (st.residuals + 1))
        (res (st.residuals + 2)) 0
      ee := ee3
      residuals := st.residuals + 4 }

/-- The simulation of one chaos level in `designChaos` (lines 475-511): the
estimators after the whole residual matrix went through the chaos context. -/
def designChaos_simulate {C E : Type} (ch : ChaosOps C) (ops : EntropyEstimatorOps E)
    (isMasked : Nat → Nat → Bool) (res : Mem) (g : Geometry) (ee : Nat → E)
    (chaos_levels : Nat) : ChaosSim C E :=
  (List.range g.size_y).foldl
    (fun st y =>
      (List.range g.size_x).foldl (designChaos_pixel ch ops isMasked res y)
        { st with chaos := ch.startRow st.chaos })
    { chaos := ch.start (ch.init chaos_levels g.size_x)
      ee := fun ii => if ii < chaos_levels then ops.init else ee ii
      residuals := 0 }

/-- The cost of one chaos level (lines 514-520), a `u32`: for each bin the
overall entropy of its estimator plus `3 * 5 * 256`. -/
def designChaos_cost {E : Type} (ops : EntropyEstimatorOps E) (ee : Nat → E)
    (chaos_levels : Nat) : Nat :=
  (List.range chaos_levels).foldl
    (fun entropy ii => (u32add entropy (ops.entropyOverall (ee ii)) + 3 * 5 * 256) % 4294967296)
    0

/-- Body of the loop over `chaos_levels` in `designChaos` (lines 474-527); the
state is the array `ee`, `best_entropy` and `best_chaos_levels`. -/
def designChaos_level {C E : Type} (ch : ChaosOps C) (ops : EntropyEstimatorOps E)
    (isMasked : Nat → Nat → Bool) (res : Mem) (g : Geometry)
    (st : (Nat → E) × Nat × Nat) (chaos_levels : Nat) : (Nat → E) × Nat × Nat :=
  let sim := designChaos_simulate ch ops isMasked res g st.1 chaos_levels
  let entropy := designChaos_cost ops sim.ee chaos_levels
  if entropy < st.2.1 then (sim.ee, entropy, chaos_levels) else (sim.ee, st.2.1, st.2.2)

/-- The value of `best_chaos_levels` when the loop of `designChaos` ends; `ee0`
is the array of estimators as constructed. -/
def designChaos_best {C E : Type} (max_levels : Nat) (ch : ChaosOps C)
    (ops : EntropyEstimatorOps E) (isMasked : Nat → Nat → Bool) (res : Mem) (g : Geometry)
    (ee0 : Nat → E) : Nat :=
  ((List.range' 1 (max_levels - 1)).foldl (designChaos_level ch ops isMasked res g)
    (ee0, 0x7fffffff, 1)).2.2

/-- `ImageRGBAWriter::designChaos` (lines 465-531): the chaos context it
leaves in `_chaos`. -/
def designChaos {C E : Type} (max_levels : Nat) (ch : ChaosOps C)
    (ops : EntropyEstimatorOps E) (isMasked : Nat → Nat → Bool) (res : Mem) (g : Geometry)
    (ee0 : Nat → E) : C :=
  ch.init (designChaos_best max_levels ch ops isMasked res g ee0) g.size_x

/-- `ImageRGBAWriter::writeTables` (lines 673-740): its calls, in order.
`tile_bits_x` is `_tile_bits_x`, `sel` holds `_sf_count` and `_sf_indices`,
`chaos` is `_chaos`. -/
def writeTables {C : Type} (c : Consts) (ch : ChaosOps C) (tile_bits_x : Nat)
    (sel : FilterSelection) (chaos : C) : List Call :=
  [Call.writeBits tile_bits_x 3, Call.writeBits (sel.sf_count - c.SF_FIXED) 5] ++
  (List.range (sel.sf_count - c.SF_FIXED)).map
    (fun k => Call.writeBits (sel.sf_indices (c.SF_FIXED + k) % 65536) 7) ++
  [Call.monoWriteTables Mono.SF, Call.monoWriteTables Mono.CF, Call.monoWriteTables Mono.AF,
    Call.writeBits (ch.getBinCount chaos - 1) 4] ++
  (List.range (ch.getBinCount chaos)).flatMap
    (fun jj => [Call.encWriteTables (Encoder.Y jj), Call.encWriteTables (Encoder.U jj),
      Call.encWriteTables (Encoder.V jj)])

/-- A minimal chaos context that only remembers its number of levels: every
pixel falls into bin `0`. -/
def levelChaos : ChaosOps Nat :=
  { init := fun levels _ => levels, start := fun s => s, startRow := fun s => s,
    zero := fun s => s, store := fun s _ _ _ _ => s, getChaosY := fun _ => 0,
    getChaosU := fun _ => 0, getChaosV := fun _ => 0, getBinCount := fun s => s }

/-- The state of `designTiles` after `n` completed sweeps of the loop
`while (passes < MAX_PASSES)`: `none` when one of them does not run to its end
or the loop condition fails before. -/
def designTiles_sweeps {E : Type} (c : Consts) (isMasked : Nat → Nat → Bool)
    (ops : EntropyEstimatorOps E) (sfT : Nat → SafeFilter) (fb : FilterBank) (rgba : Mem)
    (sf_count size_x size_y tile_size_x tile_size_y : Nat) :
    Nat → DesignState E → Option (DesignState E)
  | 0, s => some s
  | n + 1, s =>
    if s.passes < c.MAX_PASSES then
      match designTiles_yLoop c isMasked ops sfT fb rgba sf_count size_x size_y tile_size_x
          tile_size_y u16Fuel 0 0 s with
      | some (Flow.next r) =>
        designTiles_sweeps c isMasked ops sfT fb rgba sf_count size_x size_y tile_size_x
          tile_size_y n r.2
      | _ => none
    else none

/-- What `designTiles` does to the tile at position `p`: a `MASK_TILE` tile is
left as it is, any other tile gets a spatial filter below `_sf_count` and a
colour filter below `CF_COUNT`. -/
def TileDesigned (c : Consts) (sf_count : Nat) (old new : TileArrays) (p : Nat) : Prop :=
  (old.sf p = c.MASK_TILE → new.sf p = old.sf p ∧ new.cf p = old.cf p) ∧
  (old.sf p ≠ c.MASK_TILE → new.sf p < sf_count ∧ new.cf p < c.CF_COUNT)

/-- The relation between the state `s` of `designTiles` and a later state `r`
of a run with `passes = 0`: the tile pointer has moved forward, the tiles it
passed are designed, all others are untouched. -/
structure SweptFrom {E : Type} (c : Consts) (sf_count : Nat) (s r : DesignState E) : Prop where
  passes : r.passes = 0
  mono : s.tiles.pos ≤ r.tiles.pos
  frame : ∀ p, p < s.tiles.pos ∨ r.tiles.pos ≤ p →
    r.tiles.sf p = s.tiles.sf p ∧ r.tiles.cf p = s.tiles.cf p
  designed : ∀ p, s.tiles.pos ≤ p → p < r.tiles.pos → TileDesigned c sf_count s.tiles r.tiles p

/-- An entropy estimator without state that estimates every buffer at zero
bits; it serves as a concrete estimator in examples. -/
def unitEstimator : EntropyEstimatorOps Unit :=
  { init := (), add := fun _ _ => (), addSingle := fun _ _ => (), subtract := fun _ _ => (),
    entropy := fun _ _ => 0, entropyOverall := fun _ => 0 }

/-- The tile arrays `maskTiles` leaves for a 1x1 image whose pixel is not
masked, starting from zeroed arrays: one `TODO_TILE` entry. -/
def oneTodoTile : TileArrays :=
  { sf := Mem.set (fun _ => 0) 0 sampleConsts.TODO_TILE,
    cf := Mem.set (fun _ => 0) 0 sampleConsts.TODO_TILE, pos := 1 }

/-- The entropy `designTiles` computes for the candidate pair `cand` (lines
343-345): `ee[0].entropy` of its Y codes plus `ee[1].entropy` of its U codes
plus `ee[2].entropy` of its V codes, for the elements `elems`. -/
def designTiles_entropy {E : Type} (ops : EntropyEstimatorOps E) (sfT : Nat → SafeFilter)
    (fb : FilterBank) (rgba : Mem) (size_x : Nat) (s : DesignState E)
    (elems : List (Nat × Nat × Nat)) (cand : Nat × Nat) : Int :=
  ops.entropy s.ee0
      ((designTiles_codes (sfT cand.1) (fb.rgb2yuv cand.2) rgba size_x elems).map (fun v => v.1)) +
    ops.entropy s.ee1
      ((designTiles_codes (sfT cand.1) (fb.rgb2yuv cand.2) rgba size_x elems).map
        (fun v => v.2.1)) +
    ops.entropy s.ee2
      ((designTiles_codes (sfT cand.1) (fb.rgb2yuv cand.2) rgba size_x elems).map
        (fun v => v.2.2))

/-- The sample constants with two colour filters, to keep candidate lists
short. -/
def twoColourConsts : Consts := { sampleConsts with CF_COUNT := 2 }

/-- An entropy estimator without state whose estimate of a buffer is the sum of
its bytes; it serves as a concrete estimator in examples. -/
def sumEstimator : EntropyEstimatorOps Unit :=
  { init := (), add := fun _ _ => (), addSingle := fun _ _ => (), subtract := fun _ _ => (),
    entropy := fun _ l => (l.sum : Int), entropyOverall := fun _ => 0 }

/-- A filter bank with spatial filters that predict zero and two colour
filters: filter `0` keeps the red residual as `Y`, every other filter keeps the
blue one. -/
def pickBank : FilterBank :=
  { safe := fun _ _ _ _ _ _ => (0, 0, 0),
    rgb2yuv := fun cf v => if cf = 0 then (v.1, 0, 0) else (v.2.2, 0, 0),
    residualScore := fun _ => 0 }

/-- A 2x1 image: pixel `(0,0)` is `(r, g, b, a) = (0, 100, 0, 0)`, pixel `(1,0)`
is `(0, 0, 5, 0)`. -/
def greenBlue : Mem := fun k => if k = 1 then 100 else if k = 6 then 5 else 0

/-- An entropy estimator that remembers the symbols handed to it, in order;
its estimate of a buffer is the number of bytes in it, and its overall estimate
is zero for a constant stream and grows with the number of distinct symbols. It
serves as a concrete estimator with a visible state in examples. -/
def listEstimator : EntropyEstimatorOps (List Nat) :=
  { init := [], add := fun e l => e ++ l, addSingle := fun e v => e ++ [v],
    subtract := fun e l => e.diff l, entropy := fun _ l => (l.length : Int),
    entropyOverall := fun e => (((e.dedup.length - 1) * e.length : Nat) : Int) }

/-- The cost `designChaos` computes for `chaos_levels` levels (lines 475-520):
the simulation of the residual matrix followed by the sum over the bins. The
estimators below `chaos_levels` are reset before the simulation, so the cost
does not depend on what the array `ee` held before. -/
def designChaos_levelCost {C E : Type} (ch : ChaosOps C) (ops : EntropyEstimatorOps E)
    (isMasked : Nat → Nat → Bool) (res : Mem) (g : Geometry) (chaos_levels : Nat) : Nat :=
  designChaos_cost ops
    (designChaos_simulate ch ops isMasked res g (fun _ => ops.init) chaos_levels).ee chaos_levels

/-- Body of the column loop of `initializeEncoders` (lines 591-610); the state
is that of `writePixels`: the chaos context, the pointer `residuals` and the
calls made so far. -/
def initializeEncoders_pixel {C : Type} (ch : ChaosOps C) (isMasked : Nat → Nat → Bool)
    (res : Mem) (y : Nat) (st : PixelState C) (x : Nat) : PixelState C :=
  if isMasked x y then
    { chaos := ch.zero st.chaos, residuals := st.residuals + 4, calls := st.calls }
  else
    let chaos_y := ch.getChaosY st.chaos
    let chaos_u := ch.getChaosU st.chaos
    let chaos_v := ch.getChaosV st.chaos
    { chaos := ch.store st.chaos (res st.residuals) (res (st.residuals + 1))
        (res (st.residuals + 2)) 0
      residuals := st.residuals + 4
      calls := st.calls ++
        [Call.encAdd (Encoder.Y chaos_y) (res st.residuals),
         Call.encAdd (Encoder.U chaos_u) (res (st.residuals + 1)),
         Call.encAdd (Encoder.V chaos_v) (res (st.residuals + 2))] }

/-- The row and column loops of `initializeEncoders` (lines 580-611). -/
def initializeEncoders_train {C : Type} (ch : ChaosOps C) (isMasked : Nat → Nat → Bool)
    (res : Mem) (g : Geometry) (chaos : C) : PixelState C :=
  (List.range g.size_y).foldl
    (fun st y =>
      (List.range g.size_x).foldl (initializeEncoders_pixel ch isMasked res y)
        { st with chaos := ch.startRow st.chaos })
    { chaos := ch.start chaos, residuals := 0, calls := [] }

/-- `ImageRGBAWriter::initializeEncoders` (lines 579-625): its calls, in order;
the training calls are followed by `finalize` on the encoders of every bin. -/
def initializeEncoders {C : Type} (ch : ChaosOps C) (isMasked : Nat → Nat → Bool)
    (res : Mem) (g : Geometry) (chaos : C) : List Call :=
  (initializeEncoders_train ch isMasked res g chaos).calls ++
    (List.range (ch.getBinCount (initializeEncoders_train ch isMasked res g chaos).chaos)).flatMap
      (fun ii => [Call.encFinalize (Encoder.Y ii), Call.encFinalize (Encoder.U ii),
        Call.encFinalize (Encoder.V ii)])

/-- The encoder and the byte of a call that hands a residual byte to an entropy
encoder, through `add` or through `write`. -/
def Call.residualUse : Call → Option (Encoder × Nat)
  | Call.encAdd e sym => some (e, sym)
  | Call.encWrite e sym => some (e, sym)
  | _ => none

/-- The cost of `chaos_levels` levels in unbounded integers: the sum, over the
bins, of the overall entropy of the bin's estimator after the simulation of
`designChaos` (lines 514-520 without the reduction to a `u32`), plus
`chaos_levels * 3 * 5 * 256`. -/
def designChaos_sumCost {C E : Type} (ch : ChaosOps C) (ops : EntropyEstimatorOps E)
    (isMasked : Nat → Nat → Bool) (res : Mem) (g : Geometry) (chaos_levels : Nat) : Int :=
  ((List.range chaos_levels).map (fun ii => ops.entropyOverall
      ((designChaos_simulate ch ops isMasked res g (fun _ => ops.init) chaos_levels).ee ii))).sum +
    (chaos_levels : Int) * 3840

/-- Modelled from the spec: the state of the simulation the specification
describes for `designChaos`, `tallying per-channel per-bin entropy`: one array
of estimators for each of the channels Y, U and V. -/
structure PerChannelSim (C E : Type) where
  chaos : C
  eeY : Nat → E
  eeU : Nat → E
  eeV : Nat → E
  residuals : Nat

/-- Modelled from the spec: one pixel of the per-channel tally. The walk is
that of `designChaos` (lines 491-509), but each channel adds its byte to the
estimator of its own channel and bin. -/
def perChannel_pixel {C E : Type} (ch : ChaosOps C) (ops : EntropyEstimatorOps E)
    (isMasked : Nat → Nat → Bool) (res : Mem) (y : Nat) (st : PerChannelSim C E) (x : Nat) :
    PerChannelSim C E :=
  if isMasked x y then
    { st with chaos := ch.zero st.chaos, residuals := st.residuals + 4 }
  else
    let chaos_y := ch.getChaosY st.chaos
    let chaos_u := ch.getChaosU st.chaos
    let chaos_v := ch.getChaosV st.chaos
    { chaos := ch.store st.chaos (res st.residuals) (res (st.residuals + 1))
        (res (st.residuals + 2)) 0
      eeY := setEE st.eeY chaos_y (ops.addSingle (st.eeY chaos_y) (res st.residuals))
      eeU := setEE st.eeU chaos_u (ops.addSingle (st.eeU chaos_u) (res (st.residuals + 1)))
      eeV := setEE st.eeV chaos_v (ops.addSingle (st.eeV chaos_v) (res (st.residuals + 2)))
      residuals := st.residuals + 4 }

/-- Modelled from the spec: the per-channel tally of the whole residual matrix
for `chaos_levels` levels, over the same rows and columns as the simulation of
`designChaos`. -/
def perChannel_simulate {C E : Type} (ch : ChaosOps C) (ops : EntropyEstimatorOps E)
    (isMasked : Nat → Nat → Bool) (res : Mem) (g : Geometry) (chaos_levels : Nat) :
    PerChannelSim C E :=
  (List.range g.size_y).foldl
    (fun st y =>
      (List.range g.size_x).foldl (perChannel_pixel ch ops isMasked res y)
        { st with chaos := ch.startRow st.chaos })
    { chaos := ch.start (ch.init chaos_levels g.size_x)
      eeY := fun _ => ops.init, eeU := fun _ => ops.init, eeV := fun _ => ops.init
      residuals := 0 }

/-- Modelled from the spec: the cost of `chaos_levels` levels with the entropy
tallied separately per channel and per bin,
`entropyOverall + chaos_levels * 3 * 5 * 256`. -/
def perChannel_cost {C E : Type} (ch : ChaosOps C) (ops : EntropyEstimatorOps E)
    (isMasked : Nat → Nat → Bool) (res : Mem) (g : Geometry) (chaos_levels : Nat) : Int :=
  ((List.range chaos_levels).map (fun ii =>
      ops.entropyOverall ((perChannel_simulate ch ops isMasked res g chaos_levels).eeY ii) +
      ops.entropyOverall ((perChannel_simulate ch ops isMasked res g chaos_levels).eeU ii) +
      ops.entropyOverall ((perChannel_simulate ch ops isMasked res g chaos_levels).eeV ii))).sum +
    (chaos_levels : Int) * 3840

/-- A chaos context for images of one row, after section 4.5 of the
specification: the state is the number of levels and the residual magnitudes
of the left neighbour, and the bin of a channel is the left neighbour's
magnitude in that channel, limited to the last bin. With a single row there is
no upper neighbour. Residual bytes below 128 are their own magnitude. -/
def leftChaos : ChaosOps (Nat × Nat × Nat × Nat) :=
  { init := fun levels _ => (levels, 0, 0, 0), start := fun s => (s.1, 0, 0, 0),
    startRow := fun s => (s.1, 0, 0, 0), zero := fun s => (s.1, 0, 0, 0),
    store := fun s y u v _ => (s.1, y, u, v),
    getChaosY := fun s => min s.2.1 (s.1 - 1), getChaosU := fun s => min s.2.2.1 (s.1 - 1),
    getChaosV := fun s => min s.2.2.2 (s.1 - 1), getBinCount := fun s => s.1 }

/-- An entropy estimator that remembers the symbols handed to it; its overall
estimate is `10000` for every distinct symbol beyond the first, so it is zero
for a constant stream. It serves as a concrete estimator in examples. -/
def distinctEstimator : EntropyEstimatorOps (List Nat) :=
  { init := [], add := fun e l => e ++ l, addSingle := fun e v => e ++ [v],
    subtract := fun e l => e.diff l, entropy := fun _ l => (l.length : Int),
    entropyOverall := fun e => (((e.dedup.length - 1) * 10000 : Nat) : Int) }

/-- The residual matrix of a 2x1 image: `(Y, U, V) = (1, 0, 0)` at pixel
`(0, 0)` and `(5, 1, 5)` at pixel `(1, 0)`. -/
def twoPixelResiduals : Mem :=
  fun k => if k = 0 then 1 else if k = 4 then 5 else if k = 5 then 1 else if k = 6 then 5 else 0

end ImageRGBAWriter

namespace ImagePaletteWriter

/-- The pixel coordinates in the order of the loops
`for (int y = 0; y < _ysize; ++y) for (int x = 0; x < _xsize; ++x)`. -/
def rasterCoords (xsize ysize : Nat) : List (Nat × Nat) :=
  (List.range ysize).flatMap (fun y => (List.range xsize).map (fun x => (x, y)))

/-- `ImagePaletteWriter::IsMasked(u16 x, u16 y)` (lines 227-229): the
transparency mask alone, with `u16` coordinates. -/
def IsMasked (masked : Nat → Nat → Bool) (x y : Nat) : Bool :=
  masked (x % 65536) (y % 65536)

/-- The members of `ImagePaletteWriter` the functions below read and write:
`_map` (colour to palette index), `_palette`, `_palette_size`, `_most_common`,
`_masked_palette` and the index image `_image`. -/
structure Writer where
  map : Nat → Option Nat
  palette : List Nat
  palette_size : Nat
  most_common : Nat
  masked_palette : Nat
  image : List Nat

/-- A freshly constructed writer: empty `_map` and `_palette`. The scalar
members are not assigned by the constructor and no function reads them before
assigning them; they are given the value `0`. -/
def Writer.fresh : Writer :=
  { map := fun _ => none, palette := [], palette_size := 0, most_common := 0,
    masked_palette := 0, image := [] }

/-- Loop state of `generatePalette`: `_map`, `_palette`, the locals
`palette_size` and `hist`, and the pointer `color` as a pixel index. -/
structure ScanState where
  map : Nat → Option Nat
  palette : List Nat
  palette_size : Nat
  hist : Nat → Nat
  color : Nat

/-- The loop state of `generatePalette` when the pixel loops are entered
(lines 52-55). -/
def ScanState.start (w : Writer) : ScanState :=
  { map := w.map, palette := w.palette, palette_size := 0, hist := fun _ => 0, color := 0 }

/-- The pixel loops of `generatePalette` (lines 57-85) over the coordinates
still to visit. The flag is `false` when the loops are left through
`return false` (line 70). `rgba` is the image read as 32-bit words. -/
def generatePalette_scan (palette_max : Nat) (masked : Nat → Nat → Bool) (rgba : Mem) :
    List (Nat × Nat) → ScanState → Bool × ScanState
  | [], st => (true, st)
  | p :: rest, st =>
    let c := rgba st.color
    if IsMasked masked p.1 p.2 then
      generatePalette_scan palette_max masked rgba rest { st with color := st.color + 1 }
    else
      match st.map c with
      | none =>
        if palette_max ≤ st.palette_size then (false, { st with color := st.color + 1 })
        else
          generatePalette_scan palette_max masked rgba rest
            { map := fun k => if k = c then some st.palette_size else st.map k
              palette := st.palette ++ [c]
              palette_size := st.palette_size + 1
              hist := fun k =>
                if k = st.palette_size then (st.hist k + 1) % 4294967296 else st.hist k
              color := st.color + 1 }
      | some index =>
        generatePalette_scan palette_max masked rgba rest
          { st with
            hist := fun k => if k = index then (st.hist k + 1) % 4294967296 else st.hist k
            color := st.color + 1 }

/-- The search for the most common colour (lines 97-106): the pair
`(best_index, best_count)` after the loop over `index`. -/
def generatePalette_best (hist : Nat → Nat) (palette_size : Nat) : Nat × Nat :=
  (List.range palette_size).foldl
    (fun best index => if best.2 < hist index then (index, hist index) else best) (0, 0)

/-- `ImagePaletteWriter::generatePalette` (lines 51-110): the returned flag and
the writer afterwards. -/
def generatePalette (palette_max : Nat) (masked : Nat → Nat → Bool) (rgba : Mem)
    (xsize ysize : Nat) (w : Writer) : Bool × Writer :=
  let r := generatePalette_scan palette_max masked rgba (rasterCoords xsize ysize)
    (ScanState.start w)
  if r.1 = false then (false, { w with map := r.2.map, palette := r.2.palette })
  else if r.2.palette_size ≤ 0 then (false, { w with map := r.2.map, palette := r.2.palette })
  else
    (true, { w with
      map := r.2.map
      palette := r.2.palette
      palette_size := r.2.palette_size
      most_common := (generatePalette_best r.2.hist r.2.palette_size).1 % 256 })

/-- `_map[key]` of `std::map`: the stored index, `0` for a key that is absent. -/
def mapAt (map : Nat → Option Nat) (key : Nat) : Nat := (map key).getD 0

/-- `ImagePaletteWriter::generateImage` (lines 112-136). `maskEnabled` and
`maskColor` are `_mask->enabled()` and `_mask->getColor()`; the pointers
`image` and `color` advance once per pixel, so at pixel `(x, y)` they are at
offset `y * xsize + x`. -/
def generateImage (masked : Nat → Nat → Bool) (maskEnabled : Bool) (maskColor : Nat)
    (rgba : Mem) (xsize ysize : Nat) (w : Writer) : Writer :=
  let masked_palette :=
    if maskEnabled then
      match w.map maskColor with
      | some idx => idx % 256
      | none => w.most_common
    else w.most_common
  { w with
    masked_palette := masked_palette
    image := (rasterCoords xsize ysize).map (fun p =>
      if masked (p.1 % 65536) (p.2 % 65536) then masked_palette
      else mapAt w.map (rgba (p.2 * xsize + p.1)) % 256) }

/-- What `PaletteOptimizer::process` leaves behind: the map `forward` and the
optimized image behind `getOptimizedImage()`. -/
structure Optimized where
  forward : Nat → Nat
  image : Mem

/-- `ImagePaletteWriter::optimizeImage` (lines 138-172). `opt` is the outcome
of `_optimizer.process`, `better0` the content of the local array
`better_palette` before the loop fills it. -/
def optimizeImage (opt : Optimized) (better0 : Mem) (xsize ysize : Nat) (w : Writer) : Writer :=
  let better := (List.range w.palette_size).foldl
    (fun m ii => m.set (opt.forward ii) (w.palette.getD ii 0)) better0
  { w with
    image := (List.range (xsize * ysize)).map opt.image
    palette := (List.range w.palette_size).map better ++ w.palette.drop w.palette_size
    masked_palette := opt.forward w.masked_palette }

/-- Modelled from the spec: `enabled()`, declared in the header that is not
among the sources. Palette mode is off when `_palette_size` is `0` (the comment
`Off by default` at line 209) and on once `generatePalette` has stored a
positive size. -/
def enabled (w : Writer) : Bool := decide (0 < w.palette_size)

/-- Modelled from the spec: `PALETTE_MAX`, declared in the header that is not
among the sources; a palette holds up to 256 colours. -/
def PALETTE_MAX : Nat := 256

/-- The collaborators of the palette writer that are not among the sources:
the mask writer, the palette optimizer, the colour filter table, the entropy
estimate of a byte buffer, `getLE`, and the constants and knobs it reads. -/
structure Env where
  CF_COUNT : Nat
  masked : Nat → Nat → Bool
  maskEnabled : Bool
  maskColor : Nat
  process : List Nat → Nat → Nat → Nat → Optimized
  better0 : Mem
  rgb2yuv : Nat → ImageRGBAWriter.RGB → ImageRGBAWriter.RGB
  entropy : List Nat → Nat
  getLE : Nat → Nat
  pal_huffThresh : Int

/-- `ImagePaletteWriter::init` (lines 202-225): the writer it leaves, starting
from the writer `w`; `generateMonoWriter` only initialises the monochrome
coder, which is not among the sources. The return value is always
`GCIF_WE_OK`. -/
def init (env : Env) (rgba : Mem) (xsize ysize : Nat) (w : Writer) : Writer :=
  let w0 := { w with palette_size := 0 }
  let r := generatePalette PALETTE_MAX env.masked rgba xsize ysize w0
  if r.1 then
    let w2 := generateImage env.masked env.maskEnabled env.maskColor rgba xsize ysize r.2
    optimizeImage (env.process w2.image xsize ysize w2.palette_size) env.better0 xsize ysize w2
  else r.2

/-- A call the palette writer makes on the bit writer, its entropy encoder or
its monochrome coder. -/
inductive PCall where
  | writeBit (b : Nat)
  | writeBits (v n : Nat)
  | writeWord (w : Nat)
  | write17 (v : Nat)
  | encAdd (sym : Nat)
  | encFinalize
  | encWriteTables
  | encWrite (sym : Nat)
  | monoWriteTables
  | monoWriteRowHeader (y : Nat)
  | monoZero (x : Nat)
  | monoWrite (x y : Nat)
  deriving DecidableEq, Repr

/-- The four bytes `(Y, U, V, 255 - alpha)` of a palette entry under the
colour filter `cf` (lines 283-292, 313-323, 337-347). -/
def yuva (env : Env) (cf : Nat) (entry : Nat) : List Nat :=
  let color := env.getLE entry % 4294967296
  let yuv := env.rgb2yuv cf (color % 256, (color / 256) % 256, (color / 65536) % 256)
  [yuv.1, yuv.2.1, yuv.2.2, (255 + 256 - (color / 16777216) % 256) % 256]

/-- The search for the best colour filter (lines 269-301): the pair
`(bestCF, bestScore)`. -/
def writeTable_bestCF (env : Env) (w : Writer) : Nat × Nat :=
  (List.range env.CF_COUNT).foldl
    (fun best cf =>
      let entropy := env.entropy
        (((List.range w.palette_size).map (fun ii => yuva env cf (w.palette.getD ii 0))).flatten)
          % 4294967296
      if entropy < best.2 then (cf, entropy) else best)
    (0, 0x7fffffff)

/-- `ImagePaletteWriter::writeTable` (lines 241-369): its calls, in order. -/
def writeTable (env : Env) (w : Writer) : List PCall :=
  [PCall.writeBits (w.palette_size - 1) 8, PCall.writeBits w.masked_palette 8] ++
  (if (w.palette_size : Int) < env.pal_huffThresh then
    PCall.writeBit 0 ::
      (List.range w.palette_size).map (fun ii => PCall.writeWord (env.getLE (w.palette.getD ii 0)))
  else
    let bestCF := (writeTable_bestCF env w).1
    let syms := ((List.range w.palette_size).map
      (fun ii => yuva env bestCF (w.palette.getD ii 0))).flatten
    [PCall.writeBit 1, PCall.write17 bestCF] ++ syms.map PCall.encAdd ++
      [PCall.encFinalize, PCall.encWriteTables] ++ syms.map PCall.encWrite) ++
  [PCall.monoWriteTables]

/-- `ImagePaletteWriter::writePixels` (lines 371-398): its calls, in order. -/
def writePixels (env : Env) (xsize ysize : Nat) : List PCall :=
  (List.range ysize).flatMap (fun y =>
    PCall.monoWriteRowHeader y ::
      (List.range xsize).map (fun x =>
        if IsMasked env.masked x y then PCall.monoZero x else PCall.monoWrite x y))

/-- `ImagePaletteWriter::write` (lines 231-239): its calls, in order. -/
def write (env : Env) (xsize ysize : Nat) (w : Writer) : List PCall :=
  if enabled w then PCall.writeBit 1 :: (writeTable env w ++ writePixels env xsize ysize)
  else [PCall.writeBit 0]

/-- The colours of the unmasked pixels in raster order; pixel `(x, y)` is the
32-bit word `y * xsize + x` of the image. -/
def unmaskedColors (masked : Nat → Nat → Bool) (rgba : Mem) (xsize ysize : Nat) : List Nat :=
  (rasterCoords xsize ysize).filterMap
    (fun p => if IsMasked masked p.1 p.2 then none else some (rgba (p.2 * xsize + p.1)))

/-- Number of distinct values in a list. -/
def distinctCount (l : List Nat) : Nat := l.dedup.length

/-- The colours the pixel loops of `generatePalette` read at the unmasked
pixels among `coords` when the pointer `color` is at pixel index `k` on entry. -/
def seenFrom (masked : Nat → Nat → Bool) (rgba : Mem) : List (Nat × Nat) → Nat → List Nat
  | [], _ => []
  | p :: rest, k =>
    (if IsMasked masked p.1 p.2 then [] else [rgba k]) ++ seenFrom masked rgba rest (k + 1)

/-- Invariant of the pixel loops of `generatePalette`, `seen` being the
unmasked colours read so far: the palette holds each of them once, in the
order of their first occurrence, within the capacity, and `_map` sends a
colour to its position. -/
structure ScanInv (pmax : Nat) (st : ScanState) (seen : List Nat) : Prop where
  nodup : st.palette.Nodup
  mem : ∀ c, c ∈ st.palette ↔ c ∈ seen
  order : st.palette.Pairwise (fun a b => seen.indexOf a < seen.indexOf b)
  size : st.palette_size = st.palette.length
  map : ∀ c i, st.map c = some i ↔ st.palette[i]? = some c
  bound : st.palette.length ≤ pmax

/-- A 2x2 checkerboard of the colours `5` and `9`, read as 32-bit words. -/
def checkerboard : Mem := fun k => if k = 0 ∨ k = 3 then 5 else 9

/-- A sample environment: no mask, an optimizer that swaps the indices `0`
and `1` of the checkerboard's index image `[0, 1, 1, 0]`, identity filters. -/
def sampleEnv : Env :=
  { CF_COUNT := 17, masked := fun _ _ => false, maskEnabled := false, maskColor := 0,
    process := fun img _ _ _ => { forward := fun i => 1 - i, image := fun k => 1 - img.getD k 0 },
    better0 := fun _ => 0, rgb2yuv := fun _ r => r, entropy := fun l => l.length,
    getLE := fun v => v, pal_huffThresh := 0 }

/-- A 257x1 image whose pixels all differ: pixel `k` has colour `k`. -/
def ramp : Mem := fun k => k

/-- The calls that are handed the `ImageWriter` and so put bits into the
stream; `add`, `finalize` and `zero` are not. -/
def PCall.emits : PCall → Bool
  | PCall.encAdd _ => false
  | PCall.encFinalize => false
  | PCall.monoZero _ => false
  | _ => true

/-- A sample environment with a mask: the pixel `(0, 0)` is masked and the
mask colour is `5`; the optimizer is the one of `sampleEnv`. -/
def maskedEnv : Env :=
  { CF_COUNT := 17, masked := fun x y => decide (x = 0 ∧ y = 0), maskEnabled := true,
    maskColor := 5,
    process := fun img _ _ _ => { forward := fun i => 1 - i, image := fun k => 1 - img.getD k 0 },
    better0 := fun _ => 0, rgb2yuv := fun _ r => r, entropy := fun l => l.length,
    getLE := fun v => v, pal_huffThresh := 0 }

/-- The writer after `generatePalette` and `generateImage` on the 2x2
checkerboard in `maskedEnv`. -/
def maskedIndexed : Writer :=
  generateImage maskedEnv.masked maskedEnv.maskEnabled maskedEnv.maskColor checkerboard 2 2
    (generatePalette PALETTE_MAX maskedEnv.masked checkerboard 2 2 Writer.fresh).2

/-- The entropy `writeTable` computes for the colour filter `cf` (lines
276-293): the estimate of the palette's `(Y, U, V, 255 - alpha)` bytes, stored
in a `u32`. -/
def writeTable_entropy (env : Env) (w : Writer) (cf : Nat) : Nat :=
  env.entropy
    (((List.range w.palette_size).map (fun ii => yuva env cf (w.palette.getD ii 0))).flatten)
      % 4294967296

/-- The symbol of an encoder `add` call. -/
def PCall.added : PCall → Option Nat
  | PCall.encAdd sym => some sym
  | _ => none

/-- The symbol of an encoder `write` call. -/
def PCall.written : PCall → Option Nat
  | PCall.encWrite sym => some sym
  | _ => none

end ImagePaletteWriter

namespace ImageReader

/-- The members of `ImageReader` that `peek`, `eat`, `readBits` and `readWord`
touch directly: the 64-bit accumulator `_bits` and the counter `_bitsLeft`.
Everything else (`_words`, `_wordsLeft`, `_eof`, `_hash`) is only reached
through `refill()` and is kept in `rest`. -/
structure Reader (R : Type) where
  bits : Nat
  bitsLeft : Int
  rest : R

/-- `refill()` is declared at line 70 and defined in a file that is not among
the sources: it is a parameter that yields the returned `u32` and the reader
afterwards. -/
abbrev Refill (R : Type) := Reader R → Nat × Reader R

/-- `ImageReader::peek(int minBits)` (lines 96-102). -/
def peek {R : Type} (refill : Refill R) (minBits : Int) (s : Reader R) : Nat × Reader R :=
  if s.bitsLeft < minBits then refill s
  else ((s.bits >>> 32) % 4294967296, s)

/-- `ImageReader::eat(int len)` (lines 105-110): `_bits <<= len` on a `u64`,
`_bitsLeft -= len`. -/
def eat {R : Type} (len : Nat) (s : Reader R) : Reader R :=
  { s with bits := (s.bits <<< len) % 18446744073709551616, bitsLeft := s.bitsLeft - len }

/-- `ImageReader::readBits(int len)` (lines 113-119). -/
def readBits {R : Type} (refill : Refill R) (len : Nat) (s : Reader R) : Nat × Reader R :=
  let p := peek refill len s
  (p.1 >>> (32 - len), eat len p.2)

/-- `ImageReader::readWord()` (lines 127-132). -/
def readWord {R : Type} (refill : Refill R) (s : Reader R) : Nat × Reader R :=
  let p := peek refill 32 s
  (p.1, { p.2 with bitsLeft := 0, bits := 0 })

/-- The reader with an emptied accumulator: `_bits = 0`, `_bitsLeft = 0`. -/
def Reader.emptied {R : Type} (s : Reader R) : Reader R :=
  { bits := 0, bitsLeft := 0, rest := s.rest }

/-- A refill that reports an exhausted word stream: it returns zero and leaves
the reader as it is. -/
def refillNone : Refill Unit := fun s => (0, s)

end ImageReader

namespace ImageLZWriter

/-- Modelled from the spec: the LZ match record of section 4.6,
`(src_x, src_y, dst_x, dst_y, w, h)`; the match finder that produces it
(`ImageLZWriter.cpp`) is not among the sources, only the header comment of
`ImageLZWriter.hpp` (lines 19-32) is. -/
structure Match where
  src_x : Nat
  src_y : Nat
  dst_x : Nat
  dst_y : Nat
  w : Nat
  h : Nat

/-- Modelled from the spec: expansion of a match along one axis by one pixel
at a time, `up to 256 pixels on each axis`: the extent grows while it is below
256 and the oracle `more` reports that the next line of pixels still matches.
The match finder's expansion loop is not among the sources. -/
def expand (more : Nat → Bool) : Nat → Nat → Nat
  | 0, extent => extent
  | fuel + 1, extent =>
    if extent < 256 ∧ more extent = true then expand more fuel (extent + 1) else extent

/-- Modelled from the spec: the match the forward scan emits at a position
whose 8x8 block matches a candidate byte for byte: the block is expanded to the
left and right, then up and down. `left`, `right`, `up`, `down` tell whether
the match can grow at a given extent; the scan itself is not among the
sources. -/
def emitMatch (src_x src_y dst_x dst_y : Nat) (left right up down : Nat → Bool) : Match :=
  let wl := expand left 256 8
  let w := expand right 256 wl
  let hu := expand up 256 8
  let h := expand down 256 hu
  { src_x := src_x - (wl - 8), src_y := src_y - (hu - 8),
    dst_x := dst_x - (wl - 8), dst_y := dst_y - (hu - 8), w := w, h := h }

/-- Modelled from the spec: the 10-byte output record
`(src_x, src_y, dst_x, dst_y, w-1, h-1)`, four 16-bit coordinates and two 8-bit
sizes; its writer is not among the sources. -/
def Match.record (m : Match) : List Nat :=
  [m.src_x % 256, m.src_x / 256 % 256, m.src_y % 256, m.src_y / 256 % 256,
   m.dst_x % 256, m.dst_x / 256 % 256, m.dst_y % 256, m.dst_y / 256 % 256,
   (m.w - 1) % 256, (m.h - 1) % 256]

end ImageLZWriter

namespace LZMatchFinder

/-- `HASH_BITS` (line 47 of `LZMatchFinder.hpp`). -/
def HASH_BITS : Nat := 18

/-- `HASH_MULT` (line 48). -/
def HASH_MULT : Nat := 0xc6a4a7935bd1e995

/-- The expression that makes up the body of `HashPixels` (line 52),
`(u32)( ( ((u64)rgba[0] << 32) | rgba[1] ) * HASH_MULT >> (64 - HASH_BITS) )`,
in `u64` arithmetic; `p0` and `p1` are the `u32` pixels `rgba[0]`, `rgba[1]`. -/
def HashPixels_expr (p0 p1 : Nat) : Nat :=
  (((((p0 % 4294967296) <<< 32) % 18446744073709551616 ||| (p1 % 4294967296)) * HASH_MULT
    % 18446744073709551616) >>> (64 - HASH_BITS)) % 4294967296

/-- `LZMatchFinder::HashPixels` (lines 51-53). The body is the expression as a
statement, whose value is discarded; the function has no `return`, so the value
its caller receives is not set by the function. `junk` stands for that value,
whatever the place of the return value holds. -/
def HashPixels (junk : Nat) (p0 p1 : Nat) : Nat :=
  let _discarded := HashPixels_expr p0 p1
  junk % 4294967296

end LZMatchFinder

end GCIF


namespace GCIF.ImageRGBAWriter

section DesignTilesFlow

variable {E : Type} (c : Consts) (isMasked : Nat → Nat → Bool) (ops : EntropyEstimatorOps E)
  (sfT : Nat → SafeFilter) (fb : FilterBank) (rgba : Mem)
  (sf_count size_x size_y tile_size_x tile_size_y : Nat)

/-- While `passes` is zero a tile never makes `designTiles` return, and it
leaves `passes` and the tile pointer as they are. -/
theorem designTiles_tile_passes_zero (x y topleft : Nat) (s : DesignState E)
    (h : s.passes = 0) :
    ∃ s1, designTiles_tile c isMasked ops sfT fb rgba sf_count size_x size_y tile_size_x
        tile_size_y x y topleft s = Flow.next s1 ∧ s1.passes = 0 ∧
        s1.tiles.pos = s.tiles.pos := by
  unfold designTiles_tile
  by_cases hm : s.tiles.sf s.tiles.pos = c.MASK_TILE
  · exact ⟨s, by simp [hm], h, rfl⟩
  · have hr : designTiles_revisit isMasked ops sfT fb rgba size_x size_y tile_size_x
        tile_size_y x y topleft (s.tiles.sf s.tiles.pos) (s.tiles.cf s.tiles.pos) s
        = Flow.next s := by
      simp [designTiles_revisit, h]
    simp only [hm, if_false, hr]
    exact ⟨_, rfl, h, rfl⟩

/-- A tile row swept with `passes = 0` either uses up its fuel or falls
through with `passes` still zero. -/
theorem designTiles_xLoop_passes_zero (y : Nat) :
    ∀ (fuel x topleft : Nat) (s : DesignState E), s.passes = 0 →
      designTiles_xLoop c isMasked ops sfT fb rgba sf_count size_x size_y tile_size_x
          tile_size_y y fuel x topleft s = none ∨
      ∃ r, designTiles_xLoop c isMasked ops sfT fb rgba sf_count size_x size_y tile_size_x
          tile_size_y y fuel x topleft s = some (Flow.next r) ∧ r.2.passes = 0 := by
  intro fuel
  induction fuel with
  | zero => intro x topleft s _; left; rfl
  | succ n ih =>
    intro x topleft s h
    unfold designTiles_xLoop
    by_cases hx : x < size_x
    · obtain ⟨s1, h1, hp, _⟩ := designTiles_tile_passes_zero c isMasked ops sfT fb rgba
        sf_count size_x size_y tile_size_x tile_size_y x y topleft s h
      simp only [hx, if_true, h1]
      exact ih _ _ _ hp
    · right
      exact ⟨(topleft, s), by simp [hx], h⟩

/-- A whole sweep with `passes = 0` either uses up its fuel or falls through
with `passes` still zero. -/
theorem designTiles_yLoop_passes_zero :
    ∀ (fuel y topleft : Nat) (s : DesignState E), s.passes = 0 →
      designTiles_yLoop c isMasked ops sfT fb rgba sf_count size_x size_y tile_size_x
          tile_size_y fuel y topleft s = none ∨
      ∃ r, designTiles_yLoop c isMasked ops sfT fb rgba sf_count size_x size_y tile_size_x
          tile_size_y fuel y topleft s = some (Flow.next r) ∧ r.2.passes = 0 := by
  intro fuel
  induction fuel with
  | zero => intro y topleft s _; left; rfl
  | succ n ih =>
    intro y topleft s h
    unfold designTiles_yLoop
    by_cases hy : y < size_y
    · rcases designTiles_xLoop_passes_zero c isMasked ops sfT fb rgba sf_count size_x size_y
        tile_size_x tile_size_y y u16Fuel 0 topleft s h with h0 | ⟨r, hr, hp⟩
      · left; simp [hy, h0]
      · simp only [hy, if_true, hr]
        exact ih _ _ _ hp
    · right
      exact ⟨(topleft, s), by simp [hy], h⟩

/-- The `while` loop of `designTiles`, entered with `passes = 0` below
`MAX_PASSES`, is still running after any number of sweeps. -/
theorem designTiles_while_never_returns (hmax : 0 < c.MAX_PASSES) :
    ∀ (fuel : Nat) (s : DesignState E), s.passes = 0 →
      designTiles_while c isMasked ops sfT fb rgba sf_count size_x size_y tile_size_x
        tile_size_y fuel s = none := by
  intro fuel
  induction fuel with
  | zero => intro s _; rfl
  | succ n ih =>
    intro s h
    unfold designTiles_while
    have hlt : s.passes < c.MAX_PASSES := by omega
    rcases designTiles_yLoop_passes_zero c isMasked ops sfT fb rgba sf_count size_x size_y
      tile_size_x tile_size_y u16Fuel 0 0 s h with h0 | ⟨r, hr, hp⟩
    · simp [hlt, h0]
    · simp only [hlt, if_true, hr]
      exact ih _ hp

end DesignTilesFlow

end GCIF.ImageRGBAWriter

namespace GCIF

/-- A property of the loop state that the initial state has and every step
keeps holds after a `foldl`. -/
theorem foldl_keeps {α β : Type} (P : β → Prop) (f : β → α → β)
    (hstep : ∀ b a, P b → P (f b a)) : ∀ (l : List α) (b : β), P b → P (l.foldl f b) := by
  intro l
  induction l with
  | nil => intro b hb; exact hb
  | cons a l ih => intro b hb; exact ih _ (hstep b a hb)

end GCIF

namespace GCIF.ImageRGBAWriter

/-- C1 (code bug): `computeResiduals` never advances `px`, so it tests the mask
and calls the filter with the tile's first column. (a) In the 2x2 image whose
only masked pixel is `(0,0)`, with the tile assigned `sf = cf = 0`, the
unmasked pixel `(1,0)` (bytes 4..6) keeps whatever the residual buffer held
before, for every filter bank and image. (b) In the unmasked 2x1 image the
residual of pixel `(1,0)` is taken against `_sf[0].safe` called with the
coordinates `(0,0)`, not `(1,0)`. -/
theorem computeResiduals_first_column_only (fb : FilterBank) (sfT : Nat → SafeFilter)
    (rgba res0 : Mem) :
    (computeResiduals sampleConsts (fun x y => x == 0 && y == 0) sfT fb rgba
        ⟨2, 2, 4, 4, 1, 1⟩ ⟨fun _ => 0, fun _ => 0, 0⟩ res0).map (fun r => (r 4, r 5, r 6))
      = some (res0 4, res0 5, res0 6) ∧
    (computeResiduals sampleConsts (fun _ _ => false) sfT fb rgba
        ⟨2, 1, 4, 4, 1, 1⟩ ⟨fun _ => 0, fun _ => 0, 0⟩ res0).map (fun r => (r 4, r 5, r 6))
      = some (fb.rgb2yuv 0 (residualRGB rgba 4 (sfT 0 rgba 4 0 0 2))) :=
  ⟨rfl, rfl⟩

/-- C2 (code bug): `maskTiles` never advances `px`, so it only looks at the
first column of a tile. In the 2x1 image where `(0,0)` is masked and `(1,0)` is
not, the single tile is stored as `MASK_TILE` in both arrays, whatever the
constants and the previous array contents are. -/
theorem maskTiles_first_column_only (c : Consts) (sf0 cf0 : Mem) :
    (maskTiles c (fun x _ => x == 0) 2 1 4 4 sf0 cf0).map (fun t => (t.sf 0, t.cf 0, t.pos))
      = some (c.MASK_TILE, c.MASK_TILE, 1) :=
  rfl

/-- With `MAX_PASSES` at least one, `designTiles` is still sweeping after any
number of sweeps. -/
theorem designTiles_eq_none {E : Type} (c : Consts) (hmax : 0 < c.MAX_PASSES)
    (isMasked : Nat → Nat → Bool) (ops : EntropyEstimatorOps E) (sfT : Nat → SafeFilter)
    (fb : FilterBank) (rgba : Mem) (g : Geometry) (sf_count : Nat) (revisitCount : Int)
    (t : TileArrays) (fuel : Nat) :
    designTiles c isMasked ops sfT fb rgba g sf_count revisitCount t fuel = none :=
  designTiles_while_never_returns c isMasked ops sfT fb rgba sf_count _ _ _ _ hmax fuel _ rfl

/-- After the first sweep over a 1x1 unmasked image the loop falls through to
the next sweep with `passes` still zero, the revisit count untouched and the
tile pointers one entry past the only tile. -/
theorem designTiles_first_sweep {E : Type} (ops : EntropyEstimatorOps E)
    (sfT : Nat → SafeFilter) (fb : FilterBank) (rgba : Mem) (sf_count : Nat)
    (revisitCount : Int) :
    (designTiles_yLoop sampleConsts (fun _ _ => false) ops sfT fb rgba sf_count 1 1 4 4
        u16Fuel 0 0 (designTiles_start ops revisitCount ⟨fun _ => 0, fun _ => 0, 0⟩)).map
      (fun r => match r with
        | Flow.next r => some (r.2.passes, r.2.revisitCount, r.2.tiles.pos)
        | Flow.done _ => none) = some (some (0, revisitCount, 1)) :=
  rfl

/-- C3 (code bug): `designTiles` never increments `passes`, so whenever
`MAX_PASSES` is at least one the function is still sweeping after any number
of sweeps, for every image, mask, tile array, filter selection and revisit
count. -/
theorem designTiles_never_returns {E : Type} (c : Consts) (k : Nat)
    (isMasked : Nat → Nat → Bool) (ops : EntropyEstimatorOps E) (sfT : Nat → SafeFilter)
    (fb : FilterBank) (rgba : Mem) (g : Geometry) (sf_count : Nat) (revisitCount : Int)
    (t : TileArrays) (fuel : Nat) :
    designTiles { c with MAX_PASSES := k + 1 } isMasked ops sfT fb rgba g sf_count revisitCount
      t fuel = none :=
  designTiles_eq_none { c with MAX_PASSES := k + 1 } (Nat.succ_pos k) isMasked ops sfT fb rgba
    g sf_count revisitCount t fuel

/-- No call recorded by one pixel of `writePixels` is an entropy encoder
`write`. -/
theorem writePixels_pixel_no_encWrite {C : Type} (ch : ChaosOps C)
    (isMasked : Nat → Nat → Bool) (res : Mem) (y : Nat) (st : PixelState C) (x : Nat)
    (h : ∀ e sym, Call.encWrite e sym ∉ st.calls) :
    ∀ e sym, Call.encWrite e sym ∉ (writePixels_pixel ch isMasked res y st x).calls := by
  intro e sym
  unfold writePixels_pixel
  by_cases hm : isMasked x y = true
  · simpa [hm] using h e sym
  · simp [hm, h e sym]

/-- No call recorded by one scanline of `writePixels` is an entropy encoder
`write`. -/
theorem writePixels_row_no_encWrite {C : Type} (ch : ChaosOps C)
    (isMasked : Nat → Nat → Bool) (res : Mem) (size_x tile_mask : Nat) (st : PixelState C)
    (y : Nat) (h : ∀ e sym, Call.encWrite e sym ∉ st.calls) :
    ∀ e sym, Call.encWrite e sym ∉
      (writePixels_row ch isMasked res size_x tile_mask st y).calls := by
  unfold writePixels_row
  refine foldl_keeps (fun s : PixelState C => ∀ e sym, Call.encWrite e sym ∉ s.calls) _
    (fun b a hb => writePixels_pixel_no_encWrite ch isMasked res y b a hb) _ _ ?_
  intro e sym
  by_cases ht : y &&& tile_mask = 0
  · simp [ht, h e sym]
  · simpa [ht] using h e sym

/-- C4 (code bug): `writePixels` calls `add` on the bin-selected Y, U and V
encoders where the claim has `write`: for every image, mask, residual buffer
and chaos context no entropy encoder `write` is among its calls, and for the
1x1 unmasked image its calls are the three row headers, three `add` calls and
the alpha `write`. -/
theorem writePixels_never_writes_residuals {C : Type} (ch : ChaosOps C)
    (isMasked : Nat → Nat → Bool) (res : Mem) (g : Geometry) (chaos : C) :
    (∀ e sym, Call.encWrite e sym ∉ writePixels ch isMasked res g chaos) ∧
    writePixels ch (fun _ _ => false) res ⟨1, 1, 4, 4, 1, 1⟩ chaos =
      [Call.monoWriteRowHeader Mono.SF 0, Call.monoWriteRowHeader Mono.CF 0,
       Call.monoWriteRowHeader Mono.A 0,
       Call.encAdd (Encoder.Y (ch.getChaosY (ch.startRow (ch.start chaos)))) (res 0),
       Call.encAdd (Encoder.U (ch.getChaosU (ch.startRow (ch.start chaos)))) (res 1),
       Call.encAdd (Encoder.V (ch.getChaosV (ch.startRow (ch.start chaos)))) (res 2),
       Call.monoWrite Mono.A 0 0] := by
  refine ⟨?_, rfl⟩
  unfold writePixels
  exact foldl_keeps (fun s : PixelState C => ∀ e sym, Call.encWrite e sym ∉ s.calls) _
    (fun b a hb => writePixels_row_no_encWrite ch isMasked res _ _ b a hb) _ _
    (fun e sym => by simp)

/-- C5 (code bug): `IsMasked` is the conjunction of the two predicates, so a
pixel covered by an LZ match but not by the transparency mask is not masked,
and neither is a pixel of the transparency mask that no LZ match covers. -/
theorem IsMasked_needs_both :
    IsMasked (fun _ _ => false) (fun _ _ => true) 0 0 = false ∧
    IsMasked (fun _ _ => true) (fun _ _ => false) 0 0 = false ∧
    ∀ (masked visited : Nat → Nat → Bool) (x y : Nat),
      IsMasked masked visited x y =
        (masked (x % 65536) (y % 65536) && visited (x % 65536) (y % 65536)) :=
  ⟨rfl, rfl, fun _ _ _ _ => rfl⟩

/-- C10 (code bug): `init` returns `GCIF_WE_BAD_DIMS` without running a step
when a size is negative, else `GCIF_WE_BAD_PARAMS` without running a step when
entropy estimation is enabled with a fuzz of at most zero; in every other case
it enters the pipeline and, `MAX_PASSES` being at least one, has not returned
after any number of `designTiles` sweeps. -/
theorem init_returns_only_on_failure {E : Type} (c : Consts) (k : Nat)
    (masked visited : Nat → Nat → Bool) (ops : EntropyEstimatorOps E) (fb : FilterBank)
    (rgba sf0 cf0 idx0 res0 : Mem) (size_x size_y : Int) (knobs : GCIFKnobs) (fuel : Nat) :
    (init { c with MAX_PASSES := k + 1 } masked visited ops fb rgba sf0 cf0 idx0 res0
        size_x size_y knobs fuel).map (fun r => (r.code, r.steps)) =
      if size_x < 0 ∨ size_y < 0 then some (WriteError.GCIF_WE_BAD_DIMS, [])
      else if knobs.cm_disableEntropy = false ∧ knobs.cm_filterSelectFuzz ≤ 0 then
        some (WriteError.GCIF_WE_BAD_PARAMS, [])
      else none := by
  unfold init
  by_cases hd : size_x < 0 ∨ size_y < 0
  · simp [hd]
  · by_cases hp : knobs.cm_disableEntropy = false ∧ knobs.cm_filterSelectFuzz ≤ 0
    · simp [hd, hp]
    · have hp2 : ¬ ((!knobs.cm_disableEntropy && decide (knobs.cm_filterSelectFuzz ≤ 0))
          = true) := by
        intro h
        apply hp
        simpa using h
      simp only [hd, hp, hp2, if_false]
      cases hm : maskTiles { c with MAX_PASSES := k + 1 } (IsMasked masked visited)
          (initGeometry size_x.toNat size_y.toNat).size_x
          (initGeometry size_x.toNat size_y.toNat).size_y
          (initGeometry size_x.toNat size_y.toNat).tile_size_x
          (initGeometry size_x.toNat size_y.toNat).tile_size_y sf0 cf0 with
      | none => rfl
      | some t0 =>
        simp [designTiles_eq_none { c with MAX_PASSES := k + 1 } (Nat.succ_pos k)]

theorem topAt_tail (top : List Score) (j : Nat) : topAt top.tail j = topAt top (j + 1) := by
  cases top <;> simp [topAt]

theorem examinedCoverage_succ (top : List Score) (m : Nat) :
    examinedCoverage top (m + 1) =
      Int.tdiv (topAt top 0).score 5 + examinedCoverage top.tail m := by
  simp [examinedCoverage, List.range_succ_eq_map, List.map_map, Function.comp_def, topAt_tail]

theorem examinedDesigned_succ (c : Consts) (top : List Score) (m : Nat) :
    examinedDesigned c top (m + 1) =
      (if c.SF_FIXED ≤ (topAt top 0).index then 1 else 0) + examinedDesigned c top.tail m := by
  simp only [examinedDesigned, List.range_succ_eq_map, List.filter_cons, List.filter_map,
    List.length_map, Function.comp_def, topAt_tail]
  by_cases h : c.SF_FIXED ≤ (topAt top 0).index
  · simp [h]; omega
  · simp [h]

theorem examinedDesigned_le (c : Consts) (top : List Score) (m : Nat) :
    examinedDesigned c top m ≤ m := by
  unfold examinedDesigned
  exact (List.length_filter_le _ _).trans (by simp)

/-- The selection loop examines the first `m` of its `count` candidates, adds
their coverage and one filter per designed candidate, and stops early only
when the coverage has reached the threshold. -/
theorem designFilters_select_spec (c : Consts) (thresh : Int) :
    ∀ (count : Nat) (top : List Score) (s : FilterSelection),
      ∃ m, m ≤ count ∧
        (designFilters_select c thresh count top s).coverage =
          s.coverage + examinedCoverage top m ∧
        (designFilters_select c thresh count top s).sf_count =
          s.sf_count + examinedDesigned c top m ∧
        (thresh ≤ (designFilters_select c thresh count top s).coverage ∨ m = count) := by
  intro count
  induction count with
  | zero =>
    intro top s
    exact ⟨0, le_refl _, by simp [designFilters_select, examinedCoverage],
      by simp [designFilters_select, examinedDesigned], Or.inr rfl⟩
  | succ n ih =>
    intro top s
    unfold designFilters_select
    by_cases hc : thresh ≤ s.coverage + Int.tdiv (topAt top 0).score 5
    · refine ⟨1, by omega, ?_, ?_, Or.inl ?_⟩
      · by_cases hi : c.SF_FIXED ≤ (topAt top 0).index <;>
          simp [hc, hi, examinedCoverage, List.range_succ]
      · by_cases hi : c.SF_FIXED ≤ (topAt top 0).index <;>
          simp [hc, hi, examinedDesigned, List.range_succ]
      · by_cases hi : c.SF_FIXED ≤ (topAt top 0).index <;> simp [hc, hi]
    · simp only [hc, if_false]
      by_cases hi : c.SF_FIXED ≤ (topAt top 0).index
      · simp only [hi, if_true]
        obtain ⟨m, hm, h1, h2, h3⟩ := ih top.tail
          { sf_indices := s.sf_indices.set s.sf_count (topAt top 0).index,
            sf_count := s.sf_count + 1,
            coverage := s.coverage + Int.tdiv (topAt top 0).score 5 }
        refine ⟨m + 1, by omega, ?_, ?_, ?_⟩
        · rw [h1, examinedCoverage_succ]; simp only []; ring
        · rw [h2, examinedDesigned_succ]; simp only [hi, if_true]; ring
        · rcases h3 with h3 | h3
          · exact Or.inl h3
          · exact Or.inr (by omega)
      · simp only [hi, if_false]
        obtain ⟨m, hm, h1, h2, h3⟩ := ih top.tail
          { s with coverage := s.coverage + Int.tdiv (topAt top 0).score 5 }
        refine ⟨m + 1, by omega, ?_, ?_, ?_⟩
        · rw [h1, examinedCoverage_succ]; simp only []; ring
        · rw [h2, examinedDesigned_succ]; simp only [hi, if_false]; ring
        · rcases h3 with h3 | h3
          · exact Or.inl h3
          · exact Or.inr (by omega)

/-- When every tile is `MASK_TILE`, `designFilters` gives no award. -/
theorem designFilters_awards_all_masked (c : Consts) (isMasked : Nat → Nat → Bool)
    (fb : FilterBank) (rgba : Mem) (g : Geometry) (sf : Mem) (hsf : ∀ i, sf i = c.MASK_TILE) :
    designFilters_awards c isMasked fb rgba g sf = FilterScorer.zero c.SF_COUNT := by
  unfold designFilters_awards
  refine foldl_keeps (fun st : Nat × Nat × FilterScorer => st.2.2 = FilterScorer.zero c.SF_COUNT)
    _ ?_ _ _ rfl
  intro st y hst
  unfold designFilters_row
  refine foldl_keeps (fun st : Nat × Nat × FilterScorer => st.2.2 = FilterScorer.zero c.SF_COUNT)
    _ ?_ _ _ hst
  intro st1 x hst1
  simp [hsf, hst1]

theorem zip_zero_scores (l : List Nat) :
    (l.zip (List.replicate l.length (0 : Int))).map (fun p => Score.mk p.1 p.2) =
      l.map (fun i => Score.mk i 0) := by
  induction l with
  | nil => rfl
  | cons a l ih => simp [List.replicate_succ, ih]

/-- With all scores zero, the stable `getTop(k)` is the first `k` indices. -/
theorem getTop_zero (n k : Nat) :
    (FilterScorer.zero n).getTop k = (List.range (min k n)).map (fun i => Score.mk i 0) := by
  unfold FilterScorer.getTop FilterScorer.zero
  have h := zip_zero_scores (List.range n)
  rw [List.length_range] at h
  have hsorted : List.Sorted (fun a b : Score => b.score ≤ a.score)
      ((List.range n).map (fun i => Score.mk i 0)) :=
    List.pairwise_map.2 (List.pairwise_of_forall (fun _ _ => le_refl _))
  rw [List.length_replicate, h, List.Sorted.insertionSort_eq hsorted, ← List.map_take,
    List.take_range]

theorem topAt_zero_scores (m j : Nat) :
    (topAt ((List.range m).map (fun i => Score.mk i 0)) j).score = 0 := by
  unfold topAt
  by_cases hj : j < m
  · simp [List.getD_eq_getElem?_getD, List.getElem?_map, List.getElem?_range hj]
  · simp [List.getD_eq_getElem?_getD, List.getElem?_map, List.getElem?_eq_none
      (l := List.range m) (n := j) (by simpa using hj)]

theorem topAt_zero_head (m : Nat) :
    (topAt ((List.range m).map (fun i => Score.mk i 0)) 0).index = 0 := by
  unfold topAt
  cases m with
  | zero => rfl
  | succ m => simp [List.range_succ_eq_map]

/-- For every choice of the constants with `1 ≤ SF_FIXED < MAX_FILTERS`: when all
tiles are `MASK_TILE` and there is at least one tile, `designFilters` ends with
coverage `0`, below `_tiles_x * _tiles_y`, and with `_sf_count` below
`MAX_FILTERS`. -/
theorem designFilters_all_masked (c : Consts) (isMasked : Nat → Nat → Bool)
    (fb : FilterBank) (rgba : Mem) (g : Geometry) (sf idx0 : Mem)
    (hsf : ∀ i, sf i = c.MASK_TILE) (h1 : 1 ≤ c.SF_FIXED) (h2 : c.SF_FIXED < c.MAX_FILTERS)
    (htiles : 1 ≤ g.tiles_x * g.tiles_y) :
    (designFilters c isMasked fb rgba g sf idx0).coverage = 0 ∧
    (designFilters c isMasked fb rgba g sf idx0).sf_count < c.MAX_FILTERS := by
  obtain ⟨m, hm, hcov, hcount, hstop⟩ := designFilters_select_spec c
    ((g.tiles_x * g.tiles_y : Nat) : Int) (c.MAX_FILTERS - c.SF_FIXED)
    ((designFilters_awards c isMasked fb rgba g sf).getTop (c.MAX_FILTERS - c.SF_FIXED))
    { sf_indices := designFilters_fixed c idx0, sf_count := c.SF_FIXED, coverage := 0 }
  rw [designFilters_awards_all_masked c isMasked fb rgba g sf hsf, getTop_zero] at hcov hcount hstop
  have hzero : ∀ k, examinedCoverage ((List.range (min (c.MAX_FILTERS - c.SF_FIXED)
      c.SF_COUNT)).map (fun i => Score.mk i 0)) k = 0 := by
    intro k
    simp [examinedCoverage, topAt_zero_scores]
  rw [hzero, add_zero] at hcov
  have hm2 : m = c.MAX_FILTERS - c.SF_FIXED := by
    rcases hstop with hs | hs
    · rw [hcov] at hs
      have : ((g.tiles_x * g.tiles_y : Nat) : Int) ≤ 0 := hs
      omega
    · exact hs
  obtain ⟨m1, hm1⟩ : ∃ m1, m = m1 + 1 := ⟨m - 1, by omega⟩
  rw [hm1, examinedDesigned_succ, topAt_zero_head] at hcount
  have hle := examinedDesigned_le c ((List.range (min (c.MAX_FILTERS - c.SF_FIXED)
      c.SF_COUNT)).map (fun i => Score.mk i 0)).tail m1
  have hnot : ¬ c.SF_FIXED ≤ 0 := by omega
  simp only [hnot, if_false] at hcount
  unfold designFilters
  rw [designFilters_awards_all_masked c isMasked fb rgba g sf hsf, getTop_zero]
  refine ⟨hcov, ?_⟩
  rw [hcount]
  show c.SF_FIXED + (0 + _) < c.MAX_FILTERS
  omega

/-- C6 (as amended): after `designFilters` the selection loop has examined the
first `m` of the `MAX_FILTERS - SF_FIXED` ranked candidates; `coverage` is the
sum of `award / 5` over them, `_sf_count` is `SF_FIXED` plus the number of
designed filters among them and lies between `SF_FIXED` and `MAX_FILTERS`; and
either the coverage is at least `_tiles_x * _tiles_y` or all
`MAX_FILTERS - SF_FIXED` candidates were examined. -/
theorem designFilters_coverage_or_exhausted (c : Consts) (isMasked : Nat → Nat → Bool)
    (fb : FilterBank) (rgba : Mem) (g : Geometry) (sf idx0 : Mem)
    (hfixed : c.SF_FIXED ≤ c.MAX_FILTERS) :
    ∃ m, m ≤ c.MAX_FILTERS - c.SF_FIXED ∧
      (designFilters c isMasked fb rgba g sf idx0).coverage =
        examinedCoverage ((designFilters_awards c isMasked fb rgba g sf).getTop
          (c.MAX_FILTERS - c.SF_FIXED)) m ∧
      (designFilters c isMasked fb rgba g sf idx0).sf_count =
        c.SF_FIXED + examinedDesigned c ((designFilters_awards c isMasked fb rgba g sf).getTop
          (c.MAX_FILTERS - c.SF_FIXED)) m ∧
      c.SF_FIXED ≤ (designFilters c isMasked fb rgba g sf idx0).sf_count ∧
      (designFilters c isMasked fb rgba g sf idx0).sf_count ≤ c.MAX_FILTERS ∧
      (((g.tiles_x * g.tiles_y : Nat) : Int) ≤
          (designFilters c isMasked fb rgba g sf idx0).coverage ∨
        m = c.MAX_FILTERS - c.SF_FIXED) := by
  obtain ⟨m, hm, h1, h2, h3⟩ := designFilters_select_spec c ((g.tiles_x * g.tiles_y : Nat) : Int)
    (c.MAX_FILTERS - c.SF_FIXED)
    ((designFilters_awards c isMasked fb rgba g sf).getTop (c.MAX_FILTERS - c.SF_FIXED))
    { sf_indices := designFilters_fixed c idx0, sf_count := c.SF_FIXED, coverage := 0 }
  have hle := examinedDesigned_le c
    ((designFilters_awards c isMasked fb rgba g sf).getTop (c.MAX_FILTERS - c.SF_FIXED)) m
  have h1' : (designFilters c isMasked fb rgba g sf idx0).coverage =
      examinedCoverage ((designFilters_awards c isMasked fb rgba g sf).getTop
        (c.MAX_FILTERS - c.SF_FIXED)) m := by
    unfold designFilters; rw [h1]; simp
  have h2' : (designFilters c isMasked fb rgba g sf idx0).sf_count =
      c.SF_FIXED + examinedDesigned c ((designFilters_awards c isMasked fb rgba g sf).getTop
        (c.MAX_FILTERS - c.SF_FIXED)) m := by
    unfold designFilters; rw [h2]
  refine ⟨m, hm, h1', h2', ?_, ?_, ?_⟩
  · rw [h2']; omega
  · rw [h2']; omega
  · unfold designFilters; exact h3

/-- C6, witness: the amended statement at the 1x1 image whose pixel is masked. -/
theorem designFilters_coverage_or_exhausted_witness :
    sampleConsts.SF_FIXED ≤ sampleConsts.MAX_FILTERS ∧
    ∃ m, m ≤ sampleConsts.MAX_FILTERS - sampleConsts.SF_FIXED ∧
      (designFilters sampleConsts (fun _ _ => true) zeroBank (fun _ => 0) (initGeometry 1 1)
          (Mem.set (fun _ => 0) 0 255) (fun _ => 0)).coverage =
        examinedCoverage ((designFilters_awards sampleConsts (fun _ _ => true) zeroBank
          (fun _ => 0) (initGeometry 1 1) (Mem.set (fun _ => 0) 0 255)).getTop
          (sampleConsts.MAX_FILTERS - sampleConsts.SF_FIXED)) m ∧
      (designFilters sampleConsts (fun _ _ => true) zeroBank (fun _ => 0) (initGeometry 1 1)
          (Mem.set (fun _ => 0) 0 255) (fun _ => 0)).sf_count =
        sampleConsts.SF_FIXED + examinedDesigned sampleConsts
          ((designFilters_awards sampleConsts (fun _ _ => true) zeroBank
            (fun _ => 0) (initGeometry 1 1) (Mem.set (fun _ => 0) 0 255)).getTop
            (sampleConsts.MAX_FILTERS - sampleConsts.SF_FIXED)) m ∧
      sampleConsts.SF_FIXED ≤ (designFilters sampleConsts (fun _ _ => true) zeroBank
          (fun _ => 0) (initGeometry 1 1) (Mem.set (fun _ => 0) 0 255) (fun _ => 0)).sf_count ∧
      (designFilters sampleConsts (fun _ _ => true) zeroBank (fun _ => 0) (initGeometry 1 1)
          (Mem.set (fun _ => 0) 0 255) (fun _ => 0)).sf_count ≤ sampleConsts.MAX_FILTERS ∧
      ((((initGeometry 1 1).tiles_x * (initGeometry 1 1).tiles_y : Nat) : Int) ≤
          (designFilters sampleConsts (fun _ _ => true) zeroBank (fun _ => 0) (initGeometry 1 1)
            (Mem.set (fun _ => 0) 0 255) (fun _ => 0)).coverage ∨
        m = sampleConsts.MAX_FILTERS - sampleConsts.SF_FIXED) :=
  ⟨by decide, designFilters_coverage_or_exhausted sampleConsts (fun _ _ => true) zeroBank
    (fun _ => 0) (initGeometry 1 1) (Mem.set (fun _ => 0) 0 255) (fun _ => 0) (by decide)⟩

/-- C6, counterexample: for the 1x1 image whose pixel is masked, `maskTiles`
stores `MASK_TILE` for the single tile, no award is given, and `designFilters`
ends with `_sf_count = 28`, which is not `MAX_FILTERS = 32`, and with coverage
`0`, which is below `_tiles_x * _tiles_y = 1`. -/
theorem designFilters_all_masked_counterexample :
    (maskTiles sampleConsts (fun _ _ => true) 1 1 4 4 (fun _ => 0) (fun _ => 0)).map
        (fun t => t.sf 0) = some ((Mem.set (fun _ => 0) 0 255) 0) ∧
    ¬ ((designFilters sampleConsts (fun _ _ => true) zeroBank (fun _ => 0) (initGeometry 1 1)
          (Mem.set (fun _ => 0) 0 255) (fun _ => 0)).sf_count = sampleConsts.MAX_FILTERS ∨
       (((initGeometry 1 1).tiles_x * (initGeometry 1 1).tiles_y : Nat) : Int) ≤
        (designFilters sampleConsts (fun _ _ => true) zeroBank (fun _ => 0) (initGeometry 1 1)
          (Mem.set (fun _ => 0) 0 255) (fun _ => 0)).coverage) := by
  decide

/-- C19 (code bug): the element loop of `designFilters` never advances `px`
and calls the filter with the tile corner `(x, y)`. For the unmasked 2x1 image
and a single filter, the score of the tile is the sum of four terms, for the
byte offsets 0, 4, 8 and 12 (the last two lie behind the image), each taken
against the prediction for the coordinates `(0, 0)`; and in the 2x2 image whose
only masked pixel is `(0, 0)` the unmasked pixel `(1, 0)` at offset 4
contributes nothing, while the offsets 8 to 20 of the second row do. -/
theorem designFilters_scores_tile_corner (fb : FilterBank) (rgba : Mem) :
    designFilters_scores oneFilterConsts (fun _ _ => false) fb rgba 2 1 4 4 0 0 0 =
      [0 + pixelScore fb 0 rgba 0 0 0 2 + pixelScore fb 0 rgba 4 0 0 2 +
        pixelScore fb 0 rgba 8 0 0 2 + pixelScore fb 0 rgba 12 0 0 2] ∧
    designFilters_scores oneFilterConsts (fun x y => x == 0 && y == 0) fb rgba 2 2 4 4 0 0 0 =
      [0 + pixelScore fb 0 rgba 8 0 0 2 + pixelScore fb 0 rgba 12 0 0 2 +
        pixelScore fb 0 rgba 16 0 0 2 + pixelScore fb 0 rgba 20 0 0 2] :=
  ⟨rfl, rfl⟩

/-- The loop over the chaos levels keeps `best_chaos_levels` between one and
the last level tried. -/
theorem designChaos_best_range {C E : Type} (max_levels : Nat) (ch : ChaosOps C)
    (ops : EntropyEstimatorOps E) (isMasked : Nat → Nat → Bool) (res : Mem) (g : Geometry)
    (ee0 : Nat → E) :
    1 ≤ designChaos_best max_levels ch ops isMasked res g ee0 ∧
    designChaos_best max_levels ch ops isMasked res g ee0 ≤ max 1 (max_levels - 1) := by
  unfold designChaos_best
  have key : ∀ (l : List Nat) (st : (Nat → E) × Nat × Nat),
      (∀ k ∈ l, 1 ≤ k ∧ k ≤ max 1 (max_levels - 1)) →
      1 ≤ st.2.2 ∧ st.2.2 ≤ max 1 (max_levels - 1) →
      1 ≤ (l.foldl (designChaos_level ch ops isMasked res g) st).2.2 ∧
      (l.foldl (designChaos_level ch ops isMasked res g) st).2.2 ≤ max 1 (max_levels - 1) := by
    intro l
    induction l with
    | nil => intro st _ h; exact h
    | cons k l ih =>
      intro st hl hst
      rw [List.foldl_cons]
      refine ih _ (fun j hj => hl j (List.mem_cons_of_mem _ hj)) ?_
      unfold designChaos_level
      simp only []
      split
      · exact hl k (List.mem_cons_self _ _)
      · exact hst
  refine key _ _ ?_ ⟨le_refl _, by simp⟩
  intro k hk
  rw [List.mem_range'_1] at hk
  omega

/-- With `MAX_CHAOS_LEVELS = 16`, `designChaos` initialises `_chaos` with
between 1 and 15 levels. -/
theorem designChaos_levels_fit {C E : Type} (ch : ChaosOps C) (ops : EntropyEstimatorOps E)
    (isMasked : Nat → Nat → Bool) (res : Mem) (g : Geometry) (ee0 : Nat → E) :
    1 ≤ designChaos_best MAX_CHAOS_LEVELS ch ops isMasked res g ee0 ∧
    designChaos_best MAX_CHAOS_LEVELS ch ops isMasked res g ee0 - 1 < 16 := by
  have h := designChaos_best_range MAX_CHAOS_LEVELS ch ops isMasked res g ee0
  have hm : MAX_CHAOS_LEVELS = 16 := rfl
  omega

/-- C14 (code bug): `writeTables` emits `_tile_bits_x` in 3 bits, the number of
designed filters in 5 bits, their indices in 7 bits each, the SF and CF mono
tables, the chaos bin count minus one in 4 bits and the Y, U, V tables of each
bin, but in the place of the alpha mono tables it writes the tables of
`_af_encoder`: the tables of `_a_encoder`, the coder `compressAlpha` initialises
and `writePixels` writes the alpha symbols with, are never emitted. The second
part is the call list for no designed filter and one chaos bin. -/
theorem writeTables_alpha_encoder {C : Type} (c : Consts) (ch : ChaosOps C) (tile_bits_x : Nat)
    (sel : FilterSelection) (chaos : C) :
    Call.monoWriteTables Mono.A ∉ writeTables c ch tile_bits_x sel chaos ∧
    Call.monoWriteTables Mono.AF ∈ writeTables c ch tile_bits_x sel chaos ∧
    writeTables sampleConsts levelChaos 2 ⟨fun j => j, 4, 0⟩ 1 =
      [Call.writeBits 2 3, Call.writeBits 0 5, Call.monoWriteTables Mono.SF,
       Call.monoWriteTables Mono.CF, Call.monoWriteTables Mono.AF, Call.writeBits 0 4,
       Call.encWriteTables (Encoder.Y 0), Call.encWriteTables (Encoder.U 0),
       Call.encWriteTables (Encoder.V 0)] := by
  refine ⟨?_, ?_, rfl⟩
  · simp [writeTables]
  · simp [writeTables]

/-- A property that the initial state has and every step with an element of
the list keeps holds after a `foldl`. -/
theorem foldl_keeps_mem {α β : Type} (P : β → Prop) (f : β → α → β) :
    ∀ (l : List α) (b : β), (∀ b a, a ∈ l → P b → P (f b a)) → P b → P (l.foldl f b) := by
  intro l
  induction l with
  | nil => intro b _ hb; exact hb
  | cons a l ih =>
    intro b hstep hb
    exact ih _ (fun b' a' ha' => hstep b' a' (List.mem_cons_of_mem _ ha'))
      (hstep b a (List.mem_cons_self _ _) hb)

/-- The pair `designTiles` records for a tile is a spatial filter below
`_sf_count` and a colour filter below `CF_COUNT`. -/
theorem designTiles_best_range {E : Type} (c : Consts) (ops : EntropyEstimatorOps E)
    (sfT : Nat → SafeFilter) (fb : FilterBank) (rgba : Mem) (sf_count size_x : Nat)
    (s : DesignState E) (elems : List (Nat × Nat × Nat)) (hsf : 0 < sf_count)
    (hcf : 0 < c.CF_COUNT) :
    (designTiles_best c ops sfT fb rgba sf_count size_x s elems).2.1 < sf_count ∧
    (designTiles_best c ops sfT fb rgba sf_count size_x s elems).2.2 < c.CF_COUNT := by
  unfold designTiles_best
  refine foldl_keeps_mem (fun b : Int × Nat × Nat => b.2.1 < sf_count ∧ b.2.2 < c.CF_COUNT) _ _ _
    ?_ ⟨hsf, hcf⟩
  intro b cand hcand hb
  have hc : cand.1 < sf_count ∧ cand.2 < c.CF_COUNT := by
    unfold designTiles_candidates at hcand
    rw [List.mem_flatMap] at hcand
    obtain ⟨sfi, hsfi, hmem⟩ := hcand
    rw [List.mem_map] at hmem
    obtain ⟨cfi, hcfi, heq⟩ := hmem
    rw [← heq]
    exact ⟨List.mem_range.1 hsfi, List.mem_range.1 hcfi⟩
  simp only []
  split
  · exact hc
  · exact hb

theorem SweptFrom.refl {E : Type} (c : Consts) (sf_count : Nat) (s : DesignState E)
    (h : s.passes = 0) : SweptFrom c sf_count s s :=
  ⟨h, le_refl _, fun _ _ => ⟨rfl, rfl⟩, fun p h1 h2 => absurd h2 (by omega)⟩

theorem SweptFrom.trans {E : Type} {c : Consts} {sf_count : Nat} {s m r : DesignState E}
    (h1 : SweptFrom c sf_count s m) (h2 : SweptFrom c sf_count m r) :
    SweptFrom c sf_count s r := by
  refine ⟨h2.passes, le_trans h1.mono h2.mono, ?_, ?_⟩
  · intro p hp
    have hm := h1.mono
    have hr := h2.mono
    have a := h2.frame p (by omega)
    have b := h1.frame p (by omega)
    exact ⟨a.1.trans b.1, a.2.trans b.2⟩
  · intro p hp1 hp2
    by_cases hpm : p < m.tiles.pos
    · have d := h1.designed p hp1 hpm
      have f := h2.frame p (Or.inl hpm)
      unfold TileDesigned at d ⊢
      rw [f.1, f.2]
      exact d
    · have d := h2.designed p (by omega) hp2
      have f := h1.frame p (Or.inr (by omega))
      unfold TileDesigned at d ⊢
      rw [← f.1, ← f.2]
      exact d

/-- One tile of a sweep with `passes = 0`: the loop goes on, and with the
pointer advanced the tile just visited is designed. -/
theorem designTiles_tile_step {E : Type} (c : Consts) (isMasked : Nat → Nat → Bool)
    (ops : EntropyEstimatorOps E) (sfT : Nat → SafeFilter) (fb : FilterBank) (rgba : Mem)
    (sf_count size_x size_y tile_size_x tile_size_y x y topleft : Nat) (s : DesignState E)
    (h : s.passes = 0) (hsf : 0 < sf_count) (hcf : 0 < c.CF_COUNT) :
    ∃ s1, designTiles_tile c isMasked ops sfT fb rgba sf_count size_x size_y tile_size_x
        tile_size_y x y topleft s = Flow.next s1 ∧
      SweptFrom c sf_count s { s1 with tiles := { s1.tiles with pos := s1.tiles.pos + 1 } } := by
  unfold designTiles_tile
  by_cases hm : s.tiles.sf s.tiles.pos = c.MASK_TILE
  · refine ⟨s, by simp [hm], h, Nat.le_succ _, fun _ _ => ⟨rfl, rfl⟩, ?_⟩
    intro p hp1 hp2
    have hp : p = s.tiles.pos := by
      have : p < s.tiles.pos + 1 := hp2
      omega
    subst hp
    exact ⟨fun _ => ⟨rfl, rfl⟩, fun hne => absurd hm hne⟩
  · have hr : designTiles_revisit isMasked ops sfT fb rgba size_x size_y tile_size_x
        tile_size_y x y topleft (s.tiles.sf s.tiles.pos) (s.tiles.cf s.tiles.pos) s
        = Flow.next s := by
      simp [designTiles_revisit, h]
    simp only [hm, if_false, hr]
    refine ⟨_, rfl, h, Nat.le_succ _, ?_, ?_⟩
    · intro p hp
      have hne : p ≠ s.tiles.pos := by
        rcases hp with hp | hp
        · omega
        · have : s.tiles.pos + 1 ≤ p := hp
          omega
      simp [Mem.set, hne]
    · intro p hp1 hp2
      have hp : p = s.tiles.pos := by
        have : p < s.tiles.pos + 1 := hp2
        omega
      subst hp
      refine ⟨fun he => absurd he hm, fun _ => ?_⟩
      have hb := designTiles_best_range c ops sfT fb rgba sf_count size_x s
        (tileRows isMasked size_x size_y tile_size_x x 1 size_x tile_size_y y topleft) hsf hcf
      simpa [Mem.set] using hb

section TileSweep

variable {E : Type} (c : Consts) (isMasked : Nat → Nat → Bool) (ops : EntropyEstimatorOps E)
  (sfT : Nat → SafeFilter) (fb : FilterBank) (rgba : Mem)
  (sf_count size_x size_y tile_size_x tile_size_y : Nat)

/-- Where the tile-row loop of `maskTiles` runs to its end, so does that of
`designTiles` with `passes = 0`; it visits as many tiles and designs them. -/
theorem designTiles_xLoop_swept (hsf : 0 < sf_count) (hcf : 0 < c.CF_COUNT) (y : Nat) :
    ∀ (fuel x : Nat) (t t1 : TileArrays) (topleft : Nat) (s : DesignState E),
      maskTiles_xLoop c isMasked size_x size_y tile_size_x tile_size_y y fuel x t = some t1 →
      s.passes = 0 →
      ∃ r, designTiles_xLoop c isMasked ops sfT fb rgba sf_count size_x size_y tile_size_x
          tile_size_y y fuel x topleft s = some (Flow.next r) ∧
        SweptFrom c sf_count s r.2 ∧ r.2.tiles.pos + t.pos = s.tiles.pos + t1.pos := by
  intro fuel
  induction fuel with
  | zero => intro x t t1 topleft s hm _; simp [maskTiles_xLoop] at hm
  | succ n ih =>
    intro x t t1 topleft s hm hp
    unfold maskTiles_xLoop at hm
    unfold designTiles_xLoop
    by_cases hx : x < size_x
    · simp only [hx, if_true] at hm ⊢
      obtain ⟨s1, hs1, hsw⟩ := designTiles_tile_step c isMasked ops sfT fb rgba sf_count size_x
        size_y tile_size_x tile_size_y x y topleft s hp hsf hcf
      simp only [hs1]
      obtain ⟨r, hr, hsw2, hpos⟩ := ih _ _ t1 (topleft + tile_size_x * 4)
        { s1 with tiles := { s1.tiles with pos := s1.tiles.pos + 1 } } hm hsw.passes
      refine ⟨r, hr, hsw.trans hsw2, ?_⟩
      have hmono := hsw.mono
      have hs1pos : s1.tiles.pos = s.tiles.pos := by
        have := designTiles_tile_passes_zero c isMasked ops sfT fb rgba sf_count size_x size_y
          tile_size_x tile_size_y x y topleft s hp
        obtain ⟨s2, hs2, _, hpos2⟩ := this
        rw [hs1] at hs2
        cases hs2
        exact hpos2
      simp only [] at hpos
      omega
    · simp only [hx, if_false] at hm ⊢
      cases hm
      exact ⟨(topleft, s), rfl, SweptFrom.refl c sf_count s hp, rfl⟩

/-- Where the tile loops of `maskTiles` run to their end, so does a sweep of
`designTiles` with `passes = 0`; it visits as many tiles and designs them. -/
theorem designTiles_yLoop_swept (hsf : 0 < sf_count) (hcf : 0 < c.CF_COUNT) :
    ∀ (fuel y : Nat) (t t1 : TileArrays) (topleft : Nat) (s : DesignState E),
      maskTiles_yLoop c isMasked size_x size_y tile_size_x tile_size_y fuel y t = some t1 →
      s.passes = 0 →
      ∃ r, designTiles_yLoop c isMasked ops sfT fb rgba sf_count size_x size_y tile_size_x
          tile_size_y fuel y topleft s = some (Flow.next r) ∧
        SweptFrom c sf_count s r.2 ∧ r.2.tiles.pos + t.pos = s.tiles.pos + t1.pos := by
  intro fuel
  induction fuel with
  | zero => intro y t t1 topleft s hm _; simp [maskTiles_yLoop] at hm
  | succ n ih =>
    intro y t t1 topleft s hm hp
    unfold maskTiles_yLoop at hm
    unfold designTiles_yLoop
    by_cases hy : y < size_y
    · simp only [hy, if_true] at hm ⊢
      cases hrow : maskTiles_xLoop c isMasked size_x size_y tile_size_x tile_size_y y u16Fuel 0 t
        with
      | none => simp [hrow] at hm
      | some t2 =>
        simp only [hrow] at hm
        obtain ⟨r1, hr1, hsw1, hpos1⟩ := designTiles_xLoop_swept c isMasked ops sfT fb rgba
          sf_count size_x size_y tile_size_x tile_size_y hsf hcf y u16Fuel 0 t t2 topleft s hrow hp
        simp only [hr1]
        obtain ⟨r, hr, hsw2, hpos2⟩ := ih _ t2 t1 r1.1 r1.2 hm hsw1.passes
        exact ⟨r, hr, hsw1.trans hsw2, by omega⟩
    · simp only [hy, if_false] at hm ⊢
      cases hm
      exact ⟨(topleft, s), rfl, SweptFrom.refl c sf_count s hp, rfl⟩

/-- Any number of further sweeps with `passes = 0` run to their end and leave
the tiles below the pointer they started from untouched. -/
theorem designTiles_sweeps_frame (hmax : 0 < c.MAX_PASSES) (hsf : 0 < sf_count)
    (hcf : 0 < c.CF_COUNT) (t0 t1 : TileArrays)
    (hm : maskTiles_yLoop c isMasked size_x size_y tile_size_x tile_size_y u16Fuel 0 t0
      = some t1) :
    ∀ (n : Nat) (s : DesignState E), s.passes = 0 →
      ∃ r, designTiles_sweeps c isMasked ops sfT fb rgba sf_count size_x size_y tile_size_x
          tile_size_y n s = some r ∧ r.passes = 0 ∧
        ∀ p, p < s.tiles.pos → r.tiles.sf p = s.tiles.sf p ∧ r.tiles.cf p = s.tiles.cf p := by
  intro n
  induction n with
  | zero => intro s hp; exact ⟨s, rfl, hp, fun _ _ => ⟨rfl, rfl⟩⟩
  | succ n ih =>
    intro s hp
    unfold designTiles_sweeps
    have hlt : s.passes < c.MAX_PASSES := by omega
    obtain ⟨r1, hr1, hsw, _⟩ := designTiles_yLoop_swept c isMasked ops sfT fb rgba sf_count
      size_x size_y tile_size_x tile_size_y hsf hcf u16Fuel 0 t0 t1 0 s hm hp
    simp only [hlt, if_true, hr1]
    obtain ⟨r, hr, hrp, hframe⟩ := ih r1.2 hsw.passes
    refine ⟨r, hr, hrp, ?_⟩
    intro p hpp
    have hmono := hsw.mono
    have a := hframe p (by omega)
    have b := hsw.frame p (Or.inl hpp)
    exact ⟨a.1.trans b.1, a.2.trans b.2⟩

/-- The two arrays `maskTiles` fills agree on every entry it has written. -/
theorem maskTiles_xLoop_agree (y : Nat) :
    ∀ (fuel x : Nat) (t t1 : TileArrays),
      maskTiles_xLoop c isMasked size_x size_y tile_size_x tile_size_y y fuel x t = some t1 →
      (∀ p, p < t.pos → t.sf p = t.cf p) → ∀ p, p < t1.pos → t1.sf p = t1.cf p := by
  intro fuel
  induction fuel with
  | zero => intro x t t1 hm; simp [maskTiles_xLoop] at hm
  | succ n ih =>
    intro x t t1 hm hagree
    unfold maskTiles_xLoop at hm
    by_cases hx : x < size_x
    · simp only [hx, if_true] at hm
      refine ih _ _ t1 hm ?_
      intro p hp
      by_cases hpp : p = t.pos
      · simp [Mem.set, hpp]
      · have hlt : p < t.pos := by
          have : p < t.pos + 1 := hp
          omega
        simpa [Mem.set, hpp] using hagree p hlt
    · simp only [hx, if_false] at hm
      cases hm
      exact hagree

theorem maskTiles_yLoop_agree :
    ∀ (fuel y : Nat) (t t1 : TileArrays),
      maskTiles_yLoop c isMasked size_x size_y tile_size_x tile_size_y fuel y t = some t1 →
      (∀ p, p < t.pos → t.sf p = t.cf p) → ∀ p, p < t1.pos → t1.sf p = t1.cf p := by
  intro fuel
  induction fuel with
  | zero => intro y t t1 hm; simp [maskTiles_yLoop] at hm
  | succ n ih =>
    intro y t t1 hm hagree
    unfold maskTiles_yLoop at hm
    by_cases hy : y < size_y
    · simp only [hy, if_true] at hm
      cases hrow : maskTiles_xLoop c isMasked size_x size_y tile_size_x tile_size_y y u16Fuel 0 t
        with
      | none => simp [hrow] at hm
      | some t2 =>
        simp only [hrow] at hm
        exact ih _ t2 t1 hm (maskTiles_xLoop_agree c isMasked size_x size_y tile_size_x
          tile_size_y y u16Fuel 0 t t2 hrow hagree)
    · simp only [hy, if_false] at hm
      cases hm
      exact hagree

end TileSweep

/-- C13: after `maskTiles` every tile it has written satisfies
`sf == MASK_TILE` iff `cf == MASK_TILE`; every sweep of `designTiles` runs to
its end, and after one or more sweeps every tile of the grid still satisfies
the equivalence, a tile that was `MASK_TILE` is unchanged, and every other tile
holds `sf < _sf_count` and `cf < CF_COUNT`. The filter counts are positive and
at most `MASK_TILE`. -/
theorem tile_invariant {E : Type} (c : Consts) (isMasked : Nat → Nat → Bool)
    (ops : EntropyEstimatorOps E) (sfT : Nat → SafeFilter) (fb : FilterBank) (rgba : Mem)
    (g : Geometry) (sf_count : Nat) (revisitCount : Int) (sf0 cf0 : Mem) (t0 : TileArrays)
    (hmax : 0 < c.MAX_PASSES) (hsf : 0 < sf_count) (hsfm : sf_count ≤ c.MASK_TILE)
    (hcf : 0 < c.CF_COUNT) (hcfm : c.CF_COUNT ≤ c.MASK_TILE)
    (hmask : maskTiles c isMasked g.size_x g.size_y g.tile_size_x g.tile_size_y sf0 cf0
      = some t0) :
    (∀ p, p < t0.pos → (t0.sf p = c.MASK_TILE ↔ t0.cf p = c.MASK_TILE)) ∧
    ∀ n, ∃ s, designTiles_sweeps c isMasked ops sfT fb rgba sf_count (g.size_x % 65536)
        (g.size_y % 65536) (g.tile_size_x % 65536) (g.tile_size_y % 65536) (n + 1)
        (designTiles_start ops revisitCount t0) = some s ∧
      ∀ p, p < t0.pos →
        (s.tiles.sf p = c.MASK_TILE ↔ s.tiles.cf p = c.MASK_TILE) ∧
        (t0.sf p = c.MASK_TILE → s.tiles.sf p = c.MASK_TILE ∧ s.tiles.cf p = c.MASK_TILE) ∧
        (t0.sf p ≠ c.MASK_TILE → s.tiles.sf p < sf_count ∧ s.tiles.cf p < c.CF_COUNT) := by
  unfold maskTiles at hmask
  have hagree := maskTiles_yLoop_agree c isMasked _ _ _ _ u16Fuel 0 _ t0 hmask
    (fun p hp => absurd hp (Nat.not_lt_zero p))
  refine ⟨fun p hp => by rw [hagree p hp], ?_⟩
  intro n
  obtain ⟨r1, hr1, hsw, hpos⟩ := designTiles_yLoop_swept c isMasked ops sfT fb rgba sf_count
    _ _ _ _ hsf hcf u16Fuel 0 _ t0 0 (designTiles_start ops revisitCount t0) hmask rfl
  obtain ⟨r, hr, _, hframe⟩ := designTiles_sweeps_frame c isMasked ops sfT fb rgba sf_count
    _ _ _ _ hmax hsf hcf _ t0 hmask n r1.2 hsw.passes
  have hstart : (designTiles_start ops revisitCount t0).passes < c.MAX_PASSES := hmax
  have hr1pos : r1.2.tiles.pos = t0.pos := by
    have h0 : (designTiles_start ops revisitCount t0).tiles.pos = 0 := rfl
    simp only [h0] at hpos
    omega
  refine ⟨r, ?_, ?_⟩
  · rw [designTiles_sweeps]
    simp only [hstart, if_true, hr1]
    exact hr
  · intro p hp
    have hd := hsw.designed p (Nat.zero_le _) (by omega)
    have hf := hframe p (by omega)
    have hsf0 : (designTiles_start ops revisitCount t0).tiles.sf p = t0.sf p := rfl
    have hcf0 : (designTiles_start ops revisitCount t0).tiles.cf p = t0.cf p := rfl
    unfold TileDesigned at hd
    rw [hsf0, hcf0] at hd
    rw [hf.1, hf.2]
    by_cases hm : t0.sf p = c.MASK_TILE
    · have h1 := hd.1 hm
      have hc : t0.cf p = c.MASK_TILE := by rw [← hagree p hp]; exact hm
      refine ⟨?_, fun _ => ⟨h1.1.trans hm, h1.2.trans hc⟩, fun hne => absurd hm hne⟩
      rw [h1.1, h1.2]
      exact ⟨fun _ => hc, fun _ => hm⟩
    · have h2 := hd.2 hm
      refine ⟨?_, fun he => absurd he hm, fun _ => h2⟩
      constructor
      · intro he; omega
      · intro he; omega

/-- C13, witness: the 1x1 image whose pixel is not masked, four spatial
filters, the sample constants. -/
theorem tile_invariant_witness :
    (0 < sampleConsts.MAX_PASSES ∧ 0 < 4 ∧ 4 ≤ sampleConsts.MASK_TILE ∧
      0 < sampleConsts.CF_COUNT ∧ sampleConsts.CF_COUNT ≤ sampleConsts.MASK_TILE ∧
      maskTiles sampleConsts (fun _ _ => false) (initGeometry 1 1).size_x
        (initGeometry 1 1).size_y (initGeometry 1 1).tile_size_x (initGeometry 1 1).tile_size_y
        (fun _ => 0) (fun _ => 0) = some oneTodoTile) ∧
    ((∀ p, p < oneTodoTile.pos →
      (oneTodoTile.sf p = sampleConsts.MASK_TILE ↔ oneTodoTile.cf p = sampleConsts.MASK_TILE)) ∧
    ∀ n, ∃ s, designTiles_sweeps sampleConsts (fun _ _ => false) unitEstimator zeroBank.safe
        zeroBank (fun _ => 0) 4 ((initGeometry 1 1).size_x % 65536)
        ((initGeometry 1 1).size_y % 65536) ((initGeometry 1 1).tile_size_x % 65536)
        ((initGeometry 1 1).tile_size_y % 65536) (n + 1)
        (designTiles_start unitEstimator 0 oneTodoTile) = some s ∧
      ∀ p, p < oneTodoTile.pos →
        (s.tiles.sf p = sampleConsts.MASK_TILE ↔ s.tiles.cf p = sampleConsts.MASK_TILE) ∧
        (oneTodoTile.sf p = sampleConsts.MASK_TILE →
          s.tiles.sf p = sampleConsts.MASK_TILE ∧ s.tiles.cf p = sampleConsts.MASK_TILE) ∧
        (oneTodoTile.sf p ≠ sampleConsts.MASK_TILE →
          s.tiles.sf p < 4 ∧ s.tiles.cf p < sampleConsts.CF_COUNT)) :=
  ⟨⟨by decide, by decide, by decide, by decide, by decide, rfl⟩,
    tile_invariant sampleConsts (fun _ _ => false) unitEstimator zeroBank.safe zeroBank
      (fun _ => 0) (initGeometry 1 1) 4 0 (fun _ => 0) (fun _ => 0) oneTodoTile (by decide)
      (by decide) (by decide) (by decide) (by decide) rfl⟩

theorem FilterScorer.add_length (s : FilterScorer) :
    ∀ (i : Nat) (v : Int), (FilterScorer.add s i v).length = s.length := by
  induction s with
  | nil => intro i v; rfl
  | cons a l ih =>
    intro i v
    cases i with
    | zero => rfl
    | succ i => simp [FilterScorer.add, ih]

/-- The awards array of `designFilters` has one entry per spatial filter. -/
theorem designFilters_awards_length (c : Consts) (isMasked : Nat → Nat → Bool)
    (fb : FilterBank) (rgba : Mem) (g : Geometry) (sf : Mem) :
    (designFilters_awards c isMasked fb rgba g sf).length = c.SF_COUNT := by
  unfold designFilters_awards
  refine foldl_keeps (fun st : Nat × Nat × FilterScorer => st.2.2.length = c.SF_COUNT)
    _ ?_ _ _ (by simp [FilterScorer.zero])
  intro st y hst
  unfold designFilters_row
  refine foldl_keeps (fun st : Nat × Nat × FilterScorer => st.2.2.length = c.SF_COUNT)
    _ ?_ _ _ hst
  intro st1 x hst1
  simp only []
  split
  · exact hst1
  · simp [designFilters_award, FilterScorer.add_length, hst1]

/-- What `getTop(k)` returns: `min k N` entries, in descending order of score,
no index twice, each entry carrying the accumulated score of its index. -/
theorem FilterScorer.getTop_spec (s : FilterScorer) (k : Nat) :
    (s.getTop k).length = min k s.length ∧
    (s.getTop k).Pairwise (fun a b => b.score ≤ a.score) ∧
    ((s.getTop k).map Score.index).Nodup ∧
    ∀ e, e ∈ s.getTop k → e.index < s.length ∧ e.score = s.getD e.index 0 := by
  haveI : IsTotal Score (fun a b => b.score ≤ a.score) := ⟨fun a b => le_total b.score a.score⟩
  haveI : IsTrans Score (fun a b => b.score ≤ a.score) :=
    ⟨fun a b c hab hbc => le_trans hbc hab⟩
  have hperm := List.perm_insertionSort (fun a b : Score => b.score ≤ a.score)
    (((List.range s.length).zip s).map (fun p => Score.mk p.1 p.2))
  have hsorted := List.sorted_insertionSort (fun a b : Score => b.score ≤ a.score)
    (((List.range s.length).zip s).map (fun p => Score.mk p.1 p.2))
  unfold FilterScorer.getTop
  refine ⟨?_, ?_, ?_, ?_⟩
  · simp [List.length_take, List.length_insertionSort]
  · exact List.Pairwise.sublist (List.take_sublist _ _) hsorted
  · refine List.Nodup.sublist ((List.take_sublist _ _).map _) ?_
    rw [(hperm.map Score.index).nodup_iff, List.map_map]
    have hfst : (Score.index ∘ fun p : Nat × Int => Score.mk p.1 p.2) = Prod.fst := rfl
    rw [hfst, List.map_fst_zip _ _ (by simp)]
    exact List.nodup_range _
  · intro e he
    have he2 := hperm.mem_iff.1 (List.mem_of_mem_take he)
    rw [List.mem_map] at he2
    obtain ⟨p, hp, hpe⟩ := he2
    obtain ⟨i, hi⟩ := List.mem_iff_getElem?.1 hp
    rw [List.getElem?_zip_eq_some] at hi
    obtain ⟨h1, h2⟩ := hi
    have hlt : i < s.length := by
      rcases List.getElem?_eq_some.1 h2 with ⟨hh, _⟩
      exact hh
    rw [List.getElem?_range hlt] at h1
    have hidx : p.1 = i := by
      cases h1; rfl
    rw [← hpe]
    simp only [hidx]
    refine ⟨hlt, ?_⟩
    rw [List.getD_eq_getElem?_getD, h2]
    rfl

theorem designFilters_fixed_frame (c : Consts) (idx0 : Mem) (j : Nat) (hj : j < c.SF_FIXED) :
    designFilters_fixed c idx0 j = j := by
  unfold designFilters_fixed
  have key : ∀ (n : Nat) (j : Nat), j < n →
      (List.range n).foldl (fun (m : Mem) jj => m.set jj jj) idx0 j = j := by
    intro n
    induction n with
    | zero => intro j hj; omega
    | succ n ih =>
      intro j hj
      rw [List.range_succ, List.foldl_append]
      simp only [List.foldl_cons, List.foldl_nil, Mem.set]
      by_cases h : j = n
      · simp [h]
      · simp only [h, if_false]
        exact ih j (by omega)
  exact key _ j hj

/-- The selection loop appends, from position `s.sf_count` on, the indices of
the examined entries that are not fixed filters, in the order of `top`, and
leaves the positions below `s.sf_count` as they were. -/
theorem designFilters_select_entries (c : Consts) (thresh : Int) :
    ∀ (count : Nat) (top : List Score) (s : FilterSelection), count ≤ top.length →
      ∃ D : List Score, D.Sublist (top.take count) ∧
        (∀ e, e ∈ D → c.SF_FIXED ≤ e.index) ∧
        (designFilters_select c thresh count top s).sf_count = s.sf_count + D.length ∧
        (∀ i, i < D.length →
          (designFilters_select c thresh count top s).sf_indices (s.sf_count + i) =
            (D.getD i ⟨0, 0⟩).index) ∧
        (∀ p, p < s.sf_count →
          (designFilters_select c thresh count top s).sf_indices p = s.sf_indices p) := by
  intro count
  induction count with
  | zero =>
    intro top s _
    exact ⟨[], by simp, by simp, by simp [designFilters_select],
      by simp, by simp [designFilters_select]⟩
  | succ n ih =>
    intro top s hlen
    cases top with
    | nil => simp at hlen
    | cons e t =>
      have hlen1 : n ≤ t.length := by simpa using hlen
      have htop : topAt (e :: t) 0 = e := rfl
      unfold designFilters_select
      simp only [htop, List.tail_cons, List.take_succ_cons]
      by_cases hc : thresh ≤ s.coverage + Int.tdiv e.score 5
      · simp only [hc, if_true]
        by_cases hi : c.SF_FIXED ≤ e.index
        · simp only [hi, if_true]
          refine ⟨[e], ?_, ?_, rfl, ?_, ?_⟩
          · simp
          · intro e1 he1
            rw [List.mem_singleton] at he1
            rw [he1]; exact hi
          · intro i hi1
            have hi0 : i = 0 := by simpa using hi1
            subst hi0
            simp [Mem.set]
          · intro p hp
            have hne : p ≠ s.sf_count := by omega
            simp [Mem.set, hne]
        · simp only [hi, if_false]
          exact ⟨[], by simp, by simp, rfl, by simp, by simp⟩
      · simp only [hc, if_false]
        by_cases hi : c.SF_FIXED ≤ e.index
        · simp only [hi, if_true]
          obtain ⟨D, hsub, hfix, hcnt, hidx, hframe⟩ := ih t
            { sf_indices := s.sf_indices.set s.sf_count e.index, sf_count := s.sf_count + 1,
              coverage := s.coverage + Int.tdiv e.score 5 } hlen1
          refine ⟨e :: D, hsub.cons₂ e, ?_, ?_, ?_, ?_⟩
          · intro e1 he1
            rcases List.mem_cons.1 he1 with h | h
            · rw [h]; exact hi
            · exact hfix e1 h
          · rw [hcnt]; simp only [List.length_cons]; omega
          · intro i hi1
            cases i with
            | zero =>
              have h0 := hframe s.sf_count (by simp)
              simp only [Nat.add_zero]
              rw [h0]
              simp [Mem.set]
            | succ i =>
              have h1 := hidx i (by simpa using hi1)
              have harg : s.sf_count + (i + 1) = s.sf_count + 1 + i := by omega
              rw [harg]
              simpa using h1
          · intro p hp
            have h0 := hframe p (by simp; omega)
            rw [h0]
            have hne : p ≠ s.sf_count := by omega
            simp [Mem.set, hne]
        · simp only [hi, if_false]
          obtain ⟨D, hsub, hfix, hcnt, hidx, hframe⟩ := ih t
            { s with coverage := s.coverage + Int.tdiv e.score 5 } hlen1
          exact ⟨D, hsub.cons e, hfix, hcnt, hidx, hframe⟩

/-- C20: after `designFilters`, when the constants satisfy
`SF_FIXED ≤ MAX_FILTERS` and `MAX_FILTERS - SF_FIXED ≤ SF_COUNT`, for every
input: `_sf_indices[j] = j` for `j < SF_FIXED`; `SF_FIXED ≤ _sf_count ≤
MAX_FILTERS`; every entry at a position in `[SF_FIXED, _sf_count)` is an index
in `[SF_FIXED, SF_COUNT)`; no index occurs twice below `_sf_count`; and the
designed entries are in descending order of their aggregated award. -/
theorem designFilters_indices (c : Consts) (isMasked : Nat → Nat → Bool) (fb : FilterBank)
    (rgba : Mem) (g : Geometry) (sf idx0 : Mem)
    (hfixed : c.SF_FIXED ≤ c.MAX_FILTERS)
    (hcount : c.MAX_FILTERS - c.SF_FIXED ≤ c.SF_COUNT) :
    (∀ j, j < c.SF_FIXED → (designFilters c isMasked fb rgba g sf idx0).sf_indices j = j) ∧
    c.SF_FIXED ≤ (designFilters c isMasked fb rgba g sf idx0).sf_count ∧
    (designFilters c isMasked fb rgba g sf idx0).sf_count ≤ c.MAX_FILTERS ∧
    (∀ p, c.SF_FIXED ≤ p → p < (designFilters c isMasked fb rgba g sf idx0).sf_count →
      c.SF_FIXED ≤ (designFilters c isMasked fb rgba g sf idx0).sf_indices p ∧
      (designFilters c isMasked fb rgba g sf idx0).sf_indices p < c.SF_COUNT) ∧
    (∀ p q, p < q → q < (designFilters c isMasked fb rgba g sf idx0).sf_count →
      (designFilters c isMasked fb rgba g sf idx0).sf_indices p ≠
        (designFilters c isMasked fb rgba g sf idx0).sf_indices q) ∧
    (∀ p q, c.SF_FIXED ≤ p → p < q →
      q < (designFilters c isMasked fb rgba g sf idx0).sf_count →
      (designFilters_awards c isMasked fb rgba g sf).getD
          ((designFilters c isMasked fb rgba g sf idx0).sf_indices q) 0 ≤
        (designFilters_awards c isMasked fb rgba g sf).getD
          ((designFilters c isMasked fb rgba g sf idx0).sf_indices p) 0) := by
  have hlenA := designFilters_awards_length c isMasked fb rgba g sf
  obtain ⟨hlen, hsorted, hnodup, hent⟩ := FilterScorer.getTop_spec
    (designFilters_awards c isMasked fb rgba g sf) (c.MAX_FILTERS - c.SF_FIXED)
  rw [hlenA] at hlen
  have hlen2 : c.MAX_FILTERS - c.SF_FIXED ≤
      ((designFilters_awards c isMasked fb rgba g sf).getTop
        (c.MAX_FILTERS - c.SF_FIXED)).length := by
    rw [hlen]; exact le_min (le_refl _) hcount
  obtain ⟨D, hsub, hfix, hcnt, hidx, hframe⟩ := designFilters_select_entries c
    ((g.tiles_x * g.tiles_y : Nat) : Int) (c.MAX_FILTERS - c.SF_FIXED)
    ((designFilters_awards c isMasked fb rgba g sf).getTop (c.MAX_FILTERS - c.SF_FIXED))
    { sf_indices := designFilters_fixed c idx0, sf_count := c.SF_FIXED, coverage := 0 } hlen2
  have hsubT : D.Sublist ((designFilters_awards c isMasked fb rgba g sf).getTop
      (c.MAX_FILTERS - c.SF_FIXED)) := hsub.trans (List.take_sublist _ _)
  have hDlen : D.length ≤ c.MAX_FILTERS - c.SF_FIXED := by
    have h1 := hsub.length_le
    rw [List.length_take] at h1
    exact le_trans h1 (min_le_left _ _)
  have hDsorted := List.Pairwise.sublist hsubT hsorted
  have hDnodup := List.Nodup.sublist (hsubT.map Score.index) hnodup
  change (designFilters c isMasked fb rgba g sf idx0).sf_count = c.SF_FIXED + D.length at hcnt
  change ∀ i, i < D.length →
    (designFilters c isMasked fb rgba g sf idx0).sf_indices (c.SF_FIXED + i) =
      (D.getD i ⟨0, 0⟩).index at hidx
  change ∀ p, p < c.SF_FIXED →
    (designFilters c isMasked fb rgba g sf idx0).sf_indices p = designFilters_fixed c idx0 p
    at hframe
  have hfixedAt : ∀ j, j < c.SF_FIXED →
      (designFilters c isMasked fb rgba g sf idx0).sf_indices j = j := by
    intro j hj
    rw [hframe j hj, designFilters_fixed_frame c idx0 j hj]
  have hat : ∀ p, c.SF_FIXED ≤ p → p < c.SF_FIXED + D.length →
      ∃ h : p - c.SF_FIXED < D.length,
        (designFilters c isMasked fb rgba g sf idx0).sf_indices p =
          (D.get ⟨p - c.SF_FIXED, h⟩).index := by
    intro p h1 h2
    have h : p - c.SF_FIXED < D.length := by omega
    refine ⟨h, ?_⟩
    have h3 := hidx (p - c.SF_FIXED) h
    have harg : c.SF_FIXED + (p - c.SF_FIXED) = p := by omega
    rw [harg] at h3
    rw [h3, List.getD_eq_getElem?_getD, List.getElem?_eq_getElem h]
    rfl
  rw [hcnt]
  refine ⟨hfixedAt, by omega, by omega, ?_, ?_, ?_⟩
  · intro p h1 h2
    obtain ⟨h, hp⟩ := hat p h1 h2
    have hmem : D.get ⟨p - c.SF_FIXED, h⟩ ∈ D := List.get_mem _ _ _
    rw [hp]
    refine ⟨hfix _ hmem, ?_⟩
    have h4 := (hent _ (hsubT.subset hmem)).1
    rw [hlenA] at h4
    exact h4
  · intro p q hpq hq
    by_cases hp : p < c.SF_FIXED
    · rw [hfixedAt p hp]
      by_cases hq1 : q < c.SF_FIXED
      · rw [hfixedAt q hq1]; omega
      · obtain ⟨h, hqe⟩ := hat q (by omega) hq
        have hmem : D.get ⟨q - c.SF_FIXED, h⟩ ∈ D := List.get_mem _ _ _
        have := hfix _ hmem
        rw [hqe]; omega
    · obtain ⟨h1, hpe⟩ := hat p (by omega) (by omega)
      obtain ⟨h2, hqe⟩ := hat q (by omega) hq
      rw [hpe, hqe]
      intro heq
      have hinj := (List.nodup_iff_injective_get.1 hDnodup)
      have h1m : p - c.SF_FIXED < (D.map Score.index).length := by simpa using h1
      have h2m : q - c.SF_FIXED < (D.map Score.index).length := by simpa using h2
      have heq2 : (D.map Score.index).get ⟨p - c.SF_FIXED, h1m⟩ =
          (D.map Score.index).get ⟨q - c.SF_FIXED, h2m⟩ := by
        simpa using heq
      have := hinj heq2
      simp only [Fin.mk.injEq] at this
      omega
  · intro p q hp hpq hq
    obtain ⟨h1, hpe⟩ := hat p hp (by omega)
    obtain ⟨h2, hqe⟩ := hat q (by omega) hq
    rw [hpe, hqe]
    have hm1 : D.get ⟨p - c.SF_FIXED, h1⟩ ∈ D := List.get_mem _ _ _
    have hm2 : D.get ⟨q - c.SF_FIXED, h2⟩ ∈ D := List.get_mem _ _ _
    rw [← (hent _ (hsubT.subset hm1)).2, ← (hent _ (hsubT.subset hm2)).2]
    have hlt : (⟨p - c.SF_FIXED, h1⟩ : Fin D.length) < ⟨q - c.SF_FIXED, h2⟩ := by
      show p - c.SF_FIXED < q - c.SF_FIXED
      omega
    exact List.pairwise_iff_get.1 hDsorted _ _ hlt

/-- C20, witness: the statement at the 1x1 image whose pixel is not masked. -/
theorem designFilters_indices_witness :
    sampleConsts.SF_FIXED ≤ sampleConsts.MAX_FILTERS ∧
    sampleConsts.MAX_FILTERS - sampleConsts.SF_FIXED ≤ sampleConsts.SF_COUNT ∧
    (∀ j, j < sampleConsts.SF_FIXED → (designFilters sampleConsts (fun _ _ => false) zeroBank (fun _ => 0)
        (initGeometry 1 1) (fun _ => 0) (fun _ => 0)).sf_indices j = j) ∧
    sampleConsts.SF_FIXED ≤ (designFilters sampleConsts (fun _ _ => false) zeroBank (fun _ => 0)
        (initGeometry 1 1) (fun _ => 0) (fun _ => 0)).sf_count ∧
    (designFilters sampleConsts (fun _ _ => false) zeroBank (fun _ => 0)
        (initGeometry 1 1) (fun _ => 0) (fun _ => 0)).sf_count ≤ sampleConsts.MAX_FILTERS ∧
    (∀ p, sampleConsts.SF_FIXED ≤ p → p < (designFilters sampleConsts (fun _ _ => false) zeroBank (fun _ => 0)
        (initGeometry 1 1) (fun _ => 0) (fun _ => 0)).sf_count →
      sampleConsts.SF_FIXED ≤ (designFilters sampleConsts (fun _ _ => false) zeroBank (fun _ => 0)
        (initGeometry 1 1) (fun _ => 0) (fun _ => 0)).sf_indices p ∧
      (designFilters sampleConsts (fun _ _ => false) zeroBank (fun _ => 0)
        (initGeometry 1 1) (fun _ => 0) (fun _ => 0)).sf_indices p < sampleConsts.SF_COUNT) ∧
    (∀ p q, p < q → q < (designFilters sampleConsts (fun _ _ => false) zeroBank (fun _ => 0)
        (initGeometry 1 1) (fun _ => 0) (fun _ => 0)).sf_count →
      (designFilters sampleConsts (fun _ _ => false) zeroBank (fun _ => 0)
        (initGeometry 1 1) (fun _ => 0) (fun _ => 0)).sf_indices p ≠
        (designFilters sampleConsts (fun _ _ => false) zeroBank (fun _ => 0)
        (initGeometry 1 1) (fun _ => 0) (fun _ => 0)).sf_indices q) ∧
    (∀ p q, sampleConsts.SF_FIXED ≤ p → p < q →
      q < (designFilters sampleConsts (fun _ _ => false) zeroBank (fun _ => 0)
        (initGeometry 1 1) (fun _ => 0) (fun _ => 0)).sf_count →
      (designFilters_awards sampleConsts (fun _ _ => false) zeroBank (fun _ => 0)
        (initGeometry 1 1) (fun _ => 0)).getD
          ((designFilters sampleConsts (fun _ _ => false) zeroBank (fun _ => 0)
        (initGeometry 1 1) (fun _ => 0) (fun _ => 0)).sf_indices q) 0 ≤
        (designFilters_awards sampleConsts (fun _ _ => false) zeroBank (fun _ => 0)
        (initGeometry 1 1) (fun _ => 0)).getD
          ((designFilters sampleConsts (fun _ _ => false) zeroBank (fun _ => 0)
        (initGeometry 1 1) (fun _ => 0) (fun _ => 0)).sf_indices p) 0) :=
  ⟨by decide, by decide, designFilters_indices sampleConsts (fun _ _ => false) zeroBank
    (fun _ => 0) (initGeometry 1 1) (fun _ => 0) (fun _ => 0) (by decide) (by decide)⟩

end GCIF.ImageRGBAWriter

namespace GCIF.ImagePaletteWriter

theorem rasterCoords_succ (xsize n : Nat) :
    rasterCoords xsize (n + 1) =
      rasterCoords xsize n ++ (List.range xsize).map (fun x => (x, n)) := by
  simp [rasterCoords, List.range_succ, List.flatMap_append]

theorem rasterCoords_length (xsize ysize : Nat) :
    (rasterCoords xsize ysize).length = ysize * xsize := by
  induction ysize with
  | zero => simp [rasterCoords]
  | succ n ih => rw [rasterCoords_succ, List.length_append, ih]; simp; ring

/-- Pixel `(x, y)` is entry `y * xsize + x` of the raster order. -/
theorem rasterCoords_getElem? (xsize ysize x y : Nat) (hx : x < xsize) (hy : y < ysize) :
    (rasterCoords xsize ysize)[y * xsize + x]? = some (x, y) := by
  induction ysize with
  | zero => omega
  | succ n ih =>
    rw [rasterCoords_succ]
    by_cases hyn : y < n
    · have hlt : y * xsize + x < (rasterCoords xsize n).length := by
        rw [rasterCoords_length]
        have : (y + 1) * xsize ≤ n * xsize := Nat.mul_le_mul_right _ hyn
        have h2 : (y + 1) * xsize = y * xsize + xsize := by ring
        omega
      rw [List.getElem?_append_left hlt]
      exact ih hyn
    · have hy2 : y = n := by omega
      subst hy2
      have hge : (rasterCoords xsize y).length ≤ y * xsize + x := by
        rw [rasterCoords_length]; omega
      rw [List.getElem?_append_right hge, rasterCoords_length]
      simp [hx]

theorem seenFrom_append (masked : Nat → Nat → Bool) (rgba : Mem) :
    ∀ (a b : List (Nat × Nat)) (k : Nat),
      seenFrom masked rgba (a ++ b) k =
        seenFrom masked rgba a k ++ seenFrom masked rgba b (k + a.length) := by
  intro a
  induction a with
  | nil => intro b k; simp [seenFrom]
  | cons p a ih =>
    intro b k
    have hk : k + 1 + a.length = k + (a.length + 1) := by omega
    show (if IsMasked masked p.1 p.2 = true then [] else [rgba k]) ++
        seenFrom masked rgba (a ++ b) (k + 1) =
      ((if IsMasked masked p.1 p.2 = true then [] else [rgba k]) ++
        seenFrom masked rgba a (k + 1)) ++ seenFrom masked rgba b (k + (a.length + 1))
    rw [ih, hk, List.append_assoc]

theorem seenFrom_row (masked : Nat → Nat → Bool) (rgba : Mem) (xsize y : Nat) (n : Nat) :
    seenFrom masked rgba ((List.range n).map (fun x => (x, y))) (y * xsize) =
      ((List.range n).map (fun x => (x, y))).filterMap
        (fun p => if IsMasked masked p.1 p.2 then none else some (rgba (p.2 * xsize + p.1))) := by
  induction n with
  | zero => simp [seenFrom]
  | succ n ih =>
    rw [List.range_succ, List.map_append, seenFrom_append, ih, List.filterMap_append]
    congr 1
    by_cases hm : IsMasked masked n y = true <;> simp [seenFrom, hm]

/-- Read through the running pointer, the raster scan sees the unmasked
colours of the image. -/
theorem seenFrom_raster (masked : Nat → Nat → Bool) (rgba : Mem) (xsize ysize : Nat) :
    seenFrom masked rgba (rasterCoords xsize ysize) 0 = unmaskedColors masked rgba xsize ysize := by
  unfold unmaskedColors
  induction ysize with
  | zero => simp [rasterCoords, seenFrom]
  | succ n ih =>
    rw [rasterCoords_succ, seenFrom_append, ih, List.filterMap_append, rasterCoords_length,
      Nat.zero_add, seenFrom_row]

theorem length_le_distinctCount (l s : List Nat) (hd : l.Nodup) (hs : ∀ c, c ∈ l → c ∈ s) :
    l.length ≤ distinctCount s := by
  unfold distinctCount
  exact (List.Nodup.subperm hd (fun c hc => List.mem_dedup.2 (hs c hc))).length_le

theorem length_eq_distinctCount (l s : List Nat) (hd : l.Nodup) (hs : ∀ c, c ∈ l ↔ c ∈ s) :
    l.length = distinctCount s := by
  unfold distinctCount
  exact ((List.perm_ext_iff_of_nodup hd (List.nodup_dedup s)).2
    (fun c => by rw [List.mem_dedup]; exact hs c)).length_eq

/-- The invariant is kept when the scan meets a colour that `_map` knows. -/
theorem ScanInv.hit {pmax : Nat} {st : ScanState} {seen : List Nat} (h : ScanInv pmax st seen)
    (c idx : Nat) (hc : st.map c = some idx) (hist : Nat → Nat) (color : Nat) :
    ScanInv pmax { st with hist := hist, color := color } (seen ++ [c]) := by
  have hcp : c ∈ st.palette := List.getElem?_mem ((h.map c idx).1 hc)
  have hcs : c ∈ seen := (h.mem c).1 hcp
  refine ⟨h.nodup, ?_, ?_, h.size, h.map, h.bound⟩
  · intro a
    constructor
    · intro ha; exact List.mem_append_left _ ((h.mem a).1 ha)
    · intro ha
      rcases List.mem_append.1 ha with ha | ha
      · exact (h.mem a).2 ha
      · rw [List.mem_singleton.1 ha]; exact hcp
  · refine h.order.imp_of_mem ?_
    intro a b ha hb hab
    rw [List.indexOf_append_of_mem ((h.mem a).1 ha), List.indexOf_append_of_mem ((h.mem b).1 hb)]
    exact hab

/-- The invariant is kept when the scan appends a colour that `_map` does not
know and the palette has room. -/
theorem ScanInv.miss {pmax : Nat} {st : ScanState} {seen : List Nat} (h : ScanInv pmax st seen)
    (c : Nat) (hc : st.map c = none) (hroom : st.palette_size < pmax) (hist : Nat → Nat)
    (color : Nat) :
    ScanInv pmax
      { map := fun k => if k = c then some st.palette_size else st.map k
        palette := st.palette ++ [c]
        palette_size := st.palette_size + 1
        hist := hist
        color := color } (seen ++ [c]) := by
  have hcp : c ∉ st.palette := by
    intro hmem
    obtain ⟨n, hn⟩ := List.mem_iff_getElem?.1 hmem
    rw [(h.map c n).2 hn] at hc
    exact Option.noConfusion hc
  have hcs : c ∉ seen := fun hmem => hcp ((h.mem c).2 hmem)
  refine ⟨?_, ?_, ?_, ?_, ?_, ?_⟩
  · exact List.nodup_append.2 ⟨h.nodup, List.nodup_singleton c,
      fun a ha hb => hcp (by rw [← List.mem_singleton.1 hb]; exact ha)⟩
  · intro a
    simp only [List.mem_append, List.mem_singleton, h.mem a]
  · refine List.pairwise_append.2 ⟨?_, List.pairwise_singleton _ _, ?_⟩
    · refine h.order.imp_of_mem ?_
      intro a b ha hb hab
      rw [List.indexOf_append_of_mem ((h.mem a).1 ha),
        List.indexOf_append_of_mem ((h.mem b).1 hb)]
      exact hab
    · intro a ha b hb
      rw [List.mem_singleton.1 hb, List.indexOf_append_of_mem ((h.mem a).1 ha),
        List.indexOf_append_of_not_mem hcs, List.indexOf_cons_self]
      have := List.indexOf_lt_length.2 ((h.mem a).1 ha)
      omega
  · simp [h.size]
  · intro a i
    show (if a = c then some st.palette_size else st.map a) = some i ↔
      (st.palette ++ [c])[i]? = some a
    by_cases hac : a = c
    · subst hac
      simp only [if_true, Option.some.injEq]
      constructor
      · intro hi
        rw [← hi, h.size, List.getElem?_append_right (le_refl _)]
        simp
      · intro hi
        by_cases hlt : i < st.palette.length
        · rw [List.getElem?_append_left hlt] at hi
          exact absurd (List.getElem?_mem hi) hcp
        · have hlen : i < (st.palette ++ [a]).length := by
            rcases List.getElem?_eq_some.1 hi with ⟨hh, _⟩
            exact hh
          simp only [List.length_append, List.length_singleton] at hlen
          rw [h.size]; omega
    · simp only [hac, if_false]
      rw [h.map a i]
      constructor
      · intro hi
        have hlt : i < st.palette.length := by
          rcases List.getElem?_eq_some.1 hi with ⟨hh, _⟩
          exact hh
        rw [List.getElem?_append_left hlt]; exact hi
      · intro hi
        by_cases hlt : i < st.palette.length
        · rw [List.getElem?_append_left hlt] at hi; exact hi
        · rw [List.getElem?_append_right (not_lt.1 hlt)] at hi
          have : a ∈ [c] := List.getElem?_mem hi
          exact absurd (List.mem_singleton.1 this) hac
  · show (st.palette ++ [c]).length ≤ pmax
    rw [List.length_append, List.length_singleton, ← h.size]
    omega

/-- The pixel loops of `generatePalette`: when they run to the end the
invariant holds for all unmasked colours they read; when they are left through
`return false` these colours number more than `PALETTE_MAX`. -/
theorem generatePalette_scan_spec (pmax : Nat) (masked : Nat → Nat → Bool) (rgba : Mem) :
    ∀ (coords : List (Nat × Nat)) (st : ScanState) (seen : List Nat), ScanInv pmax st seen →
      ((generatePalette_scan pmax masked rgba coords st).1 = true →
        ScanInv pmax (generatePalette_scan pmax masked rgba coords st).2
          (seen ++ seenFrom masked rgba coords st.color)) ∧
      ((generatePalette_scan pmax masked rgba coords st).1 = false →
        pmax < distinctCount (seen ++ seenFrom masked rgba coords st.color)) := by
  intro coords
  induction coords with
  | nil =>
    intro st seen h
    simp [generatePalette_scan, seenFrom, h]
  | cons p rest ih =>
    intro st seen h
    unfold generatePalette_scan
    by_cases hm : IsMasked masked p.1 p.2 = true
    · have := ih { st with color := st.color + 1 } seen ⟨h.nodup, h.mem, h.order, h.size, h.map,
        h.bound⟩
      simpa [hm, seenFrom] using this
    · cases hc : st.map (rgba st.color) with
      | none =>
        by_cases hfull : pmax ≤ st.palette_size
        · simp only [hm, hc, hfull, if_true, seenFrom]
          refine ⟨fun hf => by simp at hf, fun _ => ?_⟩
          have hcp : rgba st.color ∉ st.palette := by
            intro hmem
            obtain ⟨n, hn⟩ := List.mem_iff_getElem?.1 hmem
            rw [(h.map _ n).2 hn] at hc
            exact Option.noConfusion hc
          have hnd : (st.palette ++ [rgba st.color]).Nodup :=
            List.nodup_append.2 ⟨h.nodup, List.nodup_singleton _,
              fun a ha hb => hcp (by rw [← List.mem_singleton.1 hb]; exact ha)⟩
          have hle := length_le_distinctCount (st.palette ++ [rgba st.color])
            (seen ++ ((if False then [] else [rgba st.color]) ++
              seenFrom masked rgba rest (st.color + 1))) hnd (by
              intro a ha
              rcases List.mem_append.1 ha with ha | ha
              · exact List.mem_append_left _ ((h.mem a).1 ha)
              · simp only [if_false]
                rw [List.mem_singleton.1 ha]
                simp)
          rw [List.length_append, List.length_singleton, ← h.size] at hle
          simp only [if_false] at hle
          simp only [Bool.false_eq_true, if_false]
          omega
        · have hroom : st.palette_size < pmax := by omega
          have := ih _ (seen ++ [rgba st.color]) (h.miss (rgba st.color) hc hroom
            (fun k => if k = st.palette_size then (st.hist k + 1) % 4294967296 else st.hist k)
            (st.color + 1))
          simpa [hm, hc, hfull, seenFrom] using this
      | some idx =>
        have := ih _ (seen ++ [rgba st.color]) (h.hit (rgba st.color) idx hc
          (fun k => if k = idx then (st.hist k + 1) % 4294967296 else st.hist k) (st.color + 1))
        simpa [hm, hc, seenFrom] using this

/-- The invariant holds when a fresh writer enters the pixel loops. -/
theorem scanInv_fresh (pmax : Nat) :
    ScanInv pmax (ScanState.start Writer.fresh) [] := by
  refine ⟨List.nodup_nil, fun c => Iff.rfl, List.Pairwise.nil, rfl, ?_, Nat.zero_le _⟩
  intro c i
  simp [ScanState.start, Writer.fresh]

/-- What the pixel loops of `generatePalette` do on a fresh writer, in terms
of the unmasked colours of the image. -/
theorem generatePalette_scan_fresh (pmax : Nat) (masked : Nat → Nat → Bool) (rgba : Mem)
    (xsize ysize : Nat) :
    ((generatePalette_scan pmax masked rgba (rasterCoords xsize ysize)
        (ScanState.start Writer.fresh)).1 = true →
      ScanInv pmax (generatePalette_scan pmax masked rgba (rasterCoords xsize ysize)
        (ScanState.start Writer.fresh)).2 (unmaskedColors masked rgba xsize ysize)) ∧
    ((generatePalette_scan pmax masked rgba (rasterCoords xsize ysize)
        (ScanState.start Writer.fresh)).1 = false →
      pmax < distinctCount (unmaskedColors masked rgba xsize ysize)) := by
  have h := generatePalette_scan_spec pmax masked rgba (rasterCoords xsize ysize) _ []
    (scanInv_fresh pmax)
  have hc : (ScanState.start Writer.fresh).color = 0 := rfl
  rw [hc, seenFrom_raster, List.nil_append] at h
  exact h

/-- A successful `generatePalette` on a fresh writer stores the scan's map,
palette and size, and the invariant holds for them. -/
theorem generatePalette_true (pmax : Nat) (masked : Nat → Nat → Bool) (rgba : Mem)
    (xsize ysize : Nat)
    (h : (generatePalette pmax masked rgba xsize ysize Writer.fresh).1 = true) :
    ScanInv pmax
      { map := (generatePalette pmax masked rgba xsize ysize Writer.fresh).2.map
        palette := (generatePalette pmax masked rgba xsize ysize Writer.fresh).2.palette
        palette_size := (generatePalette pmax masked rgba xsize ysize Writer.fresh).2.palette_size
        hist := fun _ => 0, color := 0 } (unmaskedColors masked rgba xsize ysize) ∧
    0 < (generatePalette pmax masked rgba xsize ysize Writer.fresh).2.palette_size := by
  have hs := generatePalette_scan_fresh pmax masked rgba xsize ysize
  unfold generatePalette at h ⊢
  cases hflag : (generatePalette_scan pmax masked rgba (rasterCoords xsize ysize)
      (ScanState.start Writer.fresh)).1 with
  | false => simp [hflag] at h
  | true =>
    have hinv := hs.1 hflag
    by_cases hz : (generatePalette_scan pmax masked rgba (rasterCoords xsize ysize)
      (ScanState.start Writer.fresh)).2.palette_size ≤ 0
    · simp [hflag, hz] at h
    · simp only [hflag, hz, if_false, Bool.true_eq_false]
      exact ⟨⟨hinv.nodup, hinv.mem, hinv.order, hinv.size, hinv.map, hinv.bound⟩, by omega⟩

/-- C9: whenever `generatePalette` returns true (on a fresh writer), `_palette`
holds no colour twice, its length is `_palette_size`, which is the number of
distinct colours among the unmasked pixels and lies in `[1, 256]`; the palette
holds exactly the unmasked colours, in the order of their first occurrence in
the raster scan, and `_map` sends a colour to `i` exactly when it is entry `i`
of `_palette`. -/
theorem generatePalette_palette_spec (masked : Nat → Nat → Bool) (rgba : Mem)
    (xsize ysize : Nat)
    (h : (generatePalette PALETTE_MAX masked rgba xsize ysize Writer.fresh).1 = true) :
    (generatePalette PALETTE_MAX masked rgba xsize ysize Writer.fresh).2.palette.Nodup ∧
    (generatePalette PALETTE_MAX masked rgba xsize ysize Writer.fresh).2.palette.length =
      (generatePalette PALETTE_MAX masked rgba xsize ysize Writer.fresh).2.palette_size ∧
    (generatePalette PALETTE_MAX masked rgba xsize ysize Writer.fresh).2.palette_size =
      distinctCount (unmaskedColors masked rgba xsize ysize) ∧
    1 ≤ (generatePalette PALETTE_MAX masked rgba xsize ysize Writer.fresh).2.palette_size ∧
    (generatePalette PALETTE_MAX masked rgba xsize ysize Writer.fresh).2.palette_size ≤ 256 ∧
    (∀ c, c ∈ (generatePalette PALETTE_MAX masked rgba xsize ysize Writer.fresh).2.palette ↔
      c ∈ unmaskedColors masked rgba xsize ysize) ∧
    (generatePalette PALETTE_MAX masked rgba xsize ysize Writer.fresh).2.palette.Pairwise
      (fun a b => (unmaskedColors masked rgba xsize ysize).indexOf a <
        (unmaskedColors masked rgba xsize ysize).indexOf b) ∧
    (∀ c i, (generatePalette PALETTE_MAX masked rgba xsize ysize Writer.fresh).2.map c = some i ↔
      (generatePalette PALETTE_MAX masked rgba xsize ysize Writer.fresh).2.palette[i]? =
        some c) := by
  obtain ⟨hinv, hpos⟩ := generatePalette_true PALETTE_MAX masked rgba xsize ysize h
  have hlen := length_eq_distinctCount _ _ hinv.nodup hinv.mem
  have hsize := hinv.size
  have hbound := hinv.bound
  simp only [PALETTE_MAX] at hbound
  simp only at hsize hlen hbound
  refine ⟨hinv.nodup, hsize.symm, by rw [hsize]; exact hlen, hpos, by rw [hsize]; exact hbound,
    hinv.mem, hinv.order, hinv.map⟩

/-- C9, witness: the 2x2 checkerboard without mask. -/
theorem generatePalette_palette_spec_witness :
    (generatePalette PALETTE_MAX (fun _ _ => false) checkerboard 2 2 Writer.fresh).1 = true ∧
    ((generatePalette PALETTE_MAX (fun _ _ => false) checkerboard 2 2
        Writer.fresh).2.palette.Nodup ∧
    (generatePalette PALETTE_MAX (fun _ _ => false) checkerboard 2 2
        Writer.fresh).2.palette.length =
      (generatePalette PALETTE_MAX (fun _ _ => false) checkerboard 2 2
        Writer.fresh).2.palette_size ∧
    (generatePalette PALETTE_MAX (fun _ _ => false) checkerboard 2 2
        Writer.fresh).2.palette_size =
      distinctCount (unmaskedColors (fun _ _ => false) checkerboard 2 2) ∧
    1 ≤ (generatePalette PALETTE_MAX (fun _ _ => false) checkerboard 2 2
        Writer.fresh).2.palette_size ∧
    (generatePalette PALETTE_MAX (fun _ _ => false) checkerboard 2 2
        Writer.fresh).2.palette_size ≤ 256 ∧
    (∀ c, c ∈ (generatePalette PALETTE_MAX (fun _ _ => false) checkerboard 2 2
        Writer.fresh).2.palette ↔ c ∈ unmaskedColors (fun _ _ => false) checkerboard 2 2) ∧
    (generatePalette PALETTE_MAX (fun _ _ => false) checkerboard 2 2
        Writer.fresh).2.palette.Pairwise
      (fun a b => (unmaskedColors (fun _ _ => false) checkerboard 2 2).indexOf a <
        (unmaskedColors (fun _ _ => false) checkerboard 2 2).indexOf b) ∧
    (∀ c i, (generatePalette PALETTE_MAX (fun _ _ => false) checkerboard 2 2
        Writer.fresh).2.map c = some i ↔
      (generatePalette PALETTE_MAX (fun _ _ => false) checkerboard 2 2
        Writer.fresh).2.palette[i]? = some c)) :=
  ⟨by decide, generatePalette_palette_spec (fun _ _ => false) checkerboard 2 2 (by decide)⟩

/-- On a fresh writer `generatePalette` returns true exactly when the number
of distinct unmasked colours is between one and `PALETTE_MAX`. -/
theorem generatePalette_flag (pmax : Nat) (masked : Nat → Nat → Bool) (rgba : Mem)
    (xsize ysize : Nat) :
    (generatePalette pmax masked rgba xsize ysize Writer.fresh).1 = true ↔
      1 ≤ distinctCount (unmaskedColors masked rgba xsize ysize) ∧
      distinctCount (unmaskedColors masked rgba xsize ysize) ≤ pmax := by
  constructor
  · intro h
    obtain ⟨hinv, hpos⟩ := generatePalette_true pmax masked rgba xsize ysize h
    have hlen := length_eq_distinctCount _ _ hinv.nodup hinv.mem
    have hsize := hinv.size
    have hbound := hinv.bound
    simp only at hsize hlen hbound
    omega
  · intro ⟨h1, h2⟩
    have hs := generatePalette_scan_fresh pmax masked rgba xsize ysize
    unfold generatePalette
    cases hflag : (generatePalette_scan pmax masked rgba (rasterCoords xsize ysize)
        (ScanState.start Writer.fresh)).1 with
    | false =>
      have := hs.2 hflag
      omega
    | true =>
      have hinv := hs.1 hflag
      have hlen := length_eq_distinctCount _ _ hinv.nodup hinv.mem
      have hsize := hinv.size
      have hz : ¬ (generatePalette_scan pmax masked rgba (rasterCoords xsize ysize)
          (ScanState.start Writer.fresh)).2.palette_size ≤ 0 := by omega
      simp [hz, hflag]

/-- A failing `generatePalette` leaves `_palette_size` as it was. -/
theorem generatePalette_false_size (pmax : Nat) (masked : Nat → Nat → Bool) (rgba : Mem)
    (xsize ysize : Nat) (w : Writer)
    (h : (generatePalette pmax masked rgba xsize ysize w).1 = false) :
    (generatePalette pmax masked rgba xsize ysize w).2.palette_size = w.palette_size := by
  unfold generatePalette at h ⊢
  by_cases h1 : (generatePalette_scan pmax masked rgba (rasterCoords xsize ysize)
      (ScanState.start w)).1 = false
  · simp [h1]
  · by_cases h2 : (generatePalette_scan pmax masked rgba (rasterCoords xsize ysize)
        (ScanState.start w)).2.palette_size ≤ 0
    · simp [h1, h2]
    · simp [h1, h2] at h

/-- C8: when the unmasked pixels hold more than 256 distinct colours,
`generatePalette` returns false, `init` leaves `_palette_size` at `0` and
`write` emits the single palette bit `0`; when they hold between 1 and 256
distinct colours `generatePalette` returns true. -/
theorem palette_fails_iff_too_many_colours (env : Env) (rgba : Mem) (xsize ysize : Nat) :
    (256 < distinctCount (unmaskedColors env.masked rgba xsize ysize) →
      (generatePalette PALETTE_MAX env.masked rgba xsize ysize Writer.fresh).1 = false ∧
      (init env rgba xsize ysize Writer.fresh).palette_size = 0 ∧
      write env xsize ysize (init env rgba xsize ysize Writer.fresh) = [PCall.writeBit 0]) ∧
    (1 ≤ distinctCount (unmaskedColors env.masked rgba xsize ysize) →
      distinctCount (unmaskedColors env.masked rgba xsize ysize) ≤ 256 →
      (generatePalette PALETTE_MAX env.masked rgba xsize ysize Writer.fresh).1 = true) := by
  constructor
  · intro hmany
    have hflag : (generatePalette PALETTE_MAX env.masked rgba xsize ysize Writer.fresh).1
        = false := by
      cases hf : (generatePalette PALETTE_MAX env.masked rgba xsize ysize Writer.fresh).1 with
      | false => rfl
      | true =>
        have := ((generatePalette_flag PALETTE_MAX env.masked rgba xsize ysize).1 hf).2
        simp only [PALETTE_MAX] at this
        omega
    have hsize : (init env rgba xsize ysize Writer.fresh).palette_size = 0 := by
      have hw : ({ Writer.fresh with palette_size := 0 } : Writer) = Writer.fresh := rfl
      unfold init
      simp only [hw, hflag, Bool.false_eq_true, if_false]
      exact generatePalette_false_size PALETTE_MAX env.masked rgba xsize ysize Writer.fresh hflag
    refine ⟨hflag, hsize, ?_⟩
    simp [write, enabled, hsize]
  · intro h1 h2
    exact (generatePalette_flag PALETTE_MAX env.masked rgba xsize ysize).2 ⟨h1, h2⟩

set_option maxRecDepth 20000 in
/-- The unmasked colours of the ramp image are `0, 1, ..., 256`. -/
theorem ramp_unmaskedColors :
    unmaskedColors sampleEnv.masked ramp 257 1 = List.range 257 := by
  decide

/-- The 257 pixels of the ramp image hold 257 distinct colours. -/
theorem ramp_distinctCount : distinctCount (unmaskedColors sampleEnv.masked ramp 257 1) = 257 := by
  rw [ramp_unmaskedColors, distinctCount, List.Nodup.dedup (List.nodup_range 257),
    List.length_range]

/-- C8, witness: the ramp image has 257 colours, the checkerboard two. -/
theorem palette_fails_iff_too_many_colours_witness :
    (256 < distinctCount (unmaskedColors sampleEnv.masked ramp 257 1) ∧
      ((generatePalette PALETTE_MAX sampleEnv.masked ramp 257 1 Writer.fresh).1 = false ∧
        (init sampleEnv ramp 257 1 Writer.fresh).palette_size = 0 ∧
        write sampleEnv 257 1 (init sampleEnv ramp 257 1 Writer.fresh) = [PCall.writeBit 0])) ∧
    (1 ≤ distinctCount (unmaskedColors sampleEnv.masked checkerboard 2 2) ∧
      distinctCount (unmaskedColors sampleEnv.masked checkerboard 2 2) ≤ 256 ∧
      (generatePalette PALETTE_MAX sampleEnv.masked checkerboard 2 2 Writer.fresh).1 = true) :=
  ⟨⟨by rw [ramp_distinctCount]; decide,
      (palette_fails_iff_too_many_colours sampleEnv ramp 257 1).1
        (by rw [ramp_distinctCount]; decide)⟩,
    by decide, by decide,
    (palette_fails_iff_too_many_colours sampleEnv checkerboard 2 2).2 (by decide) (by decide)⟩

/-- The loop that fills `better_palette` puts entry `j` of the palette at
position `forward(j)` when `forward` is injective below the palette size. -/
theorem better_palette_at (forward : Nat → Nat) (pal : List Nat) (b0 : Mem) :
    ∀ n, (∀ i, i < n → ∀ j, j < n → forward i = forward j → i = j) →
      ∀ j, j < n →
        ((List.range n).foldl (fun m ii => m.set (forward ii) (pal.getD ii 0)) b0) (forward j)
          = pal.getD j 0 := by
  intro n
  induction n with
  | zero => intro _ j hj; omega
  | succ n ih =>
    intro hinj j hj
    rw [List.range_succ, List.foldl_append]
    simp only [List.foldl_cons, List.foldl_nil, Mem.set]
    by_cases hjn : j = n
    · subst hjn; simp
    · have hne : forward j ≠ forward n := fun he => hjn (hinj j hj n (by omega) he)
      simp only [hne, if_false]
      exact ih (fun i hi k hk he => hinj i (by omega) k (by omega) he) j (by omega)

/-- C7: when `generatePalette` succeeds (on a fresh writer), after
`generateImage` every unmasked pixel `p` satisfies `_palette[_image[p]] == rgba[p]`,
and this still holds after `optimizeImage` provided `forward` maps
`[0, palette_size)` injectively into itself and the optimized image is
`forward` applied to every index. -/
theorem palette_round_trip (masked : Nat → Nat → Bool) (maskEnabled : Bool) (maskColor : Nat)
    (rgba : Mem) (xsize ysize : Nat) (opt : Optimized) (better0 : Mem)
    (hgen : (generatePalette PALETTE_MAX masked rgba xsize ysize Writer.fresh).1 = true)
    (hrange : ∀ i, i < (generatePalette PALETTE_MAX masked rgba xsize ysize
        Writer.fresh).2.palette_size →
      opt.forward i < (generatePalette PALETTE_MAX masked rgba xsize ysize
        Writer.fresh).2.palette_size)
    (hinj : ∀ i, i < (generatePalette PALETTE_MAX masked rgba xsize ysize
        Writer.fresh).2.palette_size →
      ∀ j, j < (generatePalette PALETTE_MAX masked rgba xsize ysize
        Writer.fresh).2.palette_size → opt.forward i = opt.forward j → i = j)
    (himg : ∀ k, k < xsize * ysize →
      opt.image k = opt.forward ((generateImage masked maskEnabled maskColor rgba xsize ysize
        (generatePalette PALETTE_MAX masked rgba xsize ysize Writer.fresh).2).image.getD k 0))
    (x y : Nat) (hx : x < xsize) (hy : y < ysize) (hm : IsMasked masked x y = false) :
    (∃ k, (generateImage masked maskEnabled maskColor rgba xsize ysize
          (generatePalette PALETTE_MAX masked rgba xsize ysize Writer.fresh).2).image[
            y * xsize + x]? = some k ∧
        (generateImage masked maskEnabled maskColor rgba xsize ysize
          (generatePalette PALETTE_MAX masked rgba xsize ysize Writer.fresh).2).palette[k]? =
            some (rgba (y * xsize + x))) ∧
    (∃ k, (optimizeImage opt better0 xsize ysize
          (generateImage masked maskEnabled maskColor rgba xsize ysize
            (generatePalette PALETTE_MAX masked rgba xsize ysize Writer.fresh).2)).image[
              y * xsize + x]? = some k ∧
        (optimizeImage opt better0 xsize ysize
          (generateImage masked maskEnabled maskColor rgba xsize ysize
            (generatePalette PALETTE_MAX masked rgba xsize ysize Writer.fresh).2)).palette[k]? =
              some (rgba (y * xsize + x))) := by
  obtain ⟨hinv, _⟩ := generatePalette_true PALETTE_MAX masked rgba xsize ysize hgen
  have hcoord := rasterCoords_getElem? xsize ysize x y hx hy
  -- the pixel's colour is in the palette, at the index `_map` gives
  have hcol : rgba (y * xsize + x) ∈ unmaskedColors masked rgba xsize ysize := by
    unfold unmaskedColors
    exact List.mem_filterMap.2 ⟨(x, y), List.getElem?_mem hcoord, by simp [hm]⟩
  obtain ⟨j, hj⟩ := List.mem_iff_getElem?.1 ((hinv.mem _).2 hcol)
  have hmap := (hinv.map _ j).2 hj
  have hsize := hinv.size
  have hbound := hinv.bound
  simp only at hj hmap hsize hbound
  have hjlt : j < (generatePalette PALETTE_MAX masked rgba xsize ysize
      Writer.fresh).2.palette.length := by
    rcases List.getElem?_eq_some.1 hj with ⟨hh, _⟩
    exact hh
  have hj256 : j < 256 := by
    have hmax : PALETTE_MAX = 256 := rfl
    omega
  have hmask : masked (x % 65536) (y % 65536) = false := hm
  -- the index image after `generateImage`
  have himage : (generateImage masked maskEnabled maskColor rgba xsize ysize
      (generatePalette PALETTE_MAX masked rgba xsize ysize Writer.fresh).2).image[
        y * xsize + x]? = some j := by
    simp only [generateImage, List.getElem?_map, hcoord, Option.map_some', hmask,
      Bool.false_eq_true, if_false, mapAt, hmap, Option.getD_some, Nat.mod_eq_of_lt hj256]
  refine ⟨⟨j, himage, hj⟩, ⟨opt.forward j, ?_, ?_⟩⟩
  · have hidx : y * xsize + x < xsize * ysize := by
      have h1 : (y + 1) * xsize ≤ ysize * xsize := Nat.mul_le_mul_right _ hy
      have h2 : (y + 1) * xsize = y * xsize + xsize := by ring
      have h3 : ysize * xsize = xsize * ysize := Nat.mul_comm _ _
      omega
    have hget : (generateImage masked maskEnabled maskColor rgba xsize ysize
        (generatePalette PALETTE_MAX masked rgba xsize ysize Writer.fresh).2).image.getD
          (y * xsize + x) 0 = j := by
      rw [List.getD_eq_getElem?_getD, himage]; rfl
    have := himg _ hidx
    rw [hget] at this
    simp only [optimizeImage, List.getElem?_map, List.getElem?_range hidx, Option.map_some', this]
  · have hfj : opt.forward j < (generatePalette PALETTE_MAX masked rgba xsize ysize
        Writer.fresh).2.palette_size := hrange j (by omega)
    have hval := better_palette_at opt.forward
      (generatePalette PALETTE_MAX masked rgba xsize ysize Writer.fresh).2.palette better0
      (generatePalette PALETTE_MAX masked rgba xsize ysize Writer.fresh).2.palette_size hinj j
      (by omega)
    have hpj : (generatePalette PALETTE_MAX masked rgba xsize ysize
        Writer.fresh).2.palette.getD j 0 = rgba (y * xsize + x) := by
      rw [List.getD_eq_getElem?_getD, hj]; rfl
    simp only [optimizeImage, generateImage]
    rw [List.getElem?_append_left (by simpa using hfj), List.getElem?_map,
      List.getElem?_range hfj, Option.map_some', hval, hpj]

/-- C7, witness: the 2x2 checkerboard, an optimizer that swaps the two
indices, the pixel `(1, 0)`. -/
theorem palette_round_trip_witness :
    (generatePalette PALETTE_MAX (fun _ _ => false) checkerboard 2 2 Writer.fresh).1 = true ∧
    (∃ k, (generateImage (fun _ _ => false) false 0 checkerboard 2 2
          (generatePalette PALETTE_MAX (fun _ _ => false) checkerboard 2 2 Writer.fresh).2).image[
            0 * 2 + 1]? = some k ∧
        (generateImage (fun _ _ => false) false 0 checkerboard 2 2
          (generatePalette PALETTE_MAX (fun _ _ => false) checkerboard 2 2
            Writer.fresh).2).palette[k]? = some (checkerboard (0 * 2 + 1))) ∧
    (∃ k, (optimizeImage ⟨fun i => 1 - i, fun k => 1 - [0, 1, 1, 0].getD k 0⟩ (fun _ => 0) 2 2
          (generateImage (fun _ _ => false) false 0 checkerboard 2 2
            (generatePalette PALETTE_MAX (fun _ _ => false) checkerboard 2 2
              Writer.fresh).2)).image[0 * 2 + 1]? = some k ∧
        (optimizeImage ⟨fun i => 1 - i, fun k => 1 - [0, 1, 1, 0].getD k 0⟩ (fun _ => 0) 2 2
          (generateImage (fun _ _ => false) false 0 checkerboard 2 2
            (generatePalette PALETTE_MAX (fun _ _ => false) checkerboard 2 2
              Writer.fresh).2)).palette[k]? = some (checkerboard (0 * 2 + 1))) :=
  ⟨by decide,
    palette_round_trip (fun _ _ => false) false 0 checkerboard 2 2
      ⟨fun i => 1 - i, fun k => 1 - [0, 1, 1, 0].getD k 0⟩ (fun _ => 0) (by decide) (by decide)
      (by decide) (by decide) 1 0 (by decide) (by decide) rfl⟩

end GCIF.ImagePaletteWriter

namespace GCIF.ImageReader

/-- With enough bits buffered `peek` returns the high 32 bits and changes
nothing. -/
theorem peek_buffered {R : Type} (refill : Refill R) (minBits : Int) (s : Reader R)
    (h : minBits ≤ s.bitsLeft) :
    peek refill minBits s = ((s.bits >>> 32) % 4294967296, s) := by
  unfold peek
  rw [if_neg (by omega)]

/-- The high `n` bits of a 64-bit value, taken in two shifts as `readBits`
does. -/
theorem high_bits (b n : Nat) (hb : b < 18446744073709551616) (hn : n ≤ 32) :
    ((b >>> 32) % 4294967296) >>> (32 - n) = b / 2 ^ (64 - n) := by
  have h1 : b >>> 32 < 4294967296 := by
    rw [Nat.shiftRight_eq_div_pow]
    omega
  rw [Nat.mod_eq_of_lt h1, Nat.shiftRight_eq_div_pow, Nat.shiftRight_eq_div_pow,
    Nat.div_div_eq_div_mul, ← pow_add]
  congr 2
  omega

/-- C11: for `1 ≤ n ≤ 31` and a reader that buffers at least `n` bits,
`readBits(n)` returns the `n` most significant bits of the 64-bit accumulator
right-justified, a value below `2^n`; the accumulator becomes the old one
shifted left by `n` bits modulo `2^64`, `_bitsLeft` drops by `n`, and the rest
of the reader, which only `refill()` touches, is unchanged whatever `refill`
is. -/
theorem readBits_buffered {R : Type} (refill : Refill R) (n : Nat) (s : Reader R)
    (hn1 : 1 ≤ n) (hn31 : n ≤ 31) (hbits : s.bits < 2 ^ 64) (hleft : (n : Int) ≤ s.bitsLeft) :
    readBits refill n s =
      (s.bits / 2 ^ (64 - n),
        { bits := (s.bits * 2 ^ n) % 2 ^ 64, bitsLeft := s.bitsLeft - n, rest := s.rest }) ∧
    s.bits / 2 ^ (64 - n) < 2 ^ n := by
  constructor
  · unfold readBits
    rw [peek_buffered refill n s hleft]
    simp only [eat, high_bits s.bits n hbits (by omega), Nat.shiftLeft_eq]
    norm_num
  · rw [Nat.div_lt_iff_lt_mul (by positivity)]
    calc s.bits < 2 ^ 64 := hbits
      _ = 2 ^ n * 2 ^ (64 - n) := by rw [← pow_add]; congr 1; omega

/-- C11, witness: three bits read from an accumulator whose top bits are `101`. -/
theorem readBits_buffered_witness :
    (1 ≤ 3 ∧ 3 ≤ 31 ∧ (⟨0xA000000000000000, 8, ()⟩ : Reader Unit).bits < 2 ^ 64 ∧
      ((3 : Nat) : Int) ≤ (⟨0xA000000000000000, 8, ()⟩ : Reader Unit).bitsLeft) ∧
    (readBits refillNone 3 ⟨0xA000000000000000, 8, ()⟩ =
      ((⟨0xA000000000000000, 8, ()⟩ : Reader Unit).bits / 2 ^ (64 - 3),
        { bits := ((⟨0xA000000000000000, 8, ()⟩ : Reader Unit).bits * 2 ^ 3) % 2 ^ 64,
          bitsLeft := (⟨0xA000000000000000, 8, ()⟩ : Reader Unit).bitsLeft - (3 : Nat),
          rest := (⟨0xA000000000000000, 8, ()⟩ : Reader Unit).rest }) ∧
      (⟨0xA000000000000000, 8, ()⟩ : Reader Unit).bits / 2 ^ (64 - 3) < 2 ^ 3) :=
  ⟨⟨by decide, by decide, by decide, by decide⟩,
    readBits_buffered refillNone 3 ⟨0xA000000000000000, 8, ()⟩ (by decide) (by decide)
      (by decide) (by decide)⟩

/-- C12 (as amended): for a reader that buffers at least 32 bits, `readWord`
returns the 32 most significant bits of the accumulator without refilling and
then empties the accumulator (`_bits = 0`, `_bitsLeft = 0`), so that bits
buffered beyond the word are dropped; a following `readBits(n)` with `n ≥ 1`
starts with `refill()` on the emptied reader. -/
theorem readWord_buffered {R : Type} (refill : Refill R) (s : Reader R)
    (h32 : 32 ≤ s.bitsLeft) (hbits : s.bits < 2 ^ 64) :
    readWord refill s = (s.bits / 2 ^ 32, s.emptied) ∧
    s.bits / 2 ^ 32 < 2 ^ 32 ∧
    ∀ n, 1 ≤ n →
      readBits refill n (readWord refill s).2 =
        ((refill s.emptied).1 >>> (32 - n),
          eat n (refill s.emptied).2) := by
  have hval : (s.bits >>> 32) % 4294967296 = s.bits / 2 ^ 32 := by
    rw [Nat.shiftRight_eq_div_pow]
    exact Nat.mod_eq_of_lt (by omega)
  have hw : readWord refill s = (s.bits / 2 ^ 32, s.emptied) := by
    unfold readWord
    rw [peek_buffered refill 32 s h32, hval]
    rfl
  refine ⟨hw, by omega, ?_⟩
  intro n hn
  rw [hw]
  unfold readBits peek
  have hlt : s.emptied.bitsLeft < (n : Int) := by
    show (0 : Int) < (n : Int)
    omega
  simp [hlt]

/-- C12, witness: a reader that buffers 33 bits. -/
theorem readWord_buffered_witness :
    ((32 : Int) ≤ (⟨2 ^ 31, 33, ()⟩ : Reader Unit).bitsLeft ∧
      (⟨2 ^ 31, 33, ()⟩ : Reader Unit).bits < 2 ^ 64) ∧
    (readWord refillNone ⟨2 ^ 31, 33, ()⟩ =
        ((⟨2 ^ 31, 33, ()⟩ : Reader Unit).bits / 2 ^ 32,
          (⟨2 ^ 31, 33, ()⟩ : Reader Unit).emptied) ∧
      (⟨2 ^ 31, 33, ()⟩ : Reader Unit).bits / 2 ^ 32 < 2 ^ 32 ∧
      ∀ n, 1 ≤ n →
        readBits refillNone n (readWord refillNone ⟨2 ^ 31, 33, ()⟩).2 =
          ((refillNone (⟨2 ^ 31, 33, ()⟩ : Reader Unit).emptied).1 >>> (32 - n),
            eat n (refillNone (⟨2 ^ 31, 33, ()⟩ : Reader Unit).emptied).2)) :=
  ⟨⟨by decide, by decide⟩, readWord_buffered refillNone ⟨2 ^ 31, 33, ()⟩ (by decide) (by decide)⟩

/-- Two readers buffer 33 bits each, the word `0` followed by the bit `1` in
one and by the bit `0` in the other. Whatever `refill()` does, `readWord`
leaves both in the same state, so the following `readBits(1)` cannot return `1`
for the first and `0` for the second. -/
theorem readWord_forgets_tail (refill : Refill Unit) :
    (readWord refill ⟨2 ^ 31, 33, ()⟩).2 = (readWord refill ⟨0, 33, ()⟩).2 ∧
    ¬ ((readBits refill 1 (readWord refill ⟨2 ^ 31, 33, ()⟩).2).1 = 1 ∧
       (readBits refill 1 (readWord refill ⟨0, 33, ()⟩).2).1 = 0) := by
  have h1 : (readWord refill ⟨2 ^ 31, 33, ()⟩).2 = (readWord refill ⟨0, 33, ()⟩).2 := by
    simp [readWord, peek]
  refine ⟨h1, ?_⟩
  intro h
  rw [h1] at h
  omega

/-- C12, counterexample: the reader buffers 33 bits, the word `0` followed by
the bit `1`, and the word stream is exhausted. `readWord` returns the word `0`
and leaves the same state as for the reader whose 33rd bit is `0`; the
following `readBits(1)` returns `0`, not the bit `1` that followed the word in
the accumulator. -/
theorem readWord_drops_buffered_bits :
    (readWord refillNone ⟨2 ^ 31, 33, ()⟩).1 = 0 ∧
    (readWord refillNone ⟨2 ^ 31, 33, ()⟩).2 = (readWord refillNone ⟨0, 33, ()⟩).2 ∧
    (readBits refillNone 1 (readWord refillNone ⟨2 ^ 31, 33, ()⟩).2).1 = 0 ∧
    ¬ ((readBits refillNone 1 (readWord refillNone ⟨2 ^ 31, 33, ()⟩).2).1 = 1 ∧
       (readBits refillNone 1 (readWord refillNone ⟨0, 33, ()⟩).2).1 = 0) :=
  ⟨by decide, (readWord_forgets_tail refillNone).1, by decide,
    (readWord_forgets_tail refillNone).2⟩

end GCIF.ImageReader

namespace GCIF.ImagePaletteWriter

/-- After `init` on a fresh writer `_palette_size` is the size `generatePalette`
stored when it succeeded, and `0` when it failed. -/
theorem init_palette_size (env : Env) (rgba : Mem) (xsize ysize : Nat) :
    (init env rgba xsize ysize Writer.fresh).palette_size =
      if (generatePalette PALETTE_MAX env.masked rgba xsize ysize Writer.fresh).1 = true then
        (generatePalette PALETTE_MAX env.masked rgba xsize ysize Writer.fresh).2.palette_size
      else 0 := by
  have hw : ({ Writer.fresh with palette_size := 0 } : Writer) = Writer.fresh := rfl
  unfold init
  simp only [hw]
  cases hf : (generatePalette PALETTE_MAX env.masked rgba xsize ysize Writer.fresh).1 with
  | false =>
    simp only [Bool.false_eq_true, if_false]
    exact generatePalette_false_size PALETTE_MAX env.masked rgba xsize ysize Writer.fresh hf
  | true => simp [optimizeImage, generateImage]

/-- After `init` on a fresh writer an enabled palette has between 1 and 256
entries. -/
theorem init_enabled_size (env : Env) (rgba : Mem) (xsize ysize : Nat)
    (h : enabled (init env rgba xsize ysize Writer.fresh) = true) :
    (generatePalette PALETTE_MAX env.masked rgba xsize ysize Writer.fresh).1 = true ∧
    1 ≤ (init env rgba xsize ysize Writer.fresh).palette_size ∧
    (init env rgba xsize ysize Writer.fresh).palette_size ≤ 256 := by
  have hs := init_palette_size env rgba xsize ysize
  have hpos : 0 < (init env rgba xsize ysize Writer.fresh).palette_size := by
    simpa [enabled] using h
  cases hf : (generatePalette PALETTE_MAX env.masked rgba xsize ysize Writer.fresh).1 with
  | false =>
    rw [hf] at hs
    simp at hs
    omega
  | true =>
    rw [hf] at hs
    simp only [if_true] at hs
    obtain ⟨hinv, _⟩ := generatePalette_true PALETTE_MAX env.masked rgba xsize ysize hf
    have hsize := hinv.size
    have hbound := hinv.bound
    have hmax : PALETTE_MAX = 256 := rfl
    simp only at hsize hbound
    refine ⟨rfl, hpos, ?_⟩
    omega

theorem filter_emits_encAdd (l : List Nat) : (l.map PCall.encAdd).filter PCall.emits = [] := by
  induction l with
  | nil => rfl
  | cons a l ih => simp [List.filter_cons, PCall.emits, ih]

theorem filter_emits_encWrite (l : List Nat) :
    (l.map PCall.encWrite).filter PCall.emits = l.map PCall.encWrite := by
  induction l with
  | nil => rfl
  | cons a l ih => simp [List.filter_cons, PCall.emits, ih]

theorem filter_emits_writeWord (l : List Nat) :
    (l.map PCall.writeWord).filter PCall.emits = l.map PCall.writeWord := by
  induction l with
  | nil => rfl
  | cons a l ih => simp [List.filter_cons, PCall.emits, ih]

/-- C15: `write` emits exactly one `0` bit when the palette is disabled. When
it is enabled (after `init` on a fresh writer) the bits it emits are: the bit
`1`; `palette_size - 1` in 8 bits, a value in `[0, 255]`; `_masked_palette` in
8 bits; then, for `palette_size < pal_huffThresh`, the bit `0` and the
`palette_size` colour words in palette order, and otherwise the bit `1`, the
best colour filter through `write17`, the encoder tables and the four symbols
`(Y, U, V, 255 - alpha)` of each palette entry; the mono tables; and the
pixels. -/
theorem write_layout (env : Env) (rgba : Mem) (xsize ysize : Nat) (w : Writer)
    (hw : w = init env rgba xsize ysize Writer.fresh) :
    (enabled w = false → write env xsize ysize w = [PCall.writeBit 0]) ∧
    (enabled w = true →
      1 ≤ w.palette_size ∧ w.palette_size - 1 ≤ 255 ∧
      (∀ cf entry, (yuva env cf entry).length = 4) ∧
      (write env xsize ysize w).filter PCall.emits =
        [PCall.writeBit 1, PCall.writeBits (w.palette_size - 1) 8,
          PCall.writeBits w.masked_palette 8] ++
        (if (w.palette_size : Int) < env.pal_huffThresh then
          PCall.writeBit 0 :: (List.range w.palette_size).map
            (fun ii => PCall.writeWord (env.getLE (w.palette.getD ii 0)))
        else
          [PCall.writeBit 1, PCall.write17 (writeTable_bestCF env w).1, PCall.encWriteTables] ++
            (((List.range w.palette_size).map
              (fun ii => yuva env (writeTable_bestCF env w).1 (w.palette.getD ii 0))).flatten).map
                PCall.encWrite) ++
        [PCall.monoWriteTables] ++ (writePixels env xsize ysize).filter PCall.emits) := by
  constructor
  · intro h
    simp [write, h]
  · intro h
    have hsz := init_enabled_size env rgba xsize ysize (hw ▸ h)
    rw [← hw] at hsz
    refine ⟨hsz.2.1, by omega, fun cf entry => by simp [yuva], ?_⟩
    unfold write writeTable
    simp only [h, if_true]
    by_cases hsmall : (w.palette_size : Int) < env.pal_huffThresh
    · simp only [hsmall, if_true, List.filter_cons, List.filter_append, PCall.emits,
        List.cons_append, List.nil_append, List.filter_nil]
      have hmap : (List.range w.palette_size).map
          (fun ii => PCall.writeWord (env.getLE (w.palette.getD ii 0))) =
          ((List.range w.palette_size).map
            (fun ii => env.getLE (w.palette.getD ii 0))).map PCall.writeWord := by
        rw [List.map_map]; rfl
      rw [hmap, filter_emits_writeWord]
    · simp only [hsmall, if_false, List.filter_cons, List.filter_append, PCall.emits,
        List.cons_append, List.nil_append, List.filter_nil, filter_emits_encAdd,
        filter_emits_encWrite]
      simp

/-- C15, witness: the 2x2 checkerboard in the sample environment. -/
theorem write_layout_witness :
    init sampleEnv checkerboard 2 2 Writer.fresh = init sampleEnv checkerboard 2 2 Writer.fresh ∧
    ((enabled (init sampleEnv checkerboard 2 2 Writer.fresh) = false →
      write sampleEnv 2 2 (init sampleEnv checkerboard 2 2 Writer.fresh) = [PCall.writeBit 0]) ∧
    (enabled (init sampleEnv checkerboard 2 2 Writer.fresh) = true →
      1 ≤ (init sampleEnv checkerboard 2 2 Writer.fresh).palette_size ∧
      (init sampleEnv checkerboard 2 2 Writer.fresh).palette_size - 1 ≤ 255 ∧
      (∀ cf entry, (yuva sampleEnv cf entry).length = 4) ∧
      (write sampleEnv 2 2 (init sampleEnv checkerboard 2 2 Writer.fresh)).filter PCall.emits =
        [PCall.writeBit 1,
          PCall.writeBits ((init sampleEnv checkerboard 2 2 Writer.fresh).palette_size - 1) 8,
          PCall.writeBits (init sampleEnv checkerboard 2 2 Writer.fresh).masked_palette 8] ++
        (if ((init sampleEnv checkerboard 2 2 Writer.fresh).palette_size : Int) <
            sampleEnv.pal_huffThresh then
          PCall.writeBit 0 ::
            (List.range (init sampleEnv checkerboard 2 2 Writer.fresh).palette_size).map
              (fun ii => PCall.writeWord (sampleEnv.getLE
                ((init sampleEnv checkerboard 2 2 Writer.fresh).palette.getD ii 0)))
        else
          [PCall.writeBit 1,
            PCall.write17 (writeTable_bestCF sampleEnv
              (init sampleEnv checkerboard 2 2 Writer.fresh)).1, PCall.encWriteTables] ++
            (((List.range (init sampleEnv checkerboard 2 2 Writer.fresh).palette_size).map
              (fun ii => yuva sampleEnv (writeTable_bestCF sampleEnv
                  (init sampleEnv checkerboard 2 2 Writer.fresh)).1
                ((init sampleEnv checkerboard 2 2 Writer.fresh).palette.getD ii 0))).flatten).map
                PCall.encWrite) ++
        [PCall.monoWriteTables] ++ (writePixels sampleEnv 2 2).filter PCall.emits)) :=
  ⟨rfl, write_layout sampleEnv checkerboard 2 2 (init sampleEnv checkerboard 2 2 Writer.fresh) rfl⟩

end GCIF.ImagePaletteWriter

namespace GCIF.ImageLZWriter

/-- Expansion never shrinks the extent and stops at 256. -/
theorem expand_range (more : Nat → Bool) :
    ∀ (fuel extent : Nat), extent ≤ 256 →
      extent ≤ expand more fuel extent ∧ expand more fuel extent ≤ 256 := by
  intro fuel
  induction fuel with
  | zero => intro extent h; exact ⟨le_refl _, h⟩
  | succ n ih =>
    intro extent h
    unfold expand
    by_cases hc : extent < 256 ∧ more extent = true
    · rw [if_pos hc]
      have := ih (extent + 1) (by omega)
      omega
    · rw [if_neg hc]
      exact ⟨le_refl _, h⟩

/-- C18: every match the (spec-modelled) match finder emits has width and
height between 1 and 256, so that `w - 1` and `h - 1` are stored unchanged in
the two 8-bit fields of the 10-byte record. -/
theorem emitMatch_size (src_x src_y dst_x dst_y : Nat) (left right up down : Nat → Bool) :
    1 ≤ (emitMatch src_x src_y dst_x dst_y left right up down).w ∧
    (emitMatch src_x src_y dst_x dst_y left right up down).w ≤ 256 ∧
    1 ≤ (emitMatch src_x src_y dst_x dst_y left right up down).h ∧
    (emitMatch src_x src_y dst_x dst_y left right up down).h ≤ 256 ∧
    (emitMatch src_x src_y dst_x dst_y left right up down).record.length = 10 ∧
    (emitMatch src_x src_y dst_x dst_y left right up down).record.getD 8 0 + 1 =
      (emitMatch src_x src_y dst_x dst_y left right up down).w ∧
    (emitMatch src_x src_y dst_x dst_y left right up down).record.getD 9 0 + 1 =
      (emitMatch src_x src_y dst_x dst_y left right up down).h := by
  have hwl := expand_range left 256 8 (by omega)
  have hw := expand_range right 256 (expand left 256 8) hwl.2
  have hhu := expand_range up 256 8 (by omega)
  have hh := expand_range down 256 (expand up 256 8) hhu.2
  simp only [emitMatch, Match.record, List.length_cons, List.length_nil, List.getD_cons_succ,
    List.getD_cons_zero]
  refine ⟨by omega, hw.2, by omega, hh.2, trivial, ?_, ?_⟩
  · rw [Nat.mod_eq_of_lt (by omega)]; omega
  · rw [Nat.mod_eq_of_lt (by omega)]; omega

end GCIF.ImageLZWriter

namespace GCIF

/-- For sizes and knobs that pass the two guards, and `MAX_PASSES` at least
one, `ImageRGBAWriter::init` has not returned after any number of sweeps of
`designTiles`. -/
theorem ImageRGBAWriter.init_eq_none {E : Type} (c : Consts) (hmax : 0 < c.MAX_PASSES)
    (masked visited : Nat → Nat → Bool) (ops : EntropyEstimatorOps E) (fb : FilterBank)
    (rgba sf0 cf0 idx0 res0 : Mem) (size_x size_y : Int) (knobs : GCIFKnobs) (fuel : Nat)
    (hdims : ¬ (size_x < 0 ∨ size_y < 0))
    (hparams : ¬ (knobs.cm_disableEntropy = false ∧ knobs.cm_filterSelectFuzz ≤ 0)) :
    ImageRGBAWriter.init c masked visited ops fb rgba sf0 cf0 idx0 res0 size_x size_y knobs fuel
      = none := by
  have hp2 : ¬ ((!knobs.cm_disableEntropy && decide (knobs.cm_filterSelectFuzz ≤ 0)) = true) := by
    intro h
    apply hparams
    simpa using h
  unfold ImageRGBAWriter.init
  simp only [hdims, hp2, if_false]
  cases hm : ImageRGBAWriter.maskTiles c (ImageRGBAWriter.IsMasked masked visited)
      (ImageRGBAWriter.initGeometry size_x.toNat size_y.toNat).size_x
      (ImageRGBAWriter.initGeometry size_x.toNat size_y.toNat).size_y
      (ImageRGBAWriter.initGeometry size_x.toNat size_y.toNat).tile_size_x
      (ImageRGBAWriter.initGeometry size_x.toNat size_y.toNat).tile_size_y sf0 cf0 with
  | none => rfl
  | some t0 => simp [ImageRGBAWriter.designTiles_eq_none c hmax]

/-- No call of `ImageRGBAWriter::writePixels` is an entropy encoder `write`. -/
theorem ImageRGBAWriter.writePixels_no_encWrite {C : Type} (ch : ImageRGBAWriter.ChaosOps C)
    (isMasked : Nat → Nat → Bool) (res : Mem) (g : ImageRGBAWriter.Geometry) (chaos : C) :
    ∀ e sym, ImageRGBAWriter.Call.encWrite e sym ∉
      ImageRGBAWriter.writePixels ch isMasked res g chaos := by
  unfold ImageRGBAWriter.writePixels
  exact foldl_keeps (fun s : ImageRGBAWriter.PixelState C =>
      ∀ e sym, ImageRGBAWriter.Call.encWrite e sym ∉ s.calls) _
    (fun b a hb => ImageRGBAWriter.writePixels_row_no_encWrite ch isMasked res _ _ b a hb) _ _
    (fun e sym => by simp)

/-- With more than 256 distinct unmasked colours the palette writer, started
fresh, writes the single bit `0`. -/
theorem ImagePaletteWriter.write_disabled (env : ImagePaletteWriter.Env) (rgba : Mem)
    (xsize ysize : Nat)
    (hmany : 256 < ImagePaletteWriter.distinctCount
      (ImagePaletteWriter.unmaskedColors env.masked rgba xsize ysize)) :
    ImagePaletteWriter.write env xsize ysize
      (ImagePaletteWriter.init env rgba xsize ysize ImagePaletteWriter.Writer.fresh) =
        [ImagePaletteWriter.PCall.writeBit 0] := by
  have hflag : (ImagePaletteWriter.generatePalette ImagePaletteWriter.PALETTE_MAX env.masked rgba
      xsize ysize ImagePaletteWriter.Writer.fresh).1 = false := by
    cases hf : (ImagePaletteWriter.generatePalette ImagePaletteWriter.PALETTE_MAX env.masked rgba
        xsize ysize ImagePaletteWriter.Writer.fresh).1 with
    | false => rfl
    | true =>
      have := ((ImagePaletteWriter.generatePalette_flag ImagePaletteWriter.PALETTE_MAX env.masked
        rgba xsize ysize).1 hf).2
      have hmax : ImagePaletteWriter.PALETTE_MAX = 256 := rfl
      omega
  have hsize := ImagePaletteWriter.init_palette_size env rgba xsize ysize
  rw [hflag] at hsize
  simp only [Bool.false_eq_true, if_false] at hsize
  simp [ImagePaletteWriter.write, ImagePaletteWriter.enabled, hsize]

/-- C17 (code bug): no container comes out of the writer pipeline for an image
that needs the RGBA sub-stream. For the 257x1 image of 257 distinct colours the
palette writer emits the single bit `0`; `ImageRGBAWriter::init` on a 257x1
image with accepted knobs has not returned after any number of `designTiles`
sweeps (`MAX_PASSES` at least one); and `writePixels` never hands a Y, U or V
residual to an encoder `write`. -/
theorem round_trip_blocked {E C : Type} (c : Consts) (k : Nat)
    (masked visited : Nat → Nat → Bool) (ops : ImageRGBAWriter.EntropyEstimatorOps E)
    (fb : ImageRGBAWriter.FilterBank) (rgba sf0 cf0 idx0 res0 : Mem) (revisitCount : Int)
    (fuel : Nat) (ch : ImageRGBAWriter.ChaosOps C) (res : Mem) (g : ImageRGBAWriter.Geometry)
    (chaos : C) :
    ImagePaletteWriter.write ImagePaletteWriter.sampleEnv 257 1
        (ImagePaletteWriter.init ImagePaletteWriter.sampleEnv ImagePaletteWriter.ramp 257 1
          ImagePaletteWriter.Writer.fresh) = [ImagePaletteWriter.PCall.writeBit 0] ∧
    ImageRGBAWriter.init { c with MAX_PASSES := k + 1 } masked visited ops fb rgba sf0 cf0 idx0
        res0 257 1 ⟨true, 1, revisitCount⟩ fuel = none ∧
    (∀ e sym, ImageRGBAWriter.Call.encWrite e sym ∉
      ImageRGBAWriter.writePixels ch (ImageRGBAWriter.IsMasked masked visited) res g chaos) := by
  refine ⟨?_, ?_, ?_⟩
  · exact ImagePaletteWriter.write_disabled _ _ _ _
      (by rw [ImagePaletteWriter.ramp_distinctCount]; decide)
  · exact ImageRGBAWriter.init_eq_none _ (Nat.succ_pos k) _ _ _ _ _ _ _ _ _ _ _ _ _
      (by decide) (by simp)
  · exact ImageRGBAWriter.writePixels_no_encWrite _ _ _ _ _

end GCIF

namespace GCIF.ImagePaletteWriter

/-- The histogram of `generatePalette`: while the pixel loops run, `hist[k]` is
the number of unmasked pixels read so far whose colour is `_palette[k]`, as a
`u32`, and `0` at the slots the palette has not reached. -/
theorem generatePalette_scan_hist (pmax : Nat) (masked : Nat → Nat → Bool) (rgba : Mem) :
    ∀ (coords : List (Nat × Nat)) (st : ScanState) (seen : List Nat), ScanInv pmax st seen →
      (∀ k c, st.palette[k]? = some c → st.hist k = seen.count c % 4294967296) →
      (∀ k, st.palette.length ≤ k → st.hist k = 0) →
      (generatePalette_scan pmax masked rgba coords st).1 = true →
      (∀ k c, (generatePalette_scan pmax masked rgba coords st).2.palette[k]? = some c →
        (generatePalette_scan pmax masked rgba coords st).2.hist k =
          (seen ++ seenFrom masked rgba coords st.color).count c % 4294967296) ∧
      (∀ k, (generatePalette_scan pmax masked rgba coords st).2.palette.length ≤ k →
        (generatePalette_scan pmax masked rgba coords st).2.hist k = 0) := by
  intro coords
  induction coords with
  | nil =>
    intro st seen h h1 h2 _
    simpa [generatePalette_scan, seenFrom] using ⟨h1, h2⟩
  | cons p rest ih =>
    intro st seen h h1 h2
    unfold generatePalette_scan
    by_cases hm : IsMasked masked p.1 p.2 = true
    · have := ih { st with color := st.color + 1 } seen
        ⟨h.nodup, h.mem, h.order, h.size, h.map, h.bound⟩ h1 h2
      simpa [hm, seenFrom] using this
    · cases hc : st.map (rgba st.color) with
      | none =>
        by_cases hfull : pmax ≤ st.palette_size
        · simp [hm, hc, hfull]
        · have hroom : st.palette_size < pmax := by omega
          have hcp : rgba st.color ∉ st.palette := by
            intro hmem
            obtain ⟨n, hn⟩ := List.mem_iff_getElem?.1 hmem
            rw [(h.map _ n).2 hn] at hc
            exact Option.noConfusion hc
          have hcs : rgba st.color ∉ seen := fun hmem => hcp ((h.mem _).2 hmem)
          have hsz := h.size
          have := ih _ (seen ++ [rgba st.color]) (h.miss (rgba st.color) hc hroom
            (fun k => if k = st.palette_size then (st.hist k + 1) % 4294967296 else st.hist k)
            (st.color + 1)) (by
              intro k c hk
              by_cases hkl : k < st.palette.length
              · rw [List.getElem?_append_left hkl] at hk
                have hne : c ≠ rgba st.color := by
                  intro he
                  exact hcp (he ▸ List.getElem?_mem hk)
                have hkne : k ≠ st.palette_size := by omega
                simp only [hkne, if_false]
                rw [h1 k c hk, List.count_append, List.count_singleton]
                simp [Ne.symm hne]
              · have hkeq : k = st.palette.length := by
                  by_contra hne
                  have : (st.palette ++ [rgba st.color]).length ≤ k := by
                    rw [List.length_append, List.length_singleton]; omega
                  rw [List.getElem?_eq_none this] at hk
                  exact Option.noConfusion hk
                subst hkeq
                rw [List.getElem?_append_right (le_refl _)] at hk
                simp at hk
                subst hk
                simp only [hsz, if_true]
                rw [h2 _ (le_refl _), List.count_append, List.count_singleton,
                  List.count_eq_zero_of_not_mem hcs]
                simp) (by
              intro k hk
              rw [List.length_append, List.length_singleton] at hk
              have hkne : k ≠ st.palette_size := by omega
              simp only [hkne, if_false]
              exact h2 k (by omega))
          simpa [hm, hc, hfull, seenFrom] using this
      | some idx =>
        have hidx : st.palette[idx]? = some (rgba st.color) := (h.map _ idx).1 hc
        have hidxlt : idx < st.palette.length := by
          rcases List.getElem?_eq_some.1 hidx with ⟨hh, _⟩
          exact hh
        have := ih _ (seen ++ [rgba st.color]) (h.hit (rgba st.color) idx hc
          (fun k => if k = idx then (st.hist k + 1) % 4294967296 else st.hist k) (st.color + 1))
          (by
            intro k c hk
            by_cases hki : k = idx
            · subst hki
              have hceq : c = rgba st.color := by
                rw [hidx] at hk
                exact (Option.some.inj hk).symm
              subst hceq
              simp only [if_true]
              rw [h1 k _ hidx, List.count_append, List.count_singleton]
              simp
            · simp only [hki, if_false]
              have hne : c ≠ rgba st.color := by
                intro he
                rw [he] at hk
                have hklt : k < st.palette.length := by
                  rcases List.getElem?_eq_some.1 hk with ⟨hh, _⟩
                  exact hh
                have h3 : st.palette[k] = st.palette[idx] := by
                  rw [List.getElem?_eq_getElem hklt] at hk
                  rw [List.getElem?_eq_getElem hidxlt] at hidx
                  rw [Option.some.inj hk, Option.some.inj hidx]
                exact hki ((List.Nodup.getElem_inj_iff h.nodup).1 h3)
              rw [h1 k c hk, List.count_append, List.count_singleton]
              simp [Ne.symm hne]) (by
            intro k hk
            have hk2 : st.palette.length ≤ k := hk
            have hki : k ≠ idx := by omega
            simp only [hki, if_false]
            exact h2 k hk2)
        simpa [hm, hc, seenFrom] using this

/-- The search for the most common colour returns the lowest index among those
with the maximal count. -/
theorem generatePalette_best_spec (hist : Nat → Nat) :
    ∀ n, (n = 0 → generatePalette_best hist n = (0, 0)) ∧
      (0 < n → (generatePalette_best hist n).1 < n ∧
        (generatePalette_best hist n).2 = hist (generatePalette_best hist n).1) ∧
      (∀ i, i < n → hist i ≤ (generatePalette_best hist n).2) ∧
      (∀ i, i < (generatePalette_best hist n).1 → hist i < (generatePalette_best hist n).2) := by
  intro n
  induction n with
  | zero =>
    refine ⟨fun _ => rfl, fun h => by omega, fun i hi => by omega, ?_⟩
    intro i hi
    have : generatePalette_best hist 0 = (0, 0) := rfl
    rw [this] at hi
    simp at hi
  | succ n ih =>
    obtain ⟨h0, h1, h2, h3⟩ := ih
    have hstep : generatePalette_best hist (n + 1) =
        if (generatePalette_best hist n).2 < hist n then (n, hist n)
        else generatePalette_best hist n := by
      unfold generatePalette_best
      rw [List.range_succ, List.foldl_append]
      rfl
    rw [hstep]
    by_cases hlt : (generatePalette_best hist n).2 < hist n
    · simp only [hlt, if_true]
      refine ⟨fun h => by omega, fun _ => ⟨by omega, trivial⟩, ?_, ?_⟩
      · intro i hi
        by_cases hin : i = n
        · rw [hin]
        · have := h2 i (by omega)
          omega
      · intro i hi
        have := h2 i hi
        omega
    · simp only [hlt, if_false]
      refine ⟨fun h => by omega, fun _ => ?_, ?_, h3⟩
      · by_cases hn : n = 0
        · have hb := h0 hn
          rw [hb] at hlt ⊢
          subst hn
          simp only [] at hlt ⊢
          omega
        · have := h1 (by omega)
          exact ⟨by omega, this.2⟩
      · intro i hi
        by_cases hin : i = n
        · rw [hin]; omega
        · exact h2 i (by omega)

theorem unmaskedColors_length_le (masked : Nat → Nat → Bool) (rgba : Mem) (xsize ysize : Nat) :
    (unmaskedColors masked rgba xsize ysize).length ≤ xsize * ysize := by
  unfold unmaskedColors
  have h := List.length_filterMap_le
    (fun p : Nat × Nat => if IsMasked masked p.1 p.2 then none else some (rgba (p.2 * xsize + p.1)))
    (rasterCoords xsize ysize)
  rw [rasterCoords_length] at h
  have : ysize * xsize = xsize * ysize := Nat.mul_comm _ _
  omega

/-- After a successful `generatePalette` on a fresh writer of an image with
fewer than `2^32` pixels, `_most_common` is a palette index, its colour is that
of the most unmasked pixels, and it is the lowest index with that count. -/
theorem generatePalette_most_common (pmax : Nat) (masked : Nat → Nat → Bool) (rgba : Mem)
    (xsize ysize : Nat) (hpmax : pmax ≤ 256) (hsize : xsize * ysize < 4294967296)
    (h : (generatePalette pmax masked rgba xsize ysize Writer.fresh).1 = true) :
    (generatePalette pmax masked rgba xsize ysize Writer.fresh).2.most_common <
      (generatePalette pmax masked rgba xsize ysize Writer.fresh).2.palette_size ∧
    (∀ i, i < (generatePalette pmax masked rgba xsize ysize Writer.fresh).2.palette_size →
      (unmaskedColors masked rgba xsize ysize).count
          ((generatePalette pmax masked rgba xsize ysize Writer.fresh).2.palette.getD i 0) ≤
        (unmaskedColors masked rgba xsize ysize).count
          ((generatePalette pmax masked rgba xsize ysize Writer.fresh).2.palette.getD
            (generatePalette pmax masked rgba xsize ysize Writer.fresh).2.most_common 0)) ∧
    (∀ i, i < (generatePalette pmax masked rgba xsize ysize Writer.fresh).2.most_common →
      (unmaskedColors masked rgba xsize ysize).count
          ((generatePalette pmax masked rgba xsize ysize Writer.fresh).2.palette.getD i 0) <
        (unmaskedColors masked rgba xsize ysize).count
          ((generatePalette pmax masked rgba xsize ysize Writer.fresh).2.palette.getD
            (generatePalette pmax masked rgba xsize ysize Writer.fresh).2.most_common 0)) := by
  have hs := generatePalette_scan_fresh pmax masked rgba xsize ysize
  have hh := generatePalette_scan_hist pmax masked rgba (rasterCoords xsize ysize)
    (ScanState.start Writer.fresh) [] (scanInv_fresh pmax)
    (by intro k c hk; simp [ScanState.start, Writer.fresh] at hk)
    (by intro k _; rfl)
  have hc : (ScanState.start Writer.fresh).color = 0 := rfl
  rw [hc, seenFrom_raster, List.nil_append] at hh
  unfold generatePalette at h ⊢
  cases hflag : (generatePalette_scan pmax masked rgba (rasterCoords xsize ysize)
      (ScanState.start Writer.fresh)).1 with
  | false => simp [hflag] at h
  | true =>
    have hinv := hs.1 hflag
    obtain ⟨hcount, _⟩ := hh hflag
    by_cases hz : (generatePalette_scan pmax masked rgba (rasterCoords xsize ysize)
      (ScanState.start Writer.fresh)).2.palette_size ≤ 0
    · simp [hflag, hz] at h
    · simp only [hflag, hz, if_false, Bool.true_eq_false]
      obtain ⟨_, hb1, hb2, hb3⟩ := generatePalette_best_spec
        (generatePalette_scan pmax masked rgba (rasterCoords xsize ysize)
          (ScanState.start Writer.fresh)).2.hist
        (generatePalette_scan pmax masked rgba (rasterCoords xsize ysize)
          (ScanState.start Writer.fresh)).2.palette_size
      obtain ⟨hblt, hbeq⟩ := hb1 (by omega)
      have hsz := hinv.size
      have hbd := hinv.bound
      have hmod : (generatePalette_best
          (generatePalette_scan pmax masked rgba (rasterCoords xsize ysize)
            (ScanState.start Writer.fresh)).2.hist
          (generatePalette_scan pmax masked rgba (rasterCoords xsize ysize)
            (ScanState.start Writer.fresh)).2.palette_size).1 % 256 =
          (generatePalette_best
          (generatePalette_scan pmax masked rgba (rasterCoords xsize ysize)
            (ScanState.start Writer.fresh)).2.hist
          (generatePalette_scan pmax masked rgba (rasterCoords xsize ysize)
            (ScanState.start Writer.fresh)).2.palette_size).1 :=
        Nat.mod_eq_of_lt (by omega)
      rw [hmod]
      have hat : ∀ i, i < (generatePalette_scan pmax masked rgba (rasterCoords xsize ysize)
            (ScanState.start Writer.fresh)).2.palette_size →
          (generatePalette_scan pmax masked rgba (rasterCoords xsize ysize)
            (ScanState.start Writer.fresh)).2.hist i =
          (unmaskedColors masked rgba xsize ysize).count
            ((generatePalette_scan pmax masked rgba (rasterCoords xsize ysize)
              (ScanState.start Writer.fresh)).2.palette.getD i 0) := by
        intro i hi
        have hil : i < (generatePalette_scan pmax masked rgba (rasterCoords xsize ysize)
            (ScanState.start Writer.fresh)).2.palette.length := by omega
        rw [List.getD_eq_getElem?_getD, List.getElem?_eq_getElem hil, Option.getD_some,
          hcount i _ (List.getElem?_eq_getElem hil)]
        refine Nat.mod_eq_of_lt (lt_of_le_of_lt (List.count_le_length _ _) ?_)
        exact lt_of_le_of_lt (unmaskedColors_length_le masked rgba xsize ysize) hsize
      refine ⟨hblt, ?_, ?_⟩
      · intro i hi
        rw [← hat i hi, ← hat _ hblt, ← hbeq]
        exact hb2 i hi
      · intro i hi
        rw [← hat i (by omega), ← hat _ hblt, ← hbeq]
        exact hb3 i hi

/-- When `generatePalette` succeeds, `init` on a fresh writer is `generateImage`
followed by `optimizeImage` on the outcome of the optimizer. -/
theorem init_of_true (env : Env) (rgba : Mem) (xsize ysize : Nat)
    (hgen : (generatePalette PALETTE_MAX env.masked rgba xsize ysize Writer.fresh).1 = true) :
    init env rgba xsize ysize Writer.fresh =
      optimizeImage
        (env.process
          (generateImage env.masked env.maskEnabled env.maskColor rgba xsize ysize (generatePalette PALETTE_MAX env.masked rgba xsize ysize Writer.fresh).2).image
          xsize ysize
          (generateImage env.masked env.maskEnabled env.maskColor rgba xsize ysize
            (generatePalette PALETTE_MAX env.masked rgba xsize ysize Writer.fresh).2).palette_size)
        env.better0 xsize ysize
        (generateImage env.masked env.maskEnabled env.maskColor rgba xsize ysize (generatePalette PALETTE_MAX env.masked rgba xsize ysize Writer.fresh).2) := by
  have hw : ({ Writer.fresh with palette_size := 0 } : Writer) = Writer.fresh := rfl
  unfold init
  simp only [hw, hgen, if_true]

/-- The value `generateImage` gives `_masked_palette` after a successful
`generatePalette` on a fresh writer: the position of the mask colour in the
palette when the mask is enabled and the colour is there, `_most_common`
otherwise. -/
theorem generateImage_masked_palette (env : Env) (rgba : Mem) (xsize ysize : Nat)
    (hgen : (generatePalette PALETTE_MAX env.masked rgba xsize ysize Writer.fresh).1 = true) :
    (∃ i, env.maskEnabled = true ∧ (generatePalette PALETTE_MAX env.masked rgba xsize ysize Writer.fresh).2.palette[i]? = some env.maskColor ∧
      (generateImage env.masked env.maskEnabled env.maskColor rgba xsize ysize
        (generatePalette PALETTE_MAX env.masked rgba xsize ysize Writer.fresh).2).masked_palette = i) ∨
    ((env.maskEnabled = false ∨ env.maskColor ∉ (generatePalette PALETTE_MAX env.masked rgba xsize ysize Writer.fresh).2.palette) ∧
      (generateImage env.masked env.maskEnabled env.maskColor rgba xsize ysize
        (generatePalette PALETTE_MAX env.masked rgba xsize ysize Writer.fresh).2).masked_palette = (generatePalette PALETTE_MAX env.masked rgba xsize ysize Writer.fresh).2.most_common) := by
  obtain ⟨hinv, _⟩ := generatePalette_true PALETTE_MAX env.masked rgba xsize ysize hgen
  have hmap := hinv.map
  have hbound := hinv.bound
  have hmax : PALETTE_MAX = 256 := rfl
  simp only at hmap hbound
  cases hen : env.maskEnabled with
  | false =>
    right
    exact ⟨Or.inl rfl, by simp [generateImage, hen]⟩
  | true =>
    cases hm : (generatePalette PALETTE_MAX env.masked rgba xsize ysize Writer.fresh).2.map env.maskColor with
    | none =>
      right
      refine ⟨Or.inr ?_, by simp [generateImage, hen, hm]⟩
      intro hmem
      obtain ⟨n, hn⟩ := List.mem_iff_getElem?.1 hmem
      rw [(hmap _ n).2 hn] at hm
      exact Option.noConfusion hm
    | some idx =>
      left
      have hidx := (hmap _ idx).1 hm
      have hlt : idx < (generatePalette PALETTE_MAX env.masked rgba xsize ysize Writer.fresh).2.palette.length := by
        rcases List.getElem?_eq_some.1 hidx with ⟨hh, _⟩
        exact hh
      have h256 : idx % 256 = idx := Nat.mod_eq_of_lt (by omega)
      exact ⟨idx, rfl, hidx, by simp [generateImage, hen, hm, h256]⟩

/-- C16: after an `init` whose `generatePalette` succeeded (fresh writer, fewer
than `2^32` pixels, an optimizer whose `forward` maps `[0, palette_size)` into
itself and whose image is `forward` of every index): `_masked_palette` is below
`_palette_size` and every masked pixel of the index image holds it, before and
after `optimizeImage`; before optimisation it is the palette index of the mask
colour when the mask is enabled and the colour is in the palette, and otherwise
the lowest palette index whose colour has the maximal count among the unmasked
pixels, so `0` for a one-colour image without mask; `optimizeImage` sends it
and every pixel of the image through the same `forward`. -/
theorem masked_palette_spec (env : Env) (rgba : Mem) (xsize ysize : Nat) (w2 w3 : Writer)
    (opt : Optimized)
    (hw2 : w2 = generateImage env.masked env.maskEnabled env.maskColor rgba xsize ysize (generatePalette PALETTE_MAX env.masked rgba xsize ysize Writer.fresh).2)
    (hopt : opt = env.process w2.image xsize ysize w2.palette_size)
    (hw3 : w3 = init env rgba xsize ysize Writer.fresh)
    (hgen : (generatePalette PALETTE_MAX env.masked rgba xsize ysize Writer.fresh).1 = true)
    (hsize : xsize * ysize < 4294967296)
    (hrange : ∀ i, i < w2.palette_size → opt.forward i < w2.palette_size)
    (himg : ∀ k, k < xsize * ysize → opt.image k = opt.forward (w2.image.getD k 0)) :
    (w2.masked_palette < w2.palette_size ∧ w3.masked_palette < w3.palette_size) ∧
    (∀ x y, x < xsize → y < ysize → IsMasked env.masked x y = true →
      w2.image.getD (y * xsize + x) 0 = w2.masked_palette ∧
      w3.image.getD (y * xsize + x) 0 = w3.masked_palette) ∧
    (∀ i, env.maskEnabled = true → w2.palette[i]? = some env.maskColor →
      w2.masked_palette = i) ∧
    ((env.maskEnabled = false ∨ env.maskColor ∉ w2.palette) →
      (∀ i, i < w2.palette_size →
        (unmaskedColors env.masked rgba xsize ysize).count (w2.palette.getD i 0) ≤ (unmaskedColors env.masked rgba xsize ysize).count (w2.palette.getD w2.masked_palette 0)) ∧
      (∀ i, i < w2.masked_palette →
        (unmaskedColors env.masked rgba xsize ysize).count (w2.palette.getD i 0) < (unmaskedColors env.masked rgba xsize ysize).count (w2.palette.getD w2.masked_palette 0))) ∧
    (env.maskEnabled = false → distinctCount (unmaskedColors env.masked rgba xsize ysize) = 1 → w2.masked_palette = 0) ∧
    (w3.masked_palette = opt.forward w2.masked_palette ∧
      ∀ k, k < xsize * ysize → w3.image.getD k 0 = opt.forward (w2.image.getD k 0)) := by
  obtain ⟨hinv, _⟩ := generatePalette_true PALETTE_MAX env.masked rgba xsize ysize hgen
  have hnodup := hinv.nodup
  have hmem := hinv.mem
  have hsz := hinv.size
  simp only at hnodup hmem hsz
  have hmax : PALETTE_MAX = 256 := rfl
  obtain ⟨hmc1, hmc2, hmc3⟩ := generatePalette_most_common PALETTE_MAX env.masked rgba
    xsize ysize (by rw [hmax]) hsize hgen
  have hcase := generateImage_masked_palette env rgba xsize ysize hgen
  rw [← hw2] at hcase
  have hpal : w2.palette = (generatePalette PALETTE_MAX env.masked rgba xsize ysize Writer.fresh).2.palette := by rw [hw2]; rfl
  have hps : w2.palette_size = (generatePalette PALETTE_MAX env.masked rgba xsize ysize Writer.fresh).2.palette_size := by rw [hw2]; rfl
  have himage : w2.image = (rasterCoords xsize ysize).map (fun p =>
      if env.masked (p.1 % 65536) (p.2 % 65536) then w2.masked_palette
      else mapAt (generatePalette PALETTE_MAX env.masked rgba xsize ysize Writer.fresh).2.map (rgba (p.2 * xsize + p.1)) % 256) := by rw [hw2]; rfl
  have hw3def : w3 = optimizeImage opt env.better0 xsize ysize w2 := by
    rw [hw3, hopt, hw2]
    exact init_of_true env rgba xsize ysize hgen
  have hmp3 : w3.masked_palette = opt.forward w2.masked_palette := by rw [hw3def]; rfl
  have hps3 : w3.palette_size = w2.palette_size := by rw [hw3def]; rfl
  have himage3 : w3.image = (List.range (xsize * ysize)).map opt.image := by rw [hw3def]; rfl
  have hget3 : ∀ k, k < xsize * ysize → w3.image.getD k 0 = opt.forward (w2.image.getD k 0) := by
    intro k hk
    rw [himage3, List.getD_eq_getElem?_getD, List.getElem?_map, List.getElem?_range hk]
    exact himg k hk
  rw [← hpal] at hcase
  have hvalid : w2.masked_palette < w2.palette_size := by
    rcases hcase with ⟨i, _, hi, hmp⟩ | ⟨_, hmp⟩
    · rw [hmp, hps, hsz, ← hpal]
      rcases List.getElem?_eq_some.1 hi with ⟨hh, _⟩
      exact hh
    · rw [hmp, hps]; exact hmc1
  refine ⟨⟨hvalid, ?_⟩, ?_, ?_, ?_, ?_, hmp3, hget3⟩
  · rw [hmp3, hps3]; exact hrange _ hvalid
  · intro x y hx hy hm
    have hcoord := rasterCoords_getElem? xsize ysize x y hx hy
    have hmask : env.masked (x % 65536) (y % 65536) = true := hm
    have hidx : y * xsize + x < xsize * ysize := by
      have h1 : (y + 1) * xsize ≤ ysize * xsize := Nat.mul_le_mul_right _ hy
      have h2 : (y + 1) * xsize = y * xsize + xsize := by ring
      have h3 : ysize * xsize = xsize * ysize := Nat.mul_comm _ _
      omega
    have h2 : w2.image.getD (y * xsize + x) 0 = w2.masked_palette := by
      rw [List.getD_eq_getElem?_getD]
      nth_rewrite 1 [himage]
      rw [List.getElem?_map, hcoord]
      simp [hmask]
    exact ⟨h2, by rw [hget3 _ hidx, h2, hmp3]⟩
  · intro i hen hi
    rcases hcase with ⟨j, _, hj, hmp⟩ | ⟨hno, _⟩
    · rw [hmp]
      have hil : i < w2.palette.length := by
        rcases List.getElem?_eq_some.1 hi with ⟨hh, _⟩
        exact hh
      have hjl : j < w2.palette.length := by
        rcases List.getElem?_eq_some.1 hj with ⟨hh, _⟩
        exact hh
      have heq : w2.palette[j] = w2.palette[i] := by
        rw [List.getElem?_eq_getElem hil] at hi
        rw [List.getElem?_eq_getElem hjl] at hj
        rw [Option.some.inj hi, Option.some.inj hj]
      exact (List.Nodup.getElem_inj_iff (hpal ▸ hnodup)).1 heq
    · rcases hno with hno | hno
      · rw [hen] at hno; exact Bool.noConfusion hno
      · exact absurd (List.getElem?_mem hi) hno
  · intro hno
    have hmp : w2.masked_palette = (generatePalette PALETTE_MAX env.masked rgba xsize ysize Writer.fresh).2.most_common := by
      rcases hcase with ⟨j, hen, hj, _⟩ | ⟨_, hmp⟩
      · rcases hno with hno | hno
        · rw [hen] at hno; exact Bool.noConfusion hno
        · exact absurd (List.getElem?_mem hj) hno
      · exact hmp
    rw [hmp, hpal, hps]
    exact ⟨hmc2, hmc3⟩
  · intro hen hone
    have hmp : w2.masked_palette = (generatePalette PALETTE_MAX env.masked rgba xsize ysize Writer.fresh).2.most_common := by
      rcases hcase with ⟨j, hen2, _, _⟩ | ⟨_, hmp⟩
      · rw [hen] at hen2; exact Bool.noConfusion hen2
      · exact hmp
    have hlen := length_eq_distinctCount _ _ hnodup hmem
    rw [hmp]
    omega

/-- C16, witness: the 2x2 checkerboard whose pixel `(0, 0)` is masked, with the
mask colour `5` in the palette. -/
theorem masked_palette_spec_witness :
    maskedIndexed = generateImage maskedEnv.masked maskedEnv.maskEnabled maskedEnv.maskColor
      checkerboard 2 2
      (generatePalette PALETTE_MAX maskedEnv.masked checkerboard 2 2 Writer.fresh).2 ∧
    (generatePalette PALETTE_MAX maskedEnv.masked checkerboard 2 2 Writer.fresh).1 = true ∧
    2 * 2 < 4294967296 ∧
    (∀ i, i < maskedIndexed.palette_size →
      (maskedEnv.process maskedIndexed.image 2 2 maskedIndexed.palette_size).forward i < maskedIndexed.palette_size) ∧
    (∀ k, k < 2 * 2 → (maskedEnv.process maskedIndexed.image 2 2 maskedIndexed.palette_size).image k = (maskedEnv.process maskedIndexed.image 2 2 maskedIndexed.palette_size).forward (maskedIndexed.image.getD k 0)) ∧
    (maskedIndexed.masked_palette < maskedIndexed.palette_size ∧
      (init maskedEnv checkerboard 2 2 Writer.fresh).masked_palette < (init maskedEnv checkerboard 2 2 Writer.fresh).palette_size) ∧
    (∀ x y, x < 2 → y < 2 → IsMasked maskedEnv.masked x y = true →
      maskedIndexed.image.getD (y * 2 + x) 0 = maskedIndexed.masked_palette ∧
      (init maskedEnv checkerboard 2 2 Writer.fresh).image.getD (y * 2 + x) 0 = (init maskedEnv checkerboard 2 2 Writer.fresh).masked_palette) ∧
    (∀ i, maskedEnv.maskEnabled = true → maskedIndexed.palette[i]? = some maskedEnv.maskColor →
      maskedIndexed.masked_palette = i) ∧
    ((maskedEnv.maskEnabled = false ∨ maskedEnv.maskColor ∉ maskedIndexed.palette) →
      (∀ i, i < maskedIndexed.palette_size →
        (unmaskedColors maskedEnv.masked checkerboard 2 2).count
            (maskedIndexed.palette.getD i 0) ≤
          (unmaskedColors maskedEnv.masked checkerboard 2 2).count
            (maskedIndexed.palette.getD maskedIndexed.masked_palette 0)) ∧
      (∀ i, i < maskedIndexed.masked_palette →
        (unmaskedColors maskedEnv.masked checkerboard 2 2).count
            (maskedIndexed.palette.getD i 0) <
          (unmaskedColors maskedEnv.masked checkerboard 2 2).count
            (maskedIndexed.palette.getD maskedIndexed.masked_palette 0))) ∧
    (maskedEnv.maskEnabled = false →
      distinctCount (unmaskedColors maskedEnv.masked checkerboard 2 2) = 1 →
      maskedIndexed.masked_palette = 0) ∧
    ((init maskedEnv checkerboard 2 2 Writer.fresh).masked_palette = (maskedEnv.process maskedIndexed.image 2 2 maskedIndexed.palette_size).forward maskedIndexed.masked_palette ∧
      ∀ k, k < 2 * 2 → (init maskedEnv checkerboard 2 2 Writer.fresh).image.getD k 0 = (maskedEnv.process maskedIndexed.image 2 2 maskedIndexed.palette_size).forward (maskedIndexed.image.getD k 0)) :=
  ⟨rfl, by decide, by decide, by decide, by decide,
    masked_palette_spec maskedEnv checkerboard 2 2 maskedIndexed
      (init maskedEnv checkerboard 2 2 Writer.fresh)
      (maskedEnv.process maskedIndexed.image 2 2 maskedIndexed.palette_size) rfl rfl rfl
      (by decide) (by decide) (by decide) (by decide)⟩

end GCIF.ImagePaletteWriter

namespace GCIF

/-- A loop that keeps the best key seen so far, replacing it only by a strictly
smaller one, ends with the minimum of the start key and the keys of the list;
when it replaced the start value, the value it holds is the first element of
the list with that minimal key. -/
theorem foldl_first_min {σ α β : Type} [LinearOrder β] (key : σ → β) (val : σ → α)
    (f : α → β) (step : σ → α → σ)
    (hlt : ∀ s x, f x < key s → key (step s x) = f x ∧ val (step s x) = x)
    (hge : ∀ s x, ¬ f x < key s → key (step s x) = key s ∧ val (step s x) = val s) :
    ∀ (l : List α) (s : σ),
      key (l.foldl step s) ≤ key s ∧
      (∀ x, x ∈ l → key (l.foldl step s) ≤ f x) ∧
      ((key (l.foldl step s) = key s ∧ val (l.foldl step s) = val s ∧
          ∀ x, x ∈ l → key s ≤ f x) ∨
        ∃ (i : Nat) (x : α), l[i]? = some x ∧ key (l.foldl step s) = f x ∧
          val (l.foldl step s) = x ∧
          f x < key s ∧ ∀ (j : Nat) (y : α), j < i → l[j]? = some y → f x < f y) := by
  intro l
  induction l with
  | nil =>
    intro s
    exact ⟨le_refl _, by simp, Or.inl ⟨rfl, rfl, by simp⟩⟩
  | cons a l ih =>
    intro s
    obtain ⟨h1, h2, h3⟩ := ih (step s a)
    simp only [List.foldl_cons]
    by_cases ha : f a < key s
    · obtain ⟨hk, hv⟩ := hlt s a ha
      rw [hk] at h1
      refine ⟨le_trans h1 (le_of_lt ha), ?_, Or.inr ?_⟩
      · intro x hx
        rcases List.mem_cons.1 hx with hx | hx
        · rw [hx]; exact h1
        · exact h2 x hx
      · rcases h3 with ⟨e1, e2, e3⟩ | ⟨i, x, hi, e1, e2, e3, e4⟩
        · refine ⟨0, a, by simp, by rw [e1, hk], by rw [e2, hv], ha, ?_⟩
          intro j y hj
          omega
        · rw [hk] at e3
          refine ⟨i + 1, x, by simpa using hi, e1, e2, lt_trans e3 ha, ?_⟩
          intro j y hj hy
          cases j with
          | zero =>
            simp at hy
            rw [← hy]; exact e3
          | succ j => exact e4 j y (by omega) (by simpa using hy)
    · obtain ⟨hk, hv⟩ := hge s a ha
      rw [hk] at h1
      refine ⟨h1, ?_, ?_⟩
      · intro x hx
        rcases List.mem_cons.1 hx with hx | hx
        · rw [hx]; exact le_trans h1 (not_lt.1 ha)
        · exact h2 x hx
      · rcases h3 with ⟨e1, e2, e3⟩ | ⟨i, x, hi, e1, e2, e3, e4⟩
        · refine Or.inl ⟨by rw [e1, hk], by rw [e2, hv], ?_⟩
          intro x hx
          rcases List.mem_cons.1 hx with hx | hx
          · rw [hx]; exact not_lt.1 ha
          · rw [← hk]; exact e3 x hx
        · rw [hk] at e3
          refine Or.inr ⟨i + 1, x, by simpa using hi, e1, e2, e3, ?_⟩
          intro j y hj hy
          cases j with
          | zero =>
            simp at hy
            rw [← hy]; exact lt_of_lt_of_le e3 (not_lt.1 ha)
          | succ j => exact e4 j y (by omega) (by simpa using hy)

end GCIF

namespace GCIF.ImageRGBAWriter

/-- The entropy evaluation of `designTiles` picks, for the codes it gathered
from `elems`, the first candidate pair of minimal entropy, provided there is a
candidate and no entropy exceeds the `int` range. -/
theorem designTiles_best_first_min {E : Type} (c : Consts) (ops : EntropyEstimatorOps E)
    (sfT : Nat → SafeFilter) (fb : FilterBank) (rgba : Mem) (sf_count size_x : Nat)
    (s : DesignState E) (elems : List (Nat × Nat × Nat))
    (hsf : 0 < sf_count) (hcf : 0 < c.CF_COUNT)
    (hint : ∀ cand, cand ∈ designTiles_candidates sf_count c.CF_COUNT →
      designTiles_entropy ops sfT fb rgba size_x s elems cand ≤ 0x7fffffff) :
    (designTiles_best c ops sfT fb rgba sf_count size_x s elems).1 =
      designTiles_entropy ops sfT fb rgba size_x s elems
        (designTiles_best c ops sfT fb rgba sf_count size_x s elems).2 ∧
    (∀ cand, cand ∈ designTiles_candidates sf_count c.CF_COUNT →
      designTiles_entropy ops sfT fb rgba size_x s elems
          (designTiles_best c ops sfT fb rgba sf_count size_x s elems).2 ≤
        designTiles_entropy ops sfT fb rgba size_x s elems cand) ∧
    ∃ i : Nat, (designTiles_candidates sf_count c.CF_COUNT)[i]? =
        some (designTiles_best c ops sfT fb rgba sf_count size_x s elems).2 ∧
      ∀ (j : Nat) (y : Nat × Nat), j < i →
        (designTiles_candidates sf_count c.CF_COUNT)[j]? = some y →
        designTiles_entropy ops sfT fb rgba size_x s elems
            (designTiles_best c ops sfT fb rgba sf_count size_x s elems).2 <
          designTiles_entropy ops sfT fb rgba size_x s elems y := by
  have hstep : designTiles_best c ops sfT fb rgba sf_count size_x s elems =
      (designTiles_candidates sf_count c.CF_COUNT).foldl
        (fun (best : Int × Nat × Nat) cand =>
          if designTiles_entropy ops sfT fb rgba size_x s elems cand < best.1 then
            (designTiles_entropy ops sfT fb rgba size_x s elems cand, cand) else best)
        (0x7fffffff, 0, 0) := rfl
  obtain ⟨h1, h2, h3⟩ := foldl_first_min (fun b : Int × Nat × Nat => b.1) (fun b => b.2)
    (designTiles_entropy ops sfT fb rgba size_x s elems)
    (fun (best : Int × Nat × Nat) cand =>
      if designTiles_entropy ops sfT fb rgba size_x s elems cand < best.1 then
        (designTiles_entropy ops sfT fb rgba size_x s elems cand, cand) else best)
    (fun b x h => by simp [h]) (fun b x h => by simp [h])
    (designTiles_candidates sf_count c.CF_COUNT) (0x7fffffff, 0, 0)
  rw [← hstep] at h1 h2 h3
  have hfirst : (designTiles_candidates sf_count c.CF_COUNT)[0]? = some (0, 0) := by
    unfold designTiles_candidates
    obtain ⟨n, hn⟩ := Nat.exists_eq_succ_of_ne_zero (Nat.pos_iff_ne_zero.1 hsf)
    obtain ⟨m, hm⟩ := Nat.exists_eq_succ_of_ne_zero (Nat.pos_iff_ne_zero.1 hcf)
    rw [hn, hm, List.range_succ_eq_map, List.flatMap_cons, List.range_succ_eq_map]
    simp
  have hmem0 : ((0, 0) : Nat × Nat) ∈ designTiles_candidates sf_count c.CF_COUNT :=
    List.getElem?_mem hfirst
  rcases h3 with ⟨e1, e2, e3⟩ | ⟨i, x, hi, e1, e2, _, e4⟩
  · have hv : (designTiles_best c ops sfT fb rgba sf_count size_x s elems).2 = (0, 0) := e2
    have hk : (designTiles_best c ops sfT fb rgba sf_count size_x s elems).1 = 0x7fffffff := e1
    have h0 : designTiles_entropy ops sfT fb rgba size_x s elems (0, 0) = 0x7fffffff :=
      le_antisymm (hint _ hmem0) (e3 _ hmem0)
    rw [hv, hk, h0]
    refine ⟨rfl, fun cand hc => e3 cand hc, 0, hfirst, ?_⟩
    intro j y hj
    omega
  · have hv : (designTiles_best c ops sfT fb rgba sf_count size_x s elems).2 = x := e2
    have hk : (designTiles_best c ops sfT fb rgba sf_count size_x s elems).1 =
        designTiles_entropy ops sfT fb rgba size_x s elems x := e1
    rw [hv, hk]
    refine ⟨rfl, fun cand hc => ?_, i, hi, e4⟩
    have := h2 cand hc
    rw [hk] at this
    exact this

/-- C21 (code bug): the candidate codes of a tile are gathered with `++data`
and `row += size_x`, one byte per step, not one pixel. In the unmasked 2x1
image `greenBlue` the elements read for the tile are the byte offsets 0, 1, 2
and 3, and the pair recorded is `(sf, cf) = (0, 1)`; over the two pixels of the
tile (byte offsets 0 and 4) the candidate `(0, 0)` has entropy 0 and the
recorded `(0, 1)` has entropy 5. -/
theorem designTiles_records_misread_minimum :
    tileRows (fun _ _ => false) 2 1 4 0 1 2 4 0 0 =
      [(0, 0, 0), (1, 0, 0), (2, 0, 0), (3, 0, 0)] ∧
    (∃ s1, designTiles_tile twoColourConsts (fun _ _ => false) sumEstimator pickBank.safe
        pickBank greenBlue 1 2 1 4 4 0 0 0
        (designTiles_start sumEstimator 0 ⟨fun _ => 0, fun _ => 0, 0⟩) = Flow.next s1 ∧
      s1.tiles.sf 0 = 0 ∧ s1.tiles.cf 0 = 1) ∧
    designTiles_entropy sumEstimator pickBank.safe pickBank greenBlue 2
      (designTiles_start sumEstimator 0 ⟨fun _ => 0, fun _ => 0, 0⟩)
      [(0, 0, 0), (4, 1, 0)] (0, 0) = 0 ∧
    designTiles_entropy sumEstimator pickBank.safe pickBank greenBlue 2
      (designTiles_start sumEstimator 0 ⟨fun _ => 0, fun _ => 0, 0⟩)
      [(0, 0, 0), (4, 1, 0)] (0, 1) = 5 :=
  ⟨rfl, ⟨_, rfl, rfl, rfl⟩, rfl, rfl⟩

section EstimatorsUntouched

variable {E : Type} (c : Consts) (isMasked : Nat → Nat → Bool) (ops : EntropyEstimatorOps E)
  (sfT : Nat → SafeFilter) (fb : FilterBank) (rgba : Mem)
  (sf_count size_x size_y tile_size_x tile_size_y : Nat)

/-- While `passes` is zero the body of the tile loop goes on to the next tile
and leaves the three estimators as they are: nothing is added to them. -/
theorem designTiles_tile_keeps_ee (x y topleft : Nat) (s : DesignState E)
    (h : s.passes = 0) :
    ∃ s1, designTiles_tile c isMasked ops sfT fb rgba sf_count size_x size_y tile_size_x
        tile_size_y x y topleft s = Flow.next s1 ∧ s1.passes = 0 ∧
      s1.ee0 = s.ee0 ∧ s1.ee1 = s.ee1 ∧ s1.ee2 = s.ee2 := by
  unfold designTiles_tile
  by_cases hm : s.tiles.sf s.tiles.pos = c.MASK_TILE
  · exact ⟨s, by simp [hm], h, rfl, rfl, rfl⟩
  · have hr : designTiles_revisit isMasked ops sfT fb rgba size_x size_y tile_size_x
        tile_size_y x y topleft (s.tiles.sf s.tiles.pos) (s.tiles.cf s.tiles.pos) s
        = Flow.next s := by
      simp [designTiles_revisit, h]
    simp only [hm, if_false, hr]
    exact ⟨_, rfl, h, rfl, rfl, rfl⟩

theorem designTiles_xLoop_keeps_ee (y : Nat) :
    ∀ (fuel x topleft : Nat) (s : DesignState E) (r : Nat × DesignState E), s.passes = 0 →
      designTiles_xLoop c isMasked ops sfT fb rgba sf_count size_x size_y tile_size_x
          tile_size_y y fuel x topleft s = some (Flow.next r) →
      r.2.passes = 0 ∧ r.2.ee0 = s.ee0 ∧ r.2.ee1 = s.ee1 ∧ r.2.ee2 = s.ee2 := by
  intro fuel
  induction fuel with
  | zero => intro x topleft s r _ hr; simp [designTiles_xLoop] at hr
  | succ n ih =>
    intro x topleft s r h hr
    unfold designTiles_xLoop at hr
    by_cases hx : x < size_x
    · obtain ⟨s1, h1, hp, e0, e1, e2⟩ := designTiles_tile_keeps_ee c isMasked ops sfT fb rgba
        sf_count size_x size_y tile_size_x tile_size_y x y topleft s h
      simp only [hx, if_true, h1] at hr
      obtain ⟨a, b0, b1, b2⟩ := ih _ _
        { s1 with tiles := { s1.tiles with pos := s1.tiles.pos + 1 } } r hp hr
      exact ⟨a, b0.trans e0, b1.trans e1, b2.trans e2⟩
    · simp only [hx, if_false] at hr
      cases hr
      exact ⟨h, rfl, rfl, rfl⟩

theorem designTiles_yLoop_keeps_ee :
    ∀ (fuel y topleft : Nat) (s : DesignState E) (r : Nat × DesignState E), s.passes = 0 →
      designTiles_yLoop c isMasked ops sfT fb rgba sf_count size_x size_y tile_size_x
          tile_size_y fuel y topleft s = some (Flow.next r) →
      r.2.passes = 0 ∧ r.2.ee0 = s.ee0 ∧ r.2.ee1 = s.ee1 ∧ r.2.ee2 = s.ee2 := by
  intro fuel
  induction fuel with
  | zero => intro y topleft s r _ hr; simp [designTiles_yLoop] at hr
  | succ n ih =>
    intro y topleft s r h hr
    unfold designTiles_yLoop at hr
    by_cases hy : y < size_y
    · simp only [hy, if_true] at hr
      cases hrow : designTiles_xLoop c isMasked ops sfT fb rgba sf_count size_x size_y
          tile_size_x tile_size_y y u16Fuel 0 topleft s with
      | none => simp [hrow] at hr
      | some fl =>
        cases fl with
        | done r1 => simp [hrow] at hr
        | next r1 =>
          simp only [hrow] at hr
          obtain ⟨hp, e0, e1, e2⟩ := designTiles_xLoop_keeps_ee c isMasked ops sfT fb rgba
            sf_count size_x size_y tile_size_x tile_size_y y u16Fuel 0 topleft s r1 h hrow
          obtain ⟨a, b0, b1, b2⟩ := ih _ _ _ r hp hr
          exact ⟨a, b0.trans e0, b1.trans e1, b2.trans e2⟩
    · simp only [hy, if_false] at hr
      cases hr
      exact ⟨h, rfl, rfl, rfl⟩

/-- After any number of completed sweeps started with `passes = 0` the three
estimators are those the first sweep started with. -/
theorem designTiles_sweeps_keeps_ee :
    ∀ (n : Nat) (s r : DesignState E), s.passes = 0 →
      designTiles_sweeps c isMasked ops sfT fb rgba sf_count size_x size_y tile_size_x
          tile_size_y n s = some r →
      r.passes = 0 ∧ r.ee0 = s.ee0 ∧ r.ee1 = s.ee1 ∧ r.ee2 = s.ee2 := by
  intro n
  induction n with
  | zero =>
    intro s r h hr
    simp only [designTiles_sweeps] at hr
    cases hr
    exact ⟨h, rfl, rfl, rfl⟩
  | succ n ih =>
    intro s r h hr
    unfold designTiles_sweeps at hr
    by_cases hlt : s.passes < c.MAX_PASSES
    · simp only [hlt, if_true] at hr
      cases hsw : designTiles_yLoop c isMasked ops sfT fb rgba sf_count size_x size_y
          tile_size_x tile_size_y u16Fuel 0 0 s with
      | none => simp [hsw] at hr
      | some fl =>
        cases fl with
        | done r1 => simp [hsw] at hr
        | next r1 =>
          simp only [hsw] at hr
          obtain ⟨hp, e0, e1, e2⟩ := designTiles_yLoop_keeps_ee c isMasked ops sfT fb rgba
            sf_count size_x size_y tile_size_x tile_size_y u16Fuel 0 0 s r1 h hsw
          obtain ⟨a, b0, b1, b2⟩ := ih _ r hp hr
          exact ⟨a, b0.trans e0, b1.trans e1, b2.trans e2⟩
    · simp only [hlt, if_false] at hr
      exact Option.noConfusion hr

end EstimatorsUntouched

/-- C22 (code bug): `designTiles` never adds the codes of a recorded pair to
the estimators. In a sweep with `passes = 0` the body of the tile loop leaves
`ee[0..2]` as they are, and after any number of sweeps, each of which runs to
its end, the three estimators are still as `init()` left them: every tile is
evaluated against empty histograms. -/
theorem designTiles_never_adds_codes {E : Type} (c : Consts) (isMasked : Nat → Nat → Bool)
    (ops : EntropyEstimatorOps E) (sfT : Nat → SafeFilter) (fb : FilterBank) (rgba : Mem)
    (g : Geometry) (sf_count : Nat) (revisitCount : Int) (sf0 cf0 : Mem) (t0 : TileArrays)
    (hmax : 0 < c.MAX_PASSES) (hsf : 0 < sf_count) (hcf : 0 < c.CF_COUNT)
    (hmask : maskTiles c isMasked g.size_x g.size_y g.tile_size_x g.tile_size_y sf0 cf0
      = some t0) :
    (∀ (x y topleft : Nat) (s : DesignState E), s.passes = 0 →
      ∃ s1, designTiles_tile c isMasked ops sfT fb rgba sf_count (g.size_x % 65536)
          (g.size_y % 65536) (g.tile_size_x % 65536) (g.tile_size_y % 65536) x y topleft s =
          Flow.next s1 ∧
        s1.ee0 = s.ee0 ∧ s1.ee1 = s.ee1 ∧ s1.ee2 = s.ee2) ∧
    ∀ n, ∃ s, designTiles_sweeps c isMasked ops sfT fb rgba sf_count (g.size_x % 65536)
        (g.size_y % 65536) (g.tile_size_x % 65536) (g.tile_size_y % 65536) n
        (designTiles_start ops revisitCount t0) = some s ∧
      s.passes = 0 ∧ s.ee0 = ops.init ∧ s.ee1 = ops.init ∧ s.ee2 = ops.init := by
  refine ⟨?_, ?_⟩
  · intro x y topleft s h
    obtain ⟨s1, h1, _, e0, e1, e2⟩ := designTiles_tile_keeps_ee c isMasked ops sfT fb rgba
      sf_count (g.size_x % 65536) (g.size_y % 65536) (g.tile_size_x % 65536)
      (g.tile_size_y % 65536) x y topleft s h
    exact ⟨s1, h1, e0, e1, e2⟩
  · intro n
    unfold maskTiles at hmask
    obtain ⟨r, hr, _, _⟩ := designTiles_sweeps_frame c isMasked ops sfT fb rgba sf_count
      _ _ _ _ hmax hsf hcf _ t0 hmask n (designTiles_start ops revisitCount t0) rfl
    obtain ⟨hp, e0, e1, e2⟩ := designTiles_sweeps_keeps_ee c isMasked ops sfT fb rgba sf_count
      _ _ _ _ n (designTiles_start ops revisitCount t0) r rfl hr
    exact ⟨r, hr, hp, e0, e1, e2⟩

/-- C22, witness: the 1x1 image whose pixel is not masked, with an estimator
that remembers what it is handed. -/
theorem designTiles_never_adds_codes_witness :
    (0 < sampleConsts.MAX_PASSES ∧ 0 < 4 ∧ 0 < sampleConsts.CF_COUNT ∧
      maskTiles sampleConsts (fun _ _ => false) (initGeometry 1 1).size_x
        (initGeometry 1 1).size_y (initGeometry 1 1).tile_size_x (initGeometry 1 1).tile_size_y
        (fun _ => 0) (fun _ => 0) = some oneTodoTile) ∧
    ((∀ (x y topleft : Nat) (s : DesignState (List Nat)), s.passes = 0 →
      ∃ s1, designTiles_tile sampleConsts (fun _ _ => false) listEstimator zeroBank.safe
          zeroBank (fun _ => 0) 4 ((initGeometry 1 1).size_x % 65536)
          ((initGeometry 1 1).size_y % 65536) ((initGeometry 1 1).tile_size_x % 65536)
          ((initGeometry 1 1).tile_size_y % 65536) x y topleft s = Flow.next s1 ∧
        s1.ee0 = s.ee0 ∧ s1.ee1 = s.ee1 ∧ s1.ee2 = s.ee2) ∧
    ∀ n, ∃ s, designTiles_sweeps sampleConsts (fun _ _ => false) listEstimator zeroBank.safe
        zeroBank (fun _ => 0) 4 ((initGeometry 1 1).size_x % 65536)
        ((initGeometry 1 1).size_y % 65536) ((initGeometry 1 1).tile_size_x % 65536)
        ((initGeometry 1 1).tile_size_y % 65536) n
        (designTiles_start listEstimator 0 oneTodoTile) = some s ∧
      s.passes = 0 ∧ s.ee0 = listEstimator.init ∧ s.ee1 = listEstimator.init ∧
      s.ee2 = listEstimator.init) :=
  ⟨⟨by decide, by decide, by decide, rfl⟩,
    designTiles_never_adds_codes sampleConsts (fun _ _ => false) listEstimator zeroBank.safe
      zeroBank (fun _ => 0) (initGeometry 1 1) 4 0 (fun _ => 0) (fun _ => 0) oneTodoTile
      (by decide) (by decide) (by decide) rfl⟩

/-- Two runs of the same loop from related states end in related states. -/
theorem foldl_rel {σ α : Type} (R : σ → σ → Prop) (step : σ → α → σ)
    (h : ∀ a b x, R a b → R (step a x) (step b x)) :
    ∀ (l : List α) (a b : σ), R a b → R (l.foldl step a) (l.foldl step b) := by
  intro l
  induction l with
  | nil => intro a b hab; exact hab
  | cons x l ih => intro a b hab; exact ih _ _ (h a b x hab)

theorem setEE_agree {E : Type} (k : Nat) (ee ee1 : Nat → E) (f : E → E) (j : Nat)
    (h : ∀ i, i < k → ee i = ee1 i) :
    ∀ i, i < k → setEE ee j (f (ee j)) i = setEE ee1 j (f (ee1 j)) i := by
  intro i hi
  unfold setEE
  by_cases hij : i = j
  · subst hij
    simp [h i hi]
  · simp [hij, h i hi]

/-- The simulation of `k` chaos levels leaves the estimators below `k` in a
state that does not depend on what the array `ee` held before. -/
theorem designChaos_simulate_agree {C E : Type} (ch : ChaosOps C) (ops : EntropyEstimatorOps E)
    (isMasked : Nat → Nat → Bool) (res : Mem) (g : Geometry) (ee ee1 : Nat → E) (k : Nat) :
    ∀ i, i < k → (designChaos_simulate ch ops isMasked res g ee k).ee i =
      (designChaos_simulate ch ops isMasked res g ee1 k).ee i := by
  have hpix : ∀ (y : Nat) (a b : ChaosSim C E) (x : Nat),
      (a.chaos = b.chaos ∧ a.residuals = b.residuals ∧ ∀ i, i < k → a.ee i = b.ee i) →
      ((designChaos_pixel ch ops isMasked res y a x).chaos =
          (designChaos_pixel ch ops isMasked res y b x).chaos ∧
        (designChaos_pixel ch ops isMasked res y a x).residuals =
          (designChaos_pixel ch ops isMasked res y b x).residuals ∧
        ∀ i, i < k → (designChaos_pixel ch ops isMasked res y a x).ee i =
          (designChaos_pixel ch ops isMasked res y b x).ee i) := by
    intro y a b x hab
    obtain ⟨hc, hr, he⟩ := hab
    unfold designChaos_pixel
    cases hm : isMasked x y with
    | true =>
      simp only [if_true]
      exact ⟨by rw [hc], by rw [hr], he⟩
    | false =>
      simp only [Bool.false_eq_true, if_false]
      refine ⟨by rw [hc, hr], by rw [hr], ?_⟩
      rw [← hc, ← hr]
      have h1 := setEE_agree k a.ee b.ee (fun e => ops.addSingle e (res a.residuals))
        (ch.getChaosY a.chaos) he
      have h2 := setEE_agree k _ _ (fun e => ops.addSingle e (res (a.residuals + 1)))
        (ch.getChaosU a.chaos) h1
      exact setEE_agree k _ _ (fun e => ops.addSingle e (res (a.residuals + 2)))
        (ch.getChaosV a.chaos) h2
  have hrow := foldl_rel
    (fun a b : ChaosSim C E =>
      a.chaos = b.chaos ∧ a.residuals = b.residuals ∧ ∀ i, i < k → a.ee i = b.ee i)
    (fun st y =>
      (List.range g.size_x).foldl (designChaos_pixel ch ops isMasked res y)
        { st with chaos := ch.startRow st.chaos })
    (fun a b y hab => foldl_rel _ _ (hpix y) _ _ _
      ⟨by rw [hab.1], hab.2.1, hab.2.2⟩)
    (List.range g.size_y)
    { chaos := ch.start (ch.init k g.size_x)
      ee := fun ii => if ii < k then ops.init else ee ii
      residuals := 0 }
    { chaos := ch.start (ch.init k g.size_x)
      ee := fun ii => if ii < k then ops.init else ee1 ii
      residuals := 0 }
    ⟨rfl, rfl, fun i hi => by simp [hi]⟩
  exact hrow.2.2

theorem designChaos_cost_congr {E : Type} (ops : EntropyEstimatorOps E) (ee ee1 : Nat → E)
    (k : Nat) (h : ∀ i, i < k → ee i = ee1 i) :
    designChaos_cost ops ee k = designChaos_cost ops ee1 k := by
  unfold designChaos_cost
  apply List.foldl_ext
  intro a b hb
  rw [h b (List.mem_range.1 hb)]

/-- The cost of `k` levels is the sum of the overall entropies of the `k`
estimators plus `k * 3 * 5 * 256`, reduced to a `u32`. -/
theorem designChaos_cost_eq {E : Type} (ops : EntropyEstimatorOps E) (ee : Nat → E) :
    ∀ k, (designChaos_cost ops ee k : Int) =
      (((List.range k).map (fun ii => ops.entropyOverall (ee ii))).sum + (k : Int) * 3840)
        % 4294967296 := by
  intro k
  induction k with
  | zero => simp [designChaos_cost]
  | succ n ih =>
    have hstep : designChaos_cost ops ee (n + 1) =
        (u32add (designChaos_cost ops ee n) (ops.entropyOverall (ee n)) + 3 * 5 * 256)
          % 4294967296 := by
      unfold designChaos_cost
      rw [List.range_succ, List.foldl_append]
      rfl
    have hu : ((u32add (designChaos_cost ops ee n) (ops.entropyOverall (ee n)) : Nat) : Int) =
        ((designChaos_cost ops ee n : Int) + ops.entropyOverall (ee n)) % 4294967296 := by
      unfold u32add
      exact Int.toNat_of_nonneg (Int.emod_nonneg _ (by decide))
    rw [hstep, List.range_succ, List.map_append, List.sum_append]
    simp only [List.map_cons, List.map_nil, List.sum_cons, List.sum_nil]
    push_cast
    rw [hu, ih]
    omega

/-- One step of the level loop of `designChaos`: the running best cost and
level are replaced exactly when the cost of the level is strictly lower. -/
theorem designChaos_level_best {C E : Type} (ch : ChaosOps C) (ops : EntropyEstimatorOps E)
    (isMasked : Nat → Nat → Bool) (res : Mem) (g : Geometry) (st : (Nat → E) × Nat × Nat)
    (k : Nat) :
    (designChaos_level ch ops isMasked res g st k).2 =
      if designChaos_levelCost ch ops isMasked res g k < st.2.1 then
        (designChaos_levelCost ch ops isMasked res g k, k) else st.2 := by
  have hcost : designChaos_cost ops (designChaos_simulate ch ops isMasked res g st.1 k).ee k =
      designChaos_levelCost ch ops isMasked res g k :=
    designChaos_cost_congr ops _ _ k
      (designChaos_simulate_agree ch ops isMasked res g st.1 (fun _ => ops.init) k)
  unfold designChaos_level
  simp only [hcost]
  split <;> rfl

/-- The level loop of `designChaos` in `u32` arithmetic: the recorded level is
in `[1, 15]`; when some level costs less than the start value `0x7fffffff` of
`best_entropy`, the recorded level has minimal cost and is the smallest level
with that cost, and when none does, level `1` is recorded. The cost of `k`
levels is the sum over the bins, reduced to a `u32`. -/
theorem designChaos_best_u32_first_min {C E : Type} (ch : ChaosOps C)
    (ops : EntropyEstimatorOps E) (isMasked : Nat → Nat → Bool) (res : Mem) (g : Geometry)
    (ee0 : Nat → E) :
    (1 ≤ designChaos_best MAX_CHAOS_LEVELS ch ops isMasked res g ee0 ∧ designChaos_best MAX_CHAOS_LEVELS ch ops isMasked res g ee0 ≤ 15) ∧
    ((∃ k, 1 ≤ k ∧ k ≤ 15 ∧ designChaos_levelCost ch ops isMasked res g k < 0x7fffffff) →
      ∀ k, 1 ≤ k → k ≤ 15 →
        designChaos_levelCost ch ops isMasked res g
            (designChaos_best MAX_CHAOS_LEVELS ch ops isMasked res g ee0) ≤ designChaos_levelCost ch ops isMasked res g k ∧
        (designChaos_levelCost ch ops isMasked res g k = designChaos_levelCost ch ops isMasked res g
            (designChaos_best MAX_CHAOS_LEVELS ch ops isMasked res g ee0) → designChaos_best MAX_CHAOS_LEVELS ch ops isMasked res g ee0 ≤ k)) ∧
    ((∀ k, 1 ≤ k → k ≤ 15 → 0x7fffffff ≤ designChaos_levelCost ch ops isMasked res g k) → designChaos_best MAX_CHAOS_LEVELS ch ops isMasked res g ee0 = 1) ∧
    (∀ k, (designChaos_levelCost ch ops isMasked res g k : Int) =
      (((List.range k).map (fun ii => ops.entropyOverall
          ((designChaos_simulate ch ops isMasked res g (fun _ => ops.init) k).ee ii))).sum +
        (k : Int) * 3840) % 4294967296) := by
  have hrange := designChaos_best_range MAX_CHAOS_LEVELS ch ops isMasked res g ee0
  have hM : MAX_CHAOS_LEVELS = 16 := rfl
  obtain ⟨h1, h2, h3⟩ := foldl_first_min
    (fun s : (Nat → E) × Nat × Nat => s.2.1) (fun s => s.2.2)
    (designChaos_levelCost ch ops isMasked res g) (designChaos_level ch ops isMasked res g)
    (fun s x h => by
      have := designChaos_level_best ch ops isMasked res g s x
      rw [if_pos h] at this
      show (designChaos_level ch ops isMasked res g s x).2.1 = _ ∧
        (designChaos_level ch ops isMasked res g s x).2.2 = _
      rw [this]
      exact ⟨rfl, rfl⟩)
    (fun s x h => by
      have := designChaos_level_best ch ops isMasked res g s x
      rw [if_neg h] at this
      show (designChaos_level ch ops isMasked res g s x).2.1 = s.2.1 ∧
        (designChaos_level ch ops isMasked res g s x).2.2 = s.2.2
      rw [this]
      exact ⟨rfl, rfl⟩)
    (List.range' 1 (MAX_CHAOS_LEVELS - 1)) (ee0, 0x7fffffff, 1)
  have hbest : designChaos_best MAX_CHAOS_LEVELS ch ops isMasked res g ee0 =
      ((List.range' 1 (MAX_CHAOS_LEVELS - 1)).foldl (designChaos_level ch ops isMasked res g)
        (ee0, 0x7fffffff, 1)).2.2 := rfl
  have hmem : ∀ k, 1 ≤ k → k ≤ 15 → k ∈ List.range' 1 (MAX_CHAOS_LEVELS - 1) := by
    intro k hk1 hk2
    rw [List.mem_range'_1, hM]
    omega
  refine ⟨⟨hrange.1, ?_⟩, ?_, ?_, ?_⟩
  · have := hrange.2
    rw [hM] at this
    simpa using this
  · rintro ⟨k0, hk01, hk02, hk0⟩ k hk1 hk2
    rcases h3 with ⟨_, _, e3⟩ | ⟨i, x, hi, e1, e2, _, e4⟩
    · have := e3 k0 (hmem k0 hk01 hk02)
      simp only [] at this
      omega
    · have hbx : designChaos_best MAX_CHAOS_LEVELS ch ops isMasked res g ee0 = x := by rw [hbest]; exact e2
      rw [hbx]
      have hle := h2 k (hmem k hk1 hk2)
      rw [e1] at hle
      refine ⟨hle, ?_⟩
      intro heq
      by_contra hlt
      have hilt : i < MAX_CHAOS_LEVELS - 1 := by
        rcases List.getElem?_eq_some.1 hi with ⟨hh, _⟩
        simpa using hh
      have hxi : x = 1 + i := by
        have := List.getElem?_range' 1 1 hilt
        rw [hi] at this
        simpa using this
      have hj : (List.range' 1 (MAX_CHAOS_LEVELS - 1))[k - 1]? = some k := by
        have hk3 : k - 1 < MAX_CHAOS_LEVELS - 1 := by rw [hM]; omega
        have := List.getElem?_range' 1 1 hk3
        have h5 : 1 + 1 * (k - 1) = k := by omega
        rw [this, h5]
      have := e4 (k - 1) k (by omega) hj
      omega
  · intro hall
    rcases h3 with ⟨_, e2, _⟩ | ⟨i, x, hi, _, _, e3, _⟩
    · rw [hbest]; exact e2
    · have hx := List.mem_range'_1.1 (List.getElem?_mem hi)
      rw [hM] at hx
      have := hall x hx.1 (by omega)
      simp only [] at e3
      omega
  · intro k
    exact designChaos_cost_eq ops _ k

/-- C23 (as amended): `designChaos` records a chaos level in `[1, 15]` that
minimises `cost(c) = entropyOverall(c) + c * 3 * 5 * 256` over all candidate
levels and is the smallest level of that cost, where `entropyOverall(c)` is the
sum over the `c` bins of the overall entropy of the bin's estimator, and the
single estimator of a bin pools the residual bytes of all three channels: an
unmasked pixel adds its Y byte to `ee[chaos_y]`, then its U byte to
`ee[chaos_u]`, then its V byte to `ee[chaos_v]` of the same array. The costs
are taken within the range of a non-negative `int` below `0x7fffffff`. -/
theorem designChaos_records_first_minimum {C E : Type} (ch : ChaosOps C)
    (ops : EntropyEstimatorOps E) (isMasked : Nat → Nat → Bool) (res : Mem) (g : Geometry)
    (ee0 : Nat → E)
    (hrange : ∀ k, k < 16 → 0 ≤ designChaos_sumCost ch ops isMasked res g k ∧ designChaos_sumCost ch ops isMasked res g k < 0x7fffffff) :
    (1 ≤ designChaos_best MAX_CHAOS_LEVELS ch ops isMasked res g ee0 ∧ designChaos_best MAX_CHAOS_LEVELS ch ops isMasked res g ee0 ≤ 15) ∧
    (∀ k, 1 ≤ k → k ≤ 15 →
      designChaos_sumCost ch ops isMasked res g
          (designChaos_best MAX_CHAOS_LEVELS ch ops isMasked res g ee0) ≤ designChaos_sumCost ch ops isMasked res g k ∧
      (designChaos_sumCost ch ops isMasked res g k = designChaos_sumCost ch ops isMasked res g
          (designChaos_best MAX_CHAOS_LEVELS ch ops isMasked res g ee0) → designChaos_best MAX_CHAOS_LEVELS ch ops isMasked res g ee0 ≤ k)) ∧
    (∀ (y x : Nat) (st : ChaosSim C E), isMasked x y = false →
      (designChaos_pixel ch ops isMasked res y st x).ee =
        setEE
          (setEE
            (setEE st.ee (ch.getChaosY st.chaos)
              (ops.addSingle (st.ee (ch.getChaosY st.chaos)) (res st.residuals)))
            (ch.getChaosU st.chaos)
            (ops.addSingle
              (setEE st.ee (ch.getChaosY st.chaos)
                (ops.addSingle (st.ee (ch.getChaosY st.chaos)) (res st.residuals))
                (ch.getChaosU st.chaos))
              (res (st.residuals + 1))))
          (ch.getChaosV st.chaos)
          (ops.addSingle
            (setEE
              (setEE st.ee (ch.getChaosY st.chaos)
                (ops.addSingle (st.ee (ch.getChaosY st.chaos)) (res st.residuals)))
              (ch.getChaosU st.chaos)
              (ops.addSingle
                (setEE st.ee (ch.getChaosY st.chaos)
                  (ops.addSingle (st.ee (ch.getChaosY st.chaos)) (res st.residuals))
                  (ch.getChaosU st.chaos))
                (res (st.residuals + 1)))
              (ch.getChaosV st.chaos))
            (res (st.residuals + 2)))) := by
  obtain ⟨hb, hmin, _, hcost⟩ := designChaos_best_u32_first_min ch ops isMasked res g ee0
  have hcast : ∀ k, k < 16 →
      (designChaos_levelCost ch ops isMasked res g k : Int) = designChaos_sumCost ch ops isMasked res g k := by
    intro k hk
    obtain ⟨h0, h1⟩ := hrange k hk
    rw [hcost k]
    show designChaos_sumCost ch ops isMasked res g k % 4294967296 =
      designChaos_sumCost ch ops isMasked res g k
    exact Int.emod_eq_of_lt h0 (by omega)
  have hlow : ∀ k, k < 16 → designChaos_levelCost ch ops isMasked res g k < 0x7fffffff := by
    intro k hk
    have := hcast k hk
    have := (hrange k hk).2
    omega
  refine ⟨hb, ?_, ?_⟩
  · intro k hk1 hk2
    obtain ⟨hle, htie⟩ := hmin ⟨1, le_refl _, by omega, hlow 1 (by omega)⟩ k hk1 hk2
    have hcb := hcast (designChaos_best MAX_CHAOS_LEVELS ch ops isMasked res g ee0) (by omega)
    have hck := hcast k (by omega)
    refine ⟨by omega, ?_⟩
    intro heq
    exact htie (by omega)
  · intro y x st hm
    unfold designChaos_pixel
    simp only [hm, Bool.false_eq_true, if_false]

/-- C23, witness: the 2x1 image with residuals `(1, 0, 0)` and `(5, 1, 5)`, the
bins taken from the left neighbour. -/
theorem designChaos_records_first_minimum_witness :
    (∀ k, k < 16 → 0 ≤ designChaos_sumCost leftChaos distinctEstimator (fun _ _ => false)
        twoPixelResiduals (initGeometry 2 1) k ∧ designChaos_sumCost leftChaos distinctEstimator (fun _ _ => false)
        twoPixelResiduals (initGeometry 2 1) k < 0x7fffffff) ∧
    ((1 ≤ (designChaos_best MAX_CHAOS_LEVELS leftChaos distinctEstimator (fun _ _ => false)
        twoPixelResiduals (initGeometry 2 1) (fun _ => [])) ∧ (designChaos_best MAX_CHAOS_LEVELS leftChaos distinctEstimator (fun _ _ => false)
        twoPixelResiduals (initGeometry 2 1) (fun _ => [])) ≤ 15) ∧
    (∀ k, 1 ≤ k → k ≤ 15 →
      designChaos_sumCost leftChaos distinctEstimator (fun _ _ => false)
        twoPixelResiduals (initGeometry 2 1) (designChaos_best MAX_CHAOS_LEVELS leftChaos distinctEstimator (fun _ _ => false)
        twoPixelResiduals (initGeometry 2 1) (fun _ => [])) ≤ designChaos_sumCost leftChaos distinctEstimator (fun _ _ => false)
        twoPixelResiduals (initGeometry 2 1) k ∧
      (designChaos_sumCost leftChaos distinctEstimator (fun _ _ => false)
        twoPixelResiduals (initGeometry 2 1) k = designChaos_sumCost leftChaos distinctEstimator (fun _ _ => false)
        twoPixelResiduals (initGeometry 2 1) (designChaos_best MAX_CHAOS_LEVELS leftChaos distinctEstimator (fun _ _ => false)
        twoPixelResiduals (initGeometry 2 1) (fun _ => [])) → (designChaos_best MAX_CHAOS_LEVELS leftChaos distinctEstimator (fun _ _ => false)
        twoPixelResiduals (initGeometry 2 1) (fun _ => [])) ≤ k)) ∧
    (∀ (y x : Nat) (st : ChaosSim (Nat × Nat × Nat × Nat) (List Nat)),
      (fun _ _ => false : Nat → Nat → Bool) x y = false →
      (designChaos_pixel leftChaos distinctEstimator (fun _ _ => false) twoPixelResiduals
          y st x).ee =
        setEE
          (setEE
            (setEE st.ee (leftChaos.getChaosY st.chaos)
              (distinctEstimator.addSingle (st.ee (leftChaos.getChaosY st.chaos))
                (twoPixelResiduals st.residuals)))
            (leftChaos.getChaosU st.chaos)
            (distinctEstimator.addSingle
              (setEE st.ee (leftChaos.getChaosY st.chaos)
                (distinctEstimator.addSingle (st.ee (leftChaos.getChaosY st.chaos))
                  (twoPixelResiduals st.residuals))
                (leftChaos.getChaosU st.chaos))
              (twoPixelResiduals (st.residuals + 1))))
          (leftChaos.getChaosV st.chaos)
          (distinctEstimator.addSingle
            (setEE
              (setEE st.ee (leftChaos.getChaosY st.chaos)
                (distinctEstimator.addSingle (st.ee (leftChaos.getChaosY st.chaos))
                  (twoPixelResiduals st.residuals)))
              (leftChaos.getChaosU st.chaos)
              (distinctEstimator.addSingle
                (setEE st.ee (leftChaos.getChaosY st.chaos)
                  (distinctEstimator.addSingle (st.ee (leftChaos.getChaosY st.chaos))
                    (twoPixelResiduals st.residuals))
                  (leftChaos.getChaosU st.chaos))
                (twoPixelResiduals (st.residuals + 1)))
              (leftChaos.getChaosV st.chaos))
            (twoPixelResiduals (st.residuals + 2))))) :=
  ⟨by decide,
    designChaos_records_first_minimum leftChaos distinctEstimator (fun _ _ => false)
      twoPixelResiduals (initGeometry 2 1) (fun _ => []) (by decide)⟩

/-- C23, counterexample: the 2x1 image with residuals `(1, 0, 0)` and
`(5, 1, 5)`, the bins taken from the left neighbour. `designChaos` records
level 1, whose pooled cost `23840` is below the pooled cost `27680` of level 2;
tallied separately per channel and per bin, level 1 costs `33840` and level 2
costs `27680`, so the recorded level does not minimise the per-channel cost. -/
theorem designChaos_not_per_channel_minimum :
    designChaos_best MAX_CHAOS_LEVELS leftChaos distinctEstimator (fun _ _ => false)
      twoPixelResiduals (initGeometry 2 1) (fun _ => []) = 1 ∧
    designChaos_levelCost leftChaos distinctEstimator (fun _ _ => false) twoPixelResiduals
      (initGeometry 2 1) 1 = 23840 ∧
    designChaos_levelCost leftChaos distinctEstimator (fun _ _ => false) twoPixelResiduals
      (initGeometry 2 1) 2 = 27680 ∧
    perChannel_cost leftChaos distinctEstimator (fun _ _ => false) twoPixelResiduals
      (initGeometry 2 1) 1 = 33840 ∧
    perChannel_cost leftChaos distinctEstimator (fun _ _ => false) twoPixelResiduals
      (initGeometry 2 1) 2 = 27680 ∧
    perChannel_cost leftChaos distinctEstimator (fun _ _ => false) twoPixelResiduals
        (initGeometry 2 1) 2 <
      perChannel_cost leftChaos distinctEstimator (fun _ _ => false) twoPixelResiduals
        (initGeometry 2 1)
        (designChaos_best MAX_CHAOS_LEVELS leftChaos distinctEstimator (fun _ _ => false)
          twoPixelResiduals (initGeometry 2 1) (fun _ => [])) := by
  refine ⟨by decide, by decide, by decide, by decide, by decide, by decide⟩

/-- Two loops over the same list, started in related states, end in related
states. -/
theorem foldl_rel2 {σ τ α : Type} (R : σ → τ → Prop) (f : σ → α → σ) (g : τ → α → τ)
    (h : ∀ a b x, R a b → R (f a x) (g b x)) :
    ∀ (l : List α) (a : σ) (b : τ), R a b → R (l.foldl f a) (l.foldl g b) := by
  intro l
  induction l with
  | nil => intro a b hab; exact hab
  | cons x l ih => intro a b hab; exact ih _ _ (h a b x hab)

/-- The walks of `writePixels` and `initializeEncoders` stay in step: same
chaos context, same residual pointer, and the same sequence of
(encoder, byte) pairs handed to the entropy encoders. -/
theorem writePixels_train_agree {C : Type} (ch : ChaosOps C) (isMasked : Nat → Nat → Bool)
    (res : Mem) (g : Geometry) (chaos : C) :
    ((List.range g.size_y).foldl
        (writePixels_row ch isMasked res g.size_x ((g.tile_size_y + 65535) % 65536))
        { chaos := ch.start chaos, residuals := 0, calls := [] }).calls.filterMap
        Call.residualUse =
      (initializeEncoders_train ch isMasked res g chaos).calls.filterMap Call.residualUse := by
  have hpix : ∀ (y : Nat) (a b : PixelState C) (x : Nat),
      (a.chaos = b.chaos ∧ a.residuals = b.residuals ∧
        a.calls.filterMap Call.residualUse = b.calls.filterMap Call.residualUse) →
      ((writePixels_pixel ch isMasked res y a x).chaos =
          (initializeEncoders_pixel ch isMasked res y b x).chaos ∧
        (writePixels_pixel ch isMasked res y a x).residuals =
          (initializeEncoders_pixel ch isMasked res y b x).residuals ∧
        (writePixels_pixel ch isMasked res y a x).calls.filterMap Call.residualUse =
          (initializeEncoders_pixel ch isMasked res y b x).calls.filterMap
            Call.residualUse) := by
    intro y a b x hab
    obtain ⟨hc, hr, hcalls⟩ := hab
    unfold writePixels_pixel initializeEncoders_pixel
    cases hm : isMasked x y with
    | true =>
      simp only [if_true]
      exact ⟨by rw [hc], by rw [hr], hcalls⟩
    | false =>
      simp only [Bool.false_eq_true, if_false]
      refine ⟨by rw [hc, hr], by rw [hr], ?_⟩
      rw [List.filterMap_append, List.filterMap_append, hcalls, hc, hr]
      rfl
  have hrow := foldl_rel2
    (fun a b : PixelState C =>
      a.chaos = b.chaos ∧ a.residuals = b.residuals ∧
        a.calls.filterMap Call.residualUse = b.calls.filterMap Call.residualUse)
    (writePixels_row ch isMasked res g.size_x ((g.tile_size_y + 65535) % 65536))
    (fun st y =>
      (List.range g.size_x).foldl (initializeEncoders_pixel ch isMasked res y)
        { st with chaos := ch.startRow st.chaos })
    (fun a b y hab => by
      unfold writePixels_row
      refine foldl_rel2 _ _ _ (hpix y) _ _ _ ?_
      by_cases ht : y &&& ((g.tile_size_y + 65535) % 65536) = 0
      · simp only [ht, if_true]
        refine ⟨by rw [hab.1], hab.2.1, ?_⟩
        rw [List.filterMap_append, hab.2.2]
        simp [Call.residualUse]
      · simp only [ht, if_false]
        exact ⟨by rw [hab.1], hab.2.1, hab.2.2⟩)
    (List.range g.size_y)
    { chaos := ch.start chaos, residuals := 0, calls := [] }
    { chaos := ch.start chaos, residuals := 0, calls := [] }
    ⟨rfl, rfl, rfl⟩
  exact hrow.2.2

/-- C24 (code bug): `initializeEncoders` and `writePixels` walk the residual
matrix in step, so the sequence of (encoder of the bin, residual byte) pairs the
first trains with is the sequence the second computes; but `writePixels` hands
each of them to `add` again, after `finalize`: no entropy encoder `write` is
among its calls, so no residual byte is emitted. -/
theorem chaos_walks_agree_without_emission {C : Type} (ch : ChaosOps C)
    (isMasked : Nat → Nat → Bool) (res : Mem) (g : Geometry) (chaos : C) :
    (writePixels ch isMasked res g chaos).filterMap Call.residualUse =
      (initializeEncoders ch isMasked res g chaos).filterMap Call.residualUse ∧
    (∀ e sym, Call.encWrite e sym ∉ writePixels ch isMasked res g chaos) ∧
    (∀ e sym, (e, sym) ∈ (writePixels ch isMasked res g chaos).filterMap Call.residualUse →
      Call.encAdd e sym ∈ writePixels ch isMasked res g chaos) := by
  have hno := writePixels_no_encWrite ch isMasked res g chaos
  refine ⟨?_, hno, ?_⟩
  · unfold writePixels initializeEncoders
    rw [List.filterMap_append, writePixels_train_agree]
    have hfin : ((List.range (ch.getBinCount
        (initializeEncoders_train ch isMasked res g chaos).chaos)).flatMap
        (fun ii => [Call.encFinalize (Encoder.Y ii), Call.encFinalize (Encoder.U ii),
          Call.encFinalize (Encoder.V ii)])).filterMap Call.residualUse = [] := by
      rw [List.filterMap_eq_nil_iff]
      intro a ha
      rw [List.mem_flatMap] at ha
      obtain ⟨ii, _, hii⟩ := ha
      simp only [List.mem_cons, List.mem_singleton, List.not_mem_nil, or_false] at hii
      rcases hii with h | h | h <;> rw [h] <;> rfl
    rw [hfin, List.append_nil]
  · intro e sym hmem
    rw [List.mem_filterMap] at hmem
    obtain ⟨a, ha, hu⟩ := hmem
    cases a with
    | encAdd e1 s1 =>
      simp only [Call.residualUse, Option.some.injEq, Prod.mk.injEq] at hu
      rw [← hu.1, ← hu.2]
      exact ha
    | encWrite e1 s1 => exact absurd ha (hno e1 s1)
    | writeBits v n => simp [Call.residualUse] at hu
    | encFinalize e1 => simp [Call.residualUse] at hu
    | encWriteTables e1 => simp [Call.residualUse] at hu
    | monoWriteTables m => simp [Call.residualUse] at hu
    | monoWriteRowHeader m y => simp [Call.residualUse] at hu
    | monoWrite m x y => simp [Call.residualUse] at hu

end GCIF.ImageRGBAWriter

namespace GCIF.LZMatchFinder

/-- The expression in the body of `HashPixels` is the hash the header comment
describes: the two pixels packed into 64 bits, times `HASH_MULT` modulo `2^64`,
shifted right by 46 bits; it is below `2^18`. -/
theorem HashPixels_expr_spec (p0 p1 : Nat) (h0 : p0 < 4294967296) (h1 : p1 < 4294967296) :
    HashPixels_expr p0 p1 =
      ((p0 * 4294967296 + p1) * HASH_MULT % 18446744073709551616) / 70368744177664 ∧
    HashPixels_expr p0 p1 < 262144 := by
  have hpack : ((p0 % 4294967296) <<< 32) % 18446744073709551616 ||| (p1 % 4294967296) =
      p0 * 4294967296 + p1 := by
    rw [Nat.mod_eq_of_lt h0, Nat.mod_eq_of_lt h1, Nat.shiftLeft_eq]
    have hlt : p0 * 2 ^ 32 < 18446744073709551616 := by omega
    rw [Nat.mod_eq_of_lt hlt]
    have := Nat.mul_add_lt_is_or (i := 32) (b := p1) (by omega) p0
    rw [Nat.mul_comm (2 ^ 32) p0] at this
    rw [← this]
  have hval : HashPixels_expr p0 p1 =
      ((p0 * 4294967296 + p1) * HASH_MULT % 18446744073709551616) / 70368744177664 := by
    unfold HashPixels_expr
    rw [hpack, Nat.shiftRight_eq_div_pow]
    have hb : 64 - HASH_BITS = 46 := rfl
    rw [hb]
    have h46 : (2 : Nat) ^ 46 = 70368744177664 := by norm_num
    rw [h46]
    apply Nat.mod_eq_of_lt
    omega
  refine ⟨hval, ?_⟩
  rw [hval]
  omega

/-- C25 (code bug): `HashPixels` has no `return` statement. What its caller
receives does not depend on the pixels: it is the same for the pixel pairs
`(0, 1)` and `(0, 0)`, whose hashes differ, and it need not be below `2^18`. -/
theorem HashPixels_returns_nothing :
    (∀ junk p0 p1, HashPixels junk p0 p1 = junk % 4294967296) ∧
    HashPixels_expr 0 1 ≠ HashPixels_expr 0 0 ∧
    (∀ junk, HashPixels junk 0 1 = HashPixels junk 0 0) ∧
    HashPixels 262144 0 0 = 262144 :=
  ⟨fun _ _ _ => rfl, by decide, fun _ => rfl, by decide⟩

end GCIF.LZMatchFinder

namespace GCIF.ImageRGBAWriter

section MaskTilesGrid

variable (c : Consts) (isMasked : Nat → Nat → Bool) (size_x size_y tsx tsy : Nat)

/-- A tile row of `maskTiles` whose counter `x` passes the image width after
`n` more tiles without wrapping: the loop ends, having written the entries of
these `n` tiles, in order, at the `n` positions from the tile pointer on, and
nothing else. -/
theorem maskTiles_xLoop_run (y : Nat) :
    ∀ (n fuel x : Nat) (t : TileArrays), n < fuel → size_x ≤ x + n * tsx →
      (∀ j, j < n → x + j * tsx < size_x) → x + n * tsx < 65536 →
      ∃ t1, maskTiles_xLoop c isMasked size_x size_y tsx tsy y fuel x t = some t1 ∧
        t1.pos = t.pos + n ∧
        (∀ j, j < n →
          t1.sf (t.pos + j) = maskTiles_entry c isMasked size_x size_y tsx tsy (x + j * tsx) y ∧
          t1.cf (t.pos + j) = maskTiles_entry c isMasked size_x size_y tsx tsy (x + j * tsx) y) ∧
        (∀ p, p < t.pos ∨ t.pos + n ≤ p → t1.sf p = t.sf p ∧ t1.cf p = t.cf p) := by
  intro n
  induction n with
  | zero =>
    intro fuel x t hf hge _ _
    obtain ⟨f, rfl⟩ := Nat.exists_eq_succ_of_ne_zero (Nat.pos_iff_ne_zero.1 hf)
    have hx : ¬ x < size_x := by omega
    refine ⟨t, by simp [maskTiles_xLoop, hx], rfl, fun j hj => by omega, fun _ _ => ⟨rfl, rfl⟩⟩
  | succ n ih =>
    intro fuel x t hf hge hlt hw
    obtain ⟨f, rfl⟩ := Nat.exists_eq_succ_of_ne_zero (Nat.pos_iff_ne_zero.1 (by omega : 0 < fuel))
    have hsm : (n + 1) * tsx = n * tsx + tsx := Nat.succ_mul n tsx
    have hx : x < size_x := by
      have := hlt 0 (by omega)
      simpa using this
    have hmod : (x + tsx) % 65536 = x + tsx := Nat.mod_eq_of_lt (by omega)
    obtain ⟨t1, h1, hpos, hent, hframe⟩ := ih f (x + tsx)
      { sf := t.sf.set t.pos (maskTiles_entry c isMasked size_x size_y tsx tsy x y),
        cf := t.cf.set t.pos (maskTiles_entry c isMasked size_x size_y tsx tsy x y),
        pos := t.pos + 1 }
      (by omega) (by omega)
      (fun j hj => by
        have := hlt (j + 1) (by omega)
        have hjm : (j + 1) * tsx = j * tsx + tsx := Nat.succ_mul j tsx
        omega)
      (by omega)
    refine ⟨t1, ?_, ?_, ?_, ?_⟩
    · unfold maskTiles_xLoop
      simp only [hx, if_true, hmod]
      exact h1
    · simp only [] at hpos
      omega
    · intro j hj
      cases j with
      | zero =>
        have hf0 := hframe t.pos (Or.inl (by simp))
        simp only [Nat.add_zero, Nat.zero_mul]
        rw [hf0.1, hf0.2]
        simp [Mem.set]
      | succ j =>
        have he := hent j (by omega)
        have hjm : (j + 1) * tsx = j * tsx + tsx := Nat.succ_mul j tsx
        have ha : t.pos + (j + 1) = t.pos + 1 + j := by omega
        have hb : x + (j + 1) * tsx = x + tsx + j * tsx := by omega
        rw [ha, hb]
        exact he
    · intro p hp
      have hp1 : p < t.pos + 1 ∨ t.pos + 1 + n ≤ p := by
        rcases hp with hp | hp
        · left; omega
        · right; omega
      have hf1 := hframe p hp1
      have hne : p ≠ t.pos := by
        rcases hp with hp | hp <;> omega
      rw [hf1.1, hf1.2]
      simp [Mem.set, hne]

/-- The tile loops of `maskTiles` when neither counter wraps: `m` tile rows of
`n` tiles each are written in row-major order from the tile pointer on, and
nothing else is written. -/
theorem maskTiles_yLoop_run (n : Nat) (hn : n < u16Fuel) (hx0 : size_x ≤ n * tsx)
    (hx1 : ∀ j, j < n → j * tsx < size_x) (hx2 : n * tsx < 65536) :
    ∀ (m fuel y : Nat) (t : TileArrays), m < fuel → size_y ≤ y + m * tsy →
      (∀ r, r < m → y + r * tsy < size_y) → y + m * tsy < 65536 →
      ∃ t1, maskTiles_yLoop c isMasked size_x size_y tsx tsy fuel y t = some t1 ∧
        t1.pos = t.pos + m * n ∧
        (∀ r j, r < m → j < n →
          t1.sf (t.pos + r * n + j) =
            maskTiles_entry c isMasked size_x size_y tsx tsy (j * tsx) (y + r * tsy) ∧
          t1.cf (t.pos + r * n + j) =
            maskTiles_entry c isMasked size_x size_y tsx tsy (j * tsx) (y + r * tsy)) ∧
        (∀ p, p < t.pos ∨ t.pos + m * n ≤ p → t1.sf p = t.sf p ∧ t1.cf p = t.cf p) := by
  intro m
  induction m with
  | zero =>
    intro fuel y t hf hge _ _
    obtain ⟨f, rfl⟩ := Nat.exists_eq_succ_of_ne_zero (Nat.pos_iff_ne_zero.1 hf)
    have hy : ¬ y < size_y := by omega
    refine ⟨t, by simp [maskTiles_yLoop, hy], by simp, fun r j hr => by omega,
      fun _ _ => ⟨rfl, rfl⟩⟩
  | succ m ih =>
    intro fuel y t hf hge hlt hw
    obtain ⟨f, rfl⟩ := Nat.exists_eq_succ_of_ne_zero (Nat.pos_iff_ne_zero.1 (by omega : 0 < fuel))
    have hsm : (m + 1) * tsy = m * tsy + tsy := Nat.succ_mul m tsy
    have hsn : (m + 1) * n = m * n + n := Nat.succ_mul m n
    have hy : y < size_y := by
      have := hlt 0 (by omega)
      simpa using this
    have hmod : (y + tsy) % 65536 = y + tsy := Nat.mod_eq_of_lt (by omega)
    obtain ⟨t1, h1, hpos1, hent1, hframe1⟩ := maskTiles_xLoop_run c isMasked size_x size_y
      tsx tsy y n u16Fuel 0 t hn (by simpa using hx0) (by simpa using hx1) (by simpa using hx2)
    obtain ⟨t2, h2, hpos2, hent2, hframe2⟩ := ih f (y + tsy) t1
      (by omega) (by omega)
      (fun r hr => by
        have := hlt (r + 1) (by omega)
        have hrm : (r + 1) * tsy = r * tsy + tsy := Nat.succ_mul r tsy
        omega)
      (by omega)
    refine ⟨t2, ?_, ?_, ?_, ?_⟩
    · unfold maskTiles_yLoop
      simp only [hy, if_true, h1, hmod]
      exact h2
    · omega
    · intro r j hr hj
      cases r with
      | zero =>
        have hf2 := hframe2 (t.pos + j) (Or.inl (by omega))
        have he1 := hent1 j hj
        simp only [Nat.zero_mul, Nat.add_zero, Nat.zero_add] at he1 ⊢
        rw [hf2.1, hf2.2]
        exact he1
      | succ r =>
        have he2 := hent2 r j (by omega) hj
        have hrn : (r + 1) * n = r * n + n := Nat.succ_mul r n
        have hrm : (r + 1) * tsy = r * tsy + tsy := Nat.succ_mul r tsy
        have ha : t.pos + (r + 1) * n + j = t1.pos + r * n + j := by omega
        have hb : y + (r + 1) * tsy = y + tsy + r * tsy := by omega
        rw [ha, hb]
        exact he2
    · intro p hp
      have hp2 : p < t1.pos ∨ t1.pos + m * n ≤ p := by
        rcases hp with hp | hp
        · left; omega
        · right; omega
      have hp1 : p < t.pos ∨ t.pos + n ≤ p := by
        rcases hp with hp | hp
        · left; exact hp
        · right; omega
      have hf2 := hframe2 p hp2
      have hf1 := hframe1 p hp1
      rw [hf2.1, hf2.2]
      exact hf1

end MaskTilesGrid

/-- C26: for an image of width `W` and height `H` in `[1, 4096]`, `init` sets
`_tiles_x = ⌈W/4⌉` and `_tiles_y = ⌈H/4⌉`; `maskTiles` returns after writing
`_tiles_x * _tiles_y` entries to each of `_sf_tiles` and `_cf_tiles`: the entry
of tile `(tx, ty)` is at position `ty * _tiles_x + tx`, and no position from
`_tiles_x * _tiles_y` on is written. -/
theorem maskTiles_fills_grid (c : Consts) (isMasked : Nat → Nat → Bool) (W H : Nat)
    (sf0 cf0 : Mem) (hW1 : 1 ≤ W) (hW2 : W ≤ 4096) (hH1 : 1 ≤ H) (hH2 : H ≤ 4096) :
    ((initGeometry W H).tiles_x = (W + 3) / 4 ∧ 4 * ((initGeometry W H).tiles_x - 1) < W ∧ W ≤ 4 * (initGeometry W H).tiles_x) ∧
    ((initGeometry W H).tiles_y = (H + 3) / 4 ∧ 4 * ((initGeometry W H).tiles_y - 1) < H ∧ H ≤ 4 * (initGeometry W H).tiles_y) ∧
    ∃ t, maskTiles c isMasked (initGeometry W H).size_x (initGeometry W H).size_y (initGeometry W H).tile_size_x (initGeometry W H).tile_size_y sf0 cf0
        = some t ∧
      t.pos = (initGeometry W H).tiles_x * (initGeometry W H).tiles_y ∧
      (∀ ty tx, ty < (initGeometry W H).tiles_y → tx < (initGeometry W H).tiles_x →
        t.sf (ty * (initGeometry W H).tiles_x + tx) = maskTiles_entry c isMasked W H 4 4 (4 * tx) (4 * ty) ∧
        t.cf (ty * (initGeometry W H).tiles_x + tx) = maskTiles_entry c isMasked W H 4 4 (4 * tx) (4 * ty)) ∧
      (∀ p, (initGeometry W H).tiles_x * (initGeometry W H).tiles_y ≤ p → t.sf p = sf0 p ∧ t.cf p = cf0 p) := by
  have htx : (initGeometry W H).tiles_x = (W + 3) / 4 := by
    simp [initGeometry, Nat.shiftRight_eq_div_pow]
  have hty : (initGeometry W H).tiles_y = (H + 3) / 4 := by
    simp [initGeometry, Nat.shiftRight_eq_div_pow]
  have hsx : (initGeometry W H).size_x % 65536 = W := Nat.mod_eq_of_lt (by show W < 65536; omega)
  have hsy : (initGeometry W H).size_y % 65536 = H := Nat.mod_eq_of_lt (by show H < 65536; omega)
  have htsx : (initGeometry W H).tile_size_x % 65536 = 4 := rfl
  have htsy : (initGeometry W H).tile_size_y % 65536 = 4 := rfl
  obtain ⟨t, ht, hpos, hent, hframe⟩ := maskTiles_yLoop_run c isMasked W H 4 4 ((W + 3) / 4)
    (by unfold u16Fuel; omega) (by omega) (fun j hj => by omega) (by omega)
    ((H + 3) / 4) u16Fuel 0 { sf := sf0, cf := cf0, pos := 0 }
    (by unfold u16Fuel; omega) (by omega) (fun r hr => by omega) (by omega)
  rw [htx, hty]
  refine ⟨⟨rfl, by omega, by omega⟩, ⟨rfl, by omega, by omega⟩, t, ?_, ?_, ?_, ?_⟩
  · unfold maskTiles
    rw [hsx, hsy, htsx, htsy]
    exact ht
  · simp only [Nat.zero_add] at hpos
    rw [hpos, Nat.mul_comm]
  · intro ty tx hy hx
    have := hent ty tx hy hx
    simp only [Nat.zero_add] at this
    rw [Nat.mul_comm 4 tx, Nat.mul_comm 4 ty]
    exact this
  · intro p hp
    have := hframe p (Or.inr (by
      simp only [Nat.zero_add]
      rw [Nat.mul_comm]
      exact hp))
    exact this

/-- C26, witness: the 5x9 image, a grid of 2x3 tiles. -/
theorem maskTiles_fills_grid_witness :
    (1 ≤ 5 ∧ 5 ≤ 4096 ∧ 1 ≤ 9 ∧ 9 ≤ 4096) ∧
    (((initGeometry 5 9).tiles_x = (5 + 3) / 4 ∧ 4 * ((initGeometry 5 9).tiles_x - 1) < 5 ∧
        5 ≤ 4 * (initGeometry 5 9).tiles_x) ∧
      ((initGeometry 5 9).tiles_y = (9 + 3) / 4 ∧ 4 * ((initGeometry 5 9).tiles_y - 1) < 9 ∧
        9 ≤ 4 * (initGeometry 5 9).tiles_y) ∧
      ∃ t, maskTiles sampleConsts (fun x y => decide (x + y < 4)) (initGeometry 5 9).size_x
          (initGeometry 5 9).size_y (initGeometry 5 9).tile_size_x
          (initGeometry 5 9).tile_size_y (fun _ => 7) (fun _ => 7) = some t ∧
        t.pos = (initGeometry 5 9).tiles_x * (initGeometry 5 9).tiles_y ∧
        (∀ ty tx, ty < (initGeometry 5 9).tiles_y → tx < (initGeometry 5 9).tiles_x →
          t.sf (ty * (initGeometry 5 9).tiles_x + tx) =
            maskTiles_entry sampleConsts (fun x y => decide (x + y < 4)) 5 9 4 4
              (4 * tx) (4 * ty) ∧
          t.cf (ty * (initGeometry 5 9).tiles_x + tx) =
            maskTiles_entry sampleConsts (fun x y => decide (x + y < 4)) 5 9 4 4
              (4 * tx) (4 * ty)) ∧
        (∀ p, (initGeometry 5 9).tiles_x * (initGeometry 5 9).tiles_y ≤ p →
          t.sf p = (fun _ => 7) p ∧ t.cf p = (fun _ => 7) p)) :=
  ⟨⟨by decide, by decide, by decide, by decide⟩,
    maskTiles_fills_grid sampleConsts (fun x y => decide (x + y < 4)) 5 9 (fun _ => 7)
      (fun _ => 7) (by decide) (by decide) (by decide) (by decide)⟩

/-- With a tile size of 4 and a width above 65532 the counter `x` of a tile row
of `maskTiles` wraps from 65532 to 0 and never reaches the width: the loop has
not ended after any number of steps. -/
theorem maskTiles_xLoop_wraps (c : Consts) (isMasked : Nat → Nat → Bool)
    (size_x size_y tsy y : Nat) (hsize : 65532 < size_x) :
    ∀ (fuel x : Nat) (t : TileArrays), x % 4 = 0 → x < 65536 →
      maskTiles_xLoop c isMasked size_x size_y 4 tsy y fuel x t = none := by
  intro fuel
  induction fuel with
  | zero => intro x t _ _; rfl
  | succ n ih =>
    intro x t h4 hx
    unfold maskTiles_xLoop
    have hlt : x < size_x := by omega
    simp only [hlt, if_true]
    exact ih _ _ (by omega) (Nat.mod_lt _ (by decide))

/-- With a tile size of 4 and a height above 65532 the counter `y` of
`maskTiles` wraps from 65532 to 0: whether or not the tile rows end, the loop
over `y` has not ended after any number of steps. -/
theorem maskTiles_yLoop_wraps (c : Consts) (isMasked : Nat → Nat → Bool)
    (size_x size_y tsx : Nat) (hsize : 65532 < size_y) :
    ∀ (fuel y : Nat) (t : TileArrays), y % 4 = 0 → y < 65536 →
      maskTiles_yLoop c isMasked size_x size_y tsx 4 fuel y t = none := by
  intro fuel
  induction fuel with
  | zero => intro y t _ _; rfl
  | succ n ih =>
    intro y t h4 hy
    unfold maskTiles_yLoop
    have hlt : y < size_y := by omega
    simp only [hlt, if_true]
    cases maskTiles_xLoop c isMasked size_x size_y tsx 4 y u16Fuel 0 t with
    | none => rfl
    | some t1 => exact ih _ _ (by omega) (Nat.mod_lt _ (by decide))

/-- With the tile size 4 and sizes up to 65532 neither counter of `maskTiles`
wraps, and `maskTiles` returns. -/
theorem maskTiles_returns_upto_65532 (c : Consts) (isMasked : Nat → Nat → Bool) (W H : Nat)
    (sf0 cf0 : Mem) (hW : W ≤ 65532) (hH : H ≤ 65532) :
    ∃ t, maskTiles c isMasked W H 4 4 sf0 cf0 = some t := by
  obtain ⟨t, ht, _⟩ := maskTiles_yLoop_run c isMasked W H 4 4 ((W + 3) / 4)
    (by unfold u16Fuel; omega) (by omega) (fun j hj => by omega) (by omega)
    ((H + 3) / 4) u16Fuel 0 { sf := sf0, cf := cf0, pos := 0 }
    (by unfold u16Fuel; omega) (by omega) (fun r hr => by omega) (by omega)
  refine ⟨t, ?_⟩
  unfold maskTiles
  have hsx : W % 65536 = W := Nat.mod_eq_of_lt (by omega)
  have hsy : H % 65536 = H := Nat.mod_eq_of_lt (by omega)
  rw [hsx, hsy]
  exact ht

/-- C30 (code bug): for the widths and heights 65533, 65534 and 65535, which
the data model allows, `maskTiles` does not terminate. In the 65533x1 image the
`u16` counter `x`, advanced by the tile size 4, goes from 65532 to 0 and the
first tile row never ends, whatever number of steps it is given; in the
1x65533 image the counter `y` wraps in the same way. -/
theorem maskTiles_wraps_above_65532 (c : Consts) (isMasked : Nat → Nat → Bool)
    (sf0 cf0 : Mem) :
    maskTiles c isMasked (initGeometry 65533 1).size_x (initGeometry 65533 1).size_y
      (initGeometry 65533 1).tile_size_x (initGeometry 65533 1).tile_size_y sf0 cf0 = none ∧
    (∀ fuel t, maskTiles_xLoop c isMasked 65533 1 4 4 0 fuel 0 t = none) ∧
    maskTiles c isMasked (initGeometry 1 65533).size_x (initGeometry 1 65533).size_y
      (initGeometry 1 65533).tile_size_x (initGeometry 1 65533).tile_size_y sf0 cf0 = none ∧
    (∀ fuel t, maskTiles_yLoop c isMasked 1 65533 4 4 fuel 0 t = none) := by
  refine ⟨?_, ?_, ?_, ?_⟩
  · have hx := maskTiles_xLoop_wraps c isMasked 65533 1 4 0 (by decide) u16Fuel 0
      { sf := sf0, cf := cf0, pos := 0 } rfl (by decide)
    show maskTiles_yLoop c isMasked 65533 1 4 4 (65536 + 1) 0 { sf := sf0, cf := cf0, pos := 0 }
      = none
    unfold maskTiles_yLoop
    simp only [Nat.lt_one_iff, if_true, hx]
  · intro fuel t
    exact maskTiles_xLoop_wraps c isMasked 65533 1 4 0 (by decide) fuel 0 t rfl (by decide)
  · exact maskTiles_yLoop_wraps c isMasked 1 65533 4 (by decide) u16Fuel 0 _ rfl (by decide)
  · intro fuel t
    exact maskTiles_yLoop_wraps c isMasked 1 65533 4 (by decide) fuel 0 t rfl (by decide)

end GCIF.ImageRGBAWriter

namespace GCIF.ImagePaletteWriter

theorem filterMap_added_encAdd (syms : List Nat) :
    (syms.map PCall.encAdd).filterMap PCall.added = syms := by
  induction syms with
  | nil => rfl
  | cons a l ih => simp [PCall.added, ih]

theorem filterMap_added_encWrite (syms : List Nat) :
    (syms.map PCall.encWrite).filterMap PCall.added = [] := by
  induction syms with
  | nil => rfl
  | cons a l ih => simp [PCall.added, ih]

theorem filterMap_written_encWrite (syms : List Nat) :
    (syms.map PCall.encWrite).filterMap PCall.written = syms := by
  induction syms with
  | nil => rfl
  | cons a l ih => simp [PCall.written, ih]

theorem filterMap_written_encAdd (syms : List Nat) :
    (syms.map PCall.encAdd).filterMap PCall.written = [] := by
  induction syms with
  | nil => rfl
  | cons a l ih => simp [PCall.written, ih]

/-- The search for the best colour filter ends with the first filter of
minimal entropy, provided there is a filter and no estimate exceeds the range
of a non-negative `int`. -/
theorem writeTable_bestCF_first_min (env : Env) (w : Writer) (hcf : 0 < env.CF_COUNT)
    (hint : ∀ cf, cf < env.CF_COUNT → writeTable_entropy env w cf ≤ 0x7fffffff) :
    (writeTable_bestCF env w).1 < env.CF_COUNT ∧
    (∀ cf, cf < env.CF_COUNT →
      writeTable_entropy env w (writeTable_bestCF env w).1 ≤ writeTable_entropy env w cf) ∧
    (∀ cf, cf < (writeTable_bestCF env w).1 →
      writeTable_entropy env w (writeTable_bestCF env w).1 < writeTable_entropy env w cf) := by
  have hstep : writeTable_bestCF env w =
      (List.range env.CF_COUNT).foldl
        (fun (best : Nat × Nat) cf =>
          if writeTable_entropy env w cf < best.2 then (cf, writeTable_entropy env w cf)
          else best) (0, 0x7fffffff) := rfl
  obtain ⟨_, h2, h3⟩ := foldl_first_min (fun b : Nat × Nat => b.2) (fun b => b.1)
    (writeTable_entropy env w)
    (fun (best : Nat × Nat) cf =>
      if writeTable_entropy env w cf < best.2 then (cf, writeTable_entropy env w cf) else best)
    (fun b x h => by simp [h]) (fun b x h => by simp [h])
    (List.range env.CF_COUNT) (0, 0x7fffffff)
  rw [← hstep] at h2 h3
  rcases h3 with ⟨_, e2, e3⟩ | ⟨i, x, hi, e1, e2, _, e4⟩
  · have hv : (writeTable_bestCF env w).1 = 0 := e2
    rw [hv]
    have h0 : writeTable_entropy env w 0 = 0x7fffffff :=
      le_antisymm (hint 0 hcf) (e3 0 (List.mem_range.2 hcf))
    refine ⟨hcf, ?_, fun cf hlt => by omega⟩
    intro cf hcf1
    rw [h0]
    exact e3 cf (List.mem_range.2 hcf1)
  · have hv : (writeTable_bestCF env w).1 = x := e2
    have hk : (writeTable_bestCF env w).2 = writeTable_entropy env w x := e1
    have hilt : i < env.CF_COUNT := by
      rcases List.getElem?_eq_some.1 hi with ⟨hh, _⟩
      simpa using hh
    have hxi : x = i := by
      rw [List.getElem?_range hilt] at hi
      exact (Option.some.inj hi).symm
    rw [hv]
    refine ⟨by omega, ?_, ?_⟩
    · intro cf hcf1
      have := h2 cf (List.mem_range.2 hcf1)
      simp only [] at this
      rw [hk] at this
      exact this
    · intro cf hlt
      exact e4 cf cf (by omega) (List.getElem?_range (by omega))

/-- C27: in the entropy-coded branch of `writeTable` (palette size not below
`pal_huffThresh`), with between 1 and 17 colour filters and entropy estimates
in the range of a non-negative `int`: the value handed to `write17` is a colour
filter below `CF_COUNT`, at most 16, whose entropy is minimal, and the lowest
such filter; and the symbols added to the encoder are, in order, the symbols
written afterwards: the `(Y, U, V, 255 - alpha)` bytes of the palette entries
under that filter. -/
theorem writeTable_entropy_branch (env : Env) (w : Writer) (hcf : 0 < env.CF_COUNT)
    (hcf17 : env.CF_COUNT ≤ 17)
    (hint : ∀ cf, cf < env.CF_COUNT → writeTable_entropy env w cf ≤ 0x7fffffff)
    (hbranch : ¬ (w.palette_size : Int) < env.pal_huffThresh) :
    PCall.write17 (writeTable_bestCF env w).1 ∈ writeTable env w ∧
    (∀ v, PCall.write17 v ∈ writeTable env w → v = (writeTable_bestCF env w).1) ∧
    (writeTable_bestCF env w).1 < env.CF_COUNT ∧ (writeTable_bestCF env w).1 ≤ 16 ∧
    (∀ cf, cf < env.CF_COUNT →
      writeTable_entropy env w (writeTable_bestCF env w).1 ≤ writeTable_entropy env w cf) ∧
    (∀ cf, cf < (writeTable_bestCF env w).1 →
      writeTable_entropy env w (writeTable_bestCF env w).1 < writeTable_entropy env w cf) ∧
    (writeTable env w).filterMap PCall.added = (writeTable env w).filterMap PCall.written ∧
    (writeTable env w).filterMap PCall.written =
      ((List.range w.palette_size).map
        (fun ii => yuva env (writeTable_bestCF env w).1 (w.palette.getD ii 0))).flatten := by
  obtain ⟨h1, h2, h3⟩ := writeTable_bestCF_first_min env w hcf hint
  have hadd : (writeTable env w).filterMap PCall.added =
      ((List.range w.palette_size).map
        (fun ii => yuva env (writeTable_bestCF env w).1 (w.palette.getD ii 0))).flatten := by
    unfold writeTable
    simp only [hbranch, if_false, List.filterMap_append, filterMap_added_encAdd,
      filterMap_added_encWrite]
    simp [PCall.added]
  have hwr : (writeTable env w).filterMap PCall.written =
      ((List.range w.palette_size).map
        (fun ii => yuva env (writeTable_bestCF env w).1 (w.palette.getD ii 0))).flatten := by
    unfold writeTable
    simp only [hbranch, if_false, List.filterMap_append, filterMap_written_encAdd,
      filterMap_written_encWrite]
    simp [PCall.written]
  refine ⟨?_, ?_, h1, by omega, h2, h3, by rw [hadd, hwr], hwr⟩
  · unfold writeTable
    simp [hbranch]
  · intro v hv
    unfold writeTable at hv
    simpa [hbranch] using hv

/-- C27, witness: the two-colour palette of the 2x2 checkerboard in the sample
environment, whose threshold `0` selects the entropy-coded branch. -/
theorem writeTable_entropy_branch_witness :
    (0 < sampleEnv.CF_COUNT ∧ sampleEnv.CF_COUNT ≤ 17 ∧
      (∀ cf, cf < sampleEnv.CF_COUNT → writeTable_entropy sampleEnv (init sampleEnv checkerboard 2 2 Writer.fresh) cf ≤ 0x7fffffff) ∧
      ¬ ((init sampleEnv checkerboard 2 2 Writer.fresh).palette_size : Int) < sampleEnv.pal_huffThresh) ∧
    (PCall.write17 (writeTable_bestCF sampleEnv (init sampleEnv checkerboard 2 2 Writer.fresh)).1 ∈ writeTable sampleEnv (init sampleEnv checkerboard 2 2 Writer.fresh) ∧
    (∀ v, PCall.write17 v ∈ writeTable sampleEnv (init sampleEnv checkerboard 2 2 Writer.fresh) → v = (writeTable_bestCF sampleEnv (init sampleEnv checkerboard 2 2 Writer.fresh)).1) ∧
    (writeTable_bestCF sampleEnv (init sampleEnv checkerboard 2 2 Writer.fresh)).1 < sampleEnv.CF_COUNT ∧
    (writeTable_bestCF sampleEnv (init sampleEnv checkerboard 2 2 Writer.fresh)).1 ≤ 16 ∧
    (∀ cf, cf < sampleEnv.CF_COUNT →
      writeTable_entropy sampleEnv (init sampleEnv checkerboard 2 2 Writer.fresh) (writeTable_bestCF sampleEnv (init sampleEnv checkerboard 2 2 Writer.fresh)).1 ≤
        writeTable_entropy sampleEnv (init sampleEnv checkerboard 2 2 Writer.fresh) cf) ∧
    (∀ cf, cf < (writeTable_bestCF sampleEnv (init sampleEnv checkerboard 2 2 Writer.fresh)).1 →
      writeTable_entropy sampleEnv (init sampleEnv checkerboard 2 2 Writer.fresh) (writeTable_bestCF sampleEnv (init sampleEnv checkerboard 2 2 Writer.fresh)).1 <
        writeTable_entropy sampleEnv (init sampleEnv checkerboard 2 2 Writer.fresh) cf) ∧
    (writeTable sampleEnv (init sampleEnv checkerboard 2 2 Writer.fresh)).filterMap PCall.added =
      (writeTable sampleEnv (init sampleEnv checkerboard 2 2 Writer.fresh)).filterMap PCall.written ∧
    (writeTable sampleEnv (init sampleEnv checkerboard 2 2 Writer.fresh)).filterMap PCall.written =
      ((List.range (init sampleEnv checkerboard 2 2 Writer.fresh).palette_size).map
        (fun ii => yuva sampleEnv (writeTable_bestCF sampleEnv (init sampleEnv checkerboard 2 2 Writer.fresh)).1
          ((init sampleEnv checkerboard 2 2 Writer.fresh).palette.getD ii 0))).flatten) :=
  ⟨⟨by decide, by decide, by decide, by decide⟩,
    writeTable_entropy_branch sampleEnv (init sampleEnv checkerboard 2 2 Writer.fresh) (by decide) (by decide) (by decide) (by decide)⟩

end GCIF.ImagePaletteWriter

namespace GCIF.ImageRGBAWriter

/-- C28 (code bug): in the 2x1 image where `(0,0)` is masked and `(1,0)` is
not, `maskTiles` stores `MASK_TILE` for the only tile, `computeResiduals` skips
that tile and returns the residual buffer as `resize` left it, and
`writePixels` and `initializeEncoders` hand the bytes 4, 5 and 6 of that
buffer, the residual of the unmasked pixel `(1,0)`, to the encoders. -/
theorem unmasked_pixel_without_residual {C : Type} (ch : ChaosOps C) (chaos : C)
    (sfT : Nat → SafeFilter) (fb : FilterBank) (rgba res0 sf0 cf0 : Mem) :
    maskTiles sampleConsts (fun x _ => x == 0) 2 1 4 4 sf0 cf0 =
      some ⟨sf0.set 0 255, cf0.set 0 255, 1⟩ ∧
    computeResiduals sampleConsts (fun x _ => x == 0) sfT fb rgba ⟨2, 1, 4, 4, 1, 1⟩
      ⟨sf0.set 0 255, cf0.set 0 255, 1⟩ res0 = some res0 ∧
    writePixels ch (fun x _ => x == 0) res0 ⟨2, 1, 4, 4, 1, 1⟩ chaos =
      [Call.monoWriteRowHeader Mono.SF 0, Call.monoWriteRowHeader Mono.CF 0,
       Call.monoWriteRowHeader Mono.A 0,
       Call.encAdd (Encoder.Y (ch.getChaosY (ch.zero (ch.startRow (ch.start chaos))))) (res0 4),
       Call.encAdd (Encoder.U (ch.getChaosU (ch.zero (ch.startRow (ch.start chaos))))) (res0 5),
       Call.encAdd (Encoder.V (ch.getChaosV (ch.zero (ch.startRow (ch.start chaos))))) (res0 6),
       Call.monoWrite Mono.A 1 0] ∧
    (initializeEncoders_train ch (fun x _ => x == 0) res0 ⟨2, 1, 4, 4, 1, 1⟩ chaos).calls =
      [Call.encAdd (Encoder.Y (ch.getChaosY (ch.zero (ch.startRow (ch.start chaos))))) (res0 4),
       Call.encAdd (Encoder.U (ch.getChaosU (ch.zero (ch.startRow (ch.start chaos))))) (res0 5),
       Call.encAdd (Encoder.V (ch.getChaosV (ch.zero (ch.startRow (ch.start chaos))))) (res0 6)] :=
  ⟨rfl, rfl, rfl, rfl⟩

/-- C29 (code bug): `computeResiduals` leaves the image and stays outside the
tile. (a) In the unmasked 2x1 image (8 bytes) the tile visits the byte offsets
0, 4, 8 and 12, since `px` never advances, and stores a residual computed from
the bytes 8..10 at the offsets 8..10 of the residual buffer. (b) In the
unmasked 4x5 image `topleft` is not set back for the second tile row: the tile
`(0,1)`, whose only pixel row is `y = 4` at byte offset 64, works on the byte
offset 16 of pixel `(0,1)` with the coordinates `(0,4)`, and the residual of
pixel `(0,4)` is never assigned. -/
theorem computeResiduals_leaves_tile (fb : FilterBank) (sfT : Nat → SafeFilter)
    (rgba res0 : Mem) :
    tileRows (fun _ _ => false) 2 1 4 0 4 (2 * 4) 4 0 0 =
      [(0, 0, 0), (4, 0, 0), (8, 0, 0), (12, 0, 0)] ∧
    (computeResiduals sampleConsts (fun _ _ => false) sfT fb rgba
        ⟨2, 1, 4, 4, 1, 1⟩ ⟨fun _ => 0, fun _ => 0, 0⟩ res0).map (fun r => (r 8, r 9, r 10))
      = some (fb.rgb2yuv 0 (residualRGB rgba 8 (sfT 0 rgba 8 0 0 2))) ∧
    (computeResiduals sampleConsts (fun _ _ => false) sfT fb rgba
        ⟨4, 5, 4, 4, 1, 2⟩ ⟨fun _ => 0, fun _ => 0, 0⟩ res0).map
        (fun r => (r 64, r 65, r 66, r 16))
      = some (res0 64, res0 65, res0 66,
          (fb.rgb2yuv 0 (residualRGB rgba 16 (sfT 0 rgba 16 0 4 4))).1) :=
  ⟨rfl, rfl, rfl⟩

end GCIF.ImageRGBAWriter

namespace GCIF.ImageReader

/-- What `readBits(n)` does when `n ≤ 32` bits are buffered: no refill, the top
`n` bits are returned and the accumulator is shifted. -/
theorem readBits_no_refill {R : Type} (refill : Refill R) (n : Nat) (s : Reader R)
    (hn : n ≤ 32) (hbits : s.bits < 2 ^ 64) (hleft : (n : Int) ≤ s.bitsLeft) :
    readBits refill n s =
      (s.bits / 2 ^ (64 - n),
        { bits := (s.bits * 2 ^ n) % 2 ^ 64, bitsLeft := s.bitsLeft - n, rest := s.rest }) := by
  unfold readBits
  rw [peek_buffered refill n s hleft]
  simp only [eat, high_bits s.bits n hbits hn, Nat.shiftLeft_eq]
  norm_num

/-- The top `a + b` bits of a 64-bit value are its top `a` bits followed by the
top `b` bits of the value shifted left by `a`. -/
theorem top_bits_concat (B a b : Nat) (hab : a + b ≤ 64) :
    B / 2 ^ (64 - (a + b)) =
      B / 2 ^ (64 - a) * 2 ^ b + (B * 2 ^ a % 2 ^ 64) / 2 ^ (64 - b) ∧
    (B * 2 ^ a % 2 ^ 64) / 2 ^ (64 - b) < 2 ^ b := by
  have hP : 0 < 2 ^ (64 - (a + b)) := by positivity
  have hA : 0 < 2 ^ a := by positivity
  have h1 : 2 ^ (64 - a) = 2 ^ (64 - (a + b)) * 2 ^ b := by
    rw [← pow_add]; congr 1; omega
  have h2 : 2 ^ (64 - b) = 2 ^ a * 2 ^ (64 - (a + b)) := by
    rw [← pow_add]; congr 1; omega
  have h3 : 2 ^ 64 = 2 ^ a * (2 ^ (64 - (a + b)) * 2 ^ b) := by
    rw [← pow_add, ← pow_add]; congr 1; omega
  have hmod : B * 2 ^ a % 2 ^ 64 = 2 ^ a * (B % (2 ^ (64 - (a + b)) * 2 ^ b)) := by
    rw [h3, Nat.mul_comm B (2 ^ a), Nat.mul_mod_mul_left]
  have hv2 : (B * 2 ^ a % 2 ^ 64) / 2 ^ (64 - b) =
      B % (2 ^ (64 - (a + b)) * 2 ^ b) / 2 ^ (64 - (a + b)) := by
    rw [hmod, h2, Nat.mul_div_mul_left _ _ hA]
  have hr : B % (2 ^ (64 - (a + b)) * 2 ^ b) < 2 ^ (64 - (a + b)) * 2 ^ b :=
    Nat.mod_lt _ (by positivity)
  constructor
  · rw [hv2, h1]
    have hdecomp := Nat.div_add_mod B (2 ^ (64 - (a + b)) * 2 ^ b)
    have hsplit : B / 2 ^ (64 - (a + b)) =
        (2 ^ (64 - (a + b)) * (2 ^ b * (B / (2 ^ (64 - (a + b)) * 2 ^ b))) +
          B % (2 ^ (64 - (a + b)) * 2 ^ b)) / 2 ^ (64 - (a + b)) := by
      congr 1
      rw [← Nat.mul_assoc]
      exact hdecomp.symm
    rw [hsplit, Nat.mul_add_div hP, Nat.mul_comm (2 ^ b)]
  · rw [hv2, Nat.div_lt_iff_lt_mul hP, Nat.mul_comm (2 ^ b)]
    exact hr

/-- C32: for `a, b ≥ 1` with `a + b ≤ 31` and a reader that buffers at least
`a + b` bits, `readBits(a)` followed by `readBits(b)` gives
`(first << b) | second`, the value of one `readBits(a + b)` from the same state,
and both ways leave the same reader (accumulator, `_bitsLeft` and the rest);
`peek` with enough bits buffered leaves the reader as it is. -/
theorem readBits_concat {R : Type} (refill : Refill R) (a b : Nat) (s : Reader R)
    (ha : 1 ≤ a) (hb : 1 ≤ b) (hab : a + b ≤ 31) (hbits : s.bits < 2 ^ 64)
    (hleft : ((a + b : Nat) : Int) ≤ s.bitsLeft) :
    ((readBits refill a s).1 <<< b) ||| (readBits refill b (readBits refill a s).2).1 =
      (readBits refill (a + b) s).1 ∧
    (readBits refill b (readBits refill a s).2).2 = (readBits refill (a + b) s).2 ∧
    (readBits refill (a + b) s).1 = s.bits / 2 ^ (64 - (a + b)) ∧
    (∀ minBits : Int, minBits ≤ s.bitsLeft → (peek refill minBits s).2 = s) := by
  have hleft1 : (a : Int) ≤ s.bitsLeft := by push_cast at hleft; omega
  have h1 := readBits_no_refill refill a s (by omega) hbits hleft1
  have h12 := readBits_no_refill refill (a + b) s (by omega) hbits hleft
  have hbits1 : (readBits refill a s).2.bits < 2 ^ 64 := by
    rw [h1]
    exact Nat.mod_lt _ (by positivity)
  have hleft2 : (b : Int) ≤ (readBits refill a s).2.bitsLeft := by
    rw [h1]
    show (b : Int) ≤ s.bitsLeft - a
    push_cast at hleft
    omega
  have h2 := readBits_no_refill refill b (readBits refill a s).2 (by omega) hbits1 hleft2
  obtain ⟨hcat, hlt⟩ := top_bits_concat s.bits a b (by omega)
  refine ⟨?_, ?_, by rw [h12], ?_⟩
  · rw [h2, h12]
    rw [h1]
    show (s.bits / 2 ^ (64 - a)) <<< b ||| (s.bits * 2 ^ a % 2 ^ 64) / 2 ^ (64 - b) =
      s.bits / 2 ^ (64 - (a + b))
    rw [hcat, Nat.shiftLeft_eq, Nat.mul_comm (s.bits / 2 ^ (64 - a)) (2 ^ b)]
    exact (Nat.mul_add_lt_is_or hlt _).symm
  · rw [h2, h12]
    rw [h1]
    show ({ bits := (s.bits * 2 ^ a % 2 ^ 64) * 2 ^ b % 2 ^ 64,
            bitsLeft := s.bitsLeft - (a : Int) - (b : Int), rest := s.rest } : Reader R) =
      { bits := s.bits * 2 ^ (a + b) % 2 ^ 64, bitsLeft := s.bitsLeft - ((a + b : Nat) : Int),
        rest := s.rest }
    have hb2 : (s.bits * 2 ^ a % 2 ^ 64) * 2 ^ b % 2 ^ 64 = s.bits * 2 ^ (a + b) % 2 ^ 64 := by
      rw [Nat.mod_mul_mod, pow_add, Nat.mul_assoc]
    have hl2 : s.bitsLeft - (a : Int) - (b : Int) = s.bitsLeft - ((a + b : Nat) : Int) := by
      push_cast
      omega
    rw [hb2, hl2]
  · intro minBits hmin
    rw [peek_buffered refill minBits s hmin]

/-- C32, witness: the byte `0xA5` read as 3 bits and then 5 bits, or as 8
bits at once. -/
theorem readBits_concat_witness :
    (1 ≤ 3 ∧ 1 ≤ 5 ∧ 3 + 5 ≤ 31 ∧ (⟨0xA500000000000000, 8, ()⟩ : Reader Unit).bits < 2 ^ 64 ∧ ((3 + 5 : Nat) : Int) ≤ (⟨0xA500000000000000, 8, ()⟩ : Reader Unit).bitsLeft) ∧
    (((readBits refillNone 3 (⟨0xA500000000000000, 8, ()⟩ : Reader Unit)).1 <<< 5) |||
        (readBits refillNone 5 (readBits refillNone 3 (⟨0xA500000000000000, 8, ()⟩ : Reader Unit)).2).1 =
      (readBits refillNone (3 + 5) (⟨0xA500000000000000, 8, ()⟩ : Reader Unit)).1 ∧
    (readBits refillNone 5 (readBits refillNone 3 (⟨0xA500000000000000, 8, ()⟩ : Reader Unit)).2).2 = (readBits refillNone (3 + 5) (⟨0xA500000000000000, 8, ()⟩ : Reader Unit)).2 ∧
    (readBits refillNone (3 + 5) (⟨0xA500000000000000, 8, ()⟩ : Reader Unit)).1 = (⟨0xA500000000000000, 8, ()⟩ : Reader Unit).bits / 2 ^ (64 - (3 + 5)) ∧
    (∀ minBits : Int, minBits ≤ (⟨0xA500000000000000, 8, ()⟩ : Reader Unit).bitsLeft → (peek refillNone minBits (⟨0xA500000000000000, 8, ()⟩ : Reader Unit)).2 = (⟨0xA500000000000000, 8, ()⟩ : Reader Unit))) :=
  ⟨⟨by decide, by decide, by decide, by decide, by decide⟩,
    readBits_concat refillNone 3 5 (⟨0xA500000000000000, 8, ()⟩ : Reader Unit) (by decide) (by decide) (by decide) (by decide)
      (by decide)⟩

end GCIF.ImageReader

namespace GCIF.ImageRGBAWriter

/-- C31 (code bug): the codes `designTiles` scores are not the residuals
`computeResiduals` stores. In the unmasked 2x1 image the tile body of
`designTiles` evaluates its candidates on the elements at the byte offsets 0,
1, 2 and 3 (`++data`), so the second code of candidate `(0, 0)` is computed from
the bytes 1..3, while `computeResiduals`, with the tile assigned `(0, 0)`,
computes the residual of pixel `(1, 0)` from the bytes 4..6. For the image
`greenBlue` and the bank `pickBank` that code is `(100, 0, 0)` and that residual
is `(0, 0, 0)`. -/
theorem designTiles_codes_not_residuals {E : Type} (ops : EntropyEstimatorOps E)
    (fb : FilterBank) (sfT : Nat → SafeFilter) (rgba res0 : Mem) (sf_count : Nat)
    (revisitCount : Int) :
    designTiles_tile sampleConsts (fun _ _ => false) ops sfT fb rgba sf_count 2 1 4 4 0 0 0
        (designTiles_start ops revisitCount ⟨fun _ => 0, fun _ => 0, 0⟩) =
      Flow.next
        { designTiles_start ops revisitCount ⟨fun _ => 0, fun _ => 0, 0⟩ with
          tiles :=
            { sf := Mem.set (fun _ => 0) 0
                (designTiles_best sampleConsts ops sfT fb rgba sf_count 2
                  (designTiles_start ops revisitCount ⟨fun _ => 0, fun _ => 0, 0⟩)
                  [(0, 0, 0), (1, 0, 0), (2, 0, 0), (3, 0, 0)]).2.1
              cf := Mem.set (fun _ => 0) 0
                (designTiles_best sampleConsts ops sfT fb rgba sf_count 2
                  (designTiles_start ops revisitCount ⟨fun _ => 0, fun _ => 0, 0⟩)
                  [(0, 0, 0), (1, 0, 0), (2, 0, 0), (3, 0, 0)]).2.2
              pos := 0 } } ∧
    designTiles_codes (sfT 0) (fb.rgb2yuv 0) rgba 2
        [(0, 0, 0), (1, 0, 0), (2, 0, 0), (3, 0, 0)] =
      [fb.rgb2yuv 0 (residualRGB rgba 0 (sfT 0 rgba 0 0 0 2)),
       fb.rgb2yuv 0 (residualRGB rgba 1 (sfT 0 rgba 1 0 0 2)),
       fb.rgb2yuv 0 (residualRGB rgba 2 (sfT 0 rgba 2 0 0 2)),
       fb.rgb2yuv 0 (residualRGB rgba 3 (sfT 0 rgba 3 0 0 2))] ∧
    (computeResiduals sampleConsts (fun _ _ => false) sfT fb rgba
        ⟨2, 1, 4, 4, 1, 1⟩ ⟨fun _ => 0, fun _ => 0, 0⟩ res0).map
        (fun r => ((r 0, r 1, r 2), (r 4, r 5, r 6))) =
      some (fb.rgb2yuv 0 (residualRGB rgba 0 (sfT 0 rgba 0 0 0 2)),
        fb.rgb2yuv 0 (residualRGB rgba 4 (sfT 0 rgba 4 0 0 2))) ∧
    pickBank.rgb2yuv 0 (residualRGB greenBlue 1 (pickBank.safe 0 greenBlue 1 0 0 2)) =
      (100, 0, 0) ∧
    pickBank.rgb2yuv 0 (residualRGB greenBlue 4 (pickBank.safe 0 greenBlue 4 0 0 2)) =
      (0, 0, 0) :=
  ⟨rfl, rfl, rfl, rfl, rfl⟩

end GCIF.ImageRGBAWriter
